import Mathlib

/-! # Validator balance accounting (ChorusOne/prysm)

A shallow embedding of

* `consensus-types/balance-update/balance_update.go` (`BalanceUpdate`),
* `consensus-types/balance-update/reason.go` (`Reason`, `ReasonID`),
* `consensus-types/balance-update/breakdown.go` (`Breakdown`),
* `beacon-chain/core/helpers/rewards_penalties.go` (`TotalBalance`,
  `TotalActiveBalance`, `IncreaseBalance`, `DecreaseBalance`, `emitEvent`, the
  flattened `...WithVal` variants, `FinalityDelay` and `IsInInactivityLeak`),
* `beacon-chain/blockchain/balance_update.go` (`logBalanceUpdates`),
* the cache exercised by `beacon-chain/cache/sync_committee_head_state_test.go`,

followed by the properties proved about them.  Go `uint64` values are natural
numbers; every Go `+` and `-` on them is written with `wrapAdd` / `wrapSub`,
which reduce modulo `2 ^ 64`.
-/

/-! ## Machine arithmetic -/

/-- Go `a + b` on `uint64` operands: the sum modulo `2 ^ 64`. -/
def wrapAdd (a b : Nat) : Nat := (a + b) % 2 ^ 64

/-- Go `a - b` on `uint64` operands: the difference modulo `2 ^ 64`. -/
def wrapSub (a b : Nat) : Nat := (a + 2 ^ 64 - b) % 2 ^ 64

/-! ## `balance_update.go` -/

/-- The Go struct `BalanceUpdate`: two `uint64` fields. -/
structure BalanceUpdate where
  Increase : Nat
  Decrease : Nat
deriving DecidableEq, Repr

namespace BalanceUpdate

/-- Embeds `func (bu *BalanceUpdate) Add(delta uint64)`; the receiver is updated in
place in Go and returned here. -/
def Add (bu : BalanceUpdate) (delta : Nat) : BalanceUpdate :=
  -- bu.Increase += delta
  let bu : BalanceUpdate := { bu with Increase := wrapAdd bu.Increase delta }
  if bu.Decrease = 0 then
    bu
  else if bu.Increase > bu.Decrease then
    -- bu.Increase -= bu.Decrease; bu.Decrease = 0
    let bu : BalanceUpdate := { bu with Increase := wrapSub bu.Increase bu.Decrease }
    { bu with Decrease := 0 }
  else
    -- bu.Decrease -= bu.Increase; bu.Increase = 0
    let bu : BalanceUpdate := { bu with Decrease := wrapSub bu.Decrease bu.Increase }
    { bu with Increase := 0 }

/-- Embeds `func (bu *BalanceUpdate) Sub(delta uint64)`. -/
def Sub (bu : BalanceUpdate) (delta : Nat) : BalanceUpdate :=
  -- bu.Decrease += delta
  let bu : BalanceUpdate := { bu with Decrease := wrapAdd bu.Decrease delta }
  if bu.Increase = 0 then
    bu
  else if bu.Increase > bu.Decrease then
    let bu : BalanceUpdate := { bu with Increase := wrapSub bu.Increase bu.Decrease }
    { bu with Decrease := 0 }
  else
    let bu : BalanceUpdate := { bu with Decrease := wrapSub bu.Decrease bu.Increase }
    { bu with Increase := 0 }

/-- Embeds `func (bu BalanceUpdate) IsZero() bool`. -/
def IsZero (bu : BalanceUpdate) : Bool :=
  bu.Increase == 0 && bu.Decrease == 0

/-- The Go zero value `BalanceUpdate{}`. -/
def zero : BalanceUpdate := { Increase := 0, Decrease := 0 }

/-- The netting invariant: at most one of the two fields is non-zero. -/
def Netted (bu : BalanceUpdate) : Prop := bu.Increase = 0 ∨ bu.Decrease = 0

instance (bu : BalanceUpdate) : Decidable bu.Netted := by
  unfold Netted; infer_instance

/-- Both fields are in the range of `uint64`. -/
def InRange (bu : BalanceUpdate) : Prop := bu.Increase < 2 ^ 64 ∧ bu.Decrease < 2 ^ 64

/-- The signed net amount a `BalanceUpdate` stands for. -/
def value (bu : BalanceUpdate) : Int := (bu.Increase : Int) - (bu.Decrease : Int)

/-- The two fields exchanged. -/
def swap (bu : BalanceUpdate) : BalanceUpdate :=
  { Increase := bu.Decrease, Decrease := bu.Increase }

/-- A gain `inc` and a loss `dec` netted once: the larger minus the smaller in
its field, the other field zero. -/
def net (inc dec : Nat) : BalanceUpdate :=
  if inc > dec then { Increase := inc - dec, Decrease := 0 }
  else { Increase := 0, Decrease := dec - inc }

/-- One call on a `BalanceUpdate`: `Add(delta)` or `Sub(delta)`. -/
inductive Call where
  | add (delta : Nat)
  | sub (delta : Nat)
deriving DecidableEq, Repr

/-- Performs one call. -/
def step (bu : BalanceUpdate) : Call → BalanceUpdate
  | .add delta => bu.Add delta
  | .sub delta => bu.Sub delta

/-- Performs a sequence of calls, first to last. -/
def run (bu : BalanceUpdate) (calls : List Call) : BalanceUpdate :=
  calls.foldl step bu

end BalanceUpdate

/-! ## `reason.go` -/

/-- The Go type alias `type Reason = int`. -/
abbrev Reason := Int

/-- The constant `Test Reason = 0`, first of the constant block (`iota` is 0). -/
def Test : Reason := 0

/-- The constant `AttesterAttestation = iota`, second of the block. -/
def AttesterAttestation : Reason := 1

/-- The constant `AttesterAttestationSource = iota`. -/
def AttesterAttestationSource : Reason := 2

/-- The constant `AttesterAttestationTarget = iota`. -/
def AttesterAttestationTarget : Reason := 3

/-- The constant `AttesterHead = iota`. -/
def AttesterHead : Reason := 4

/-- The constant `AttesterInactivity = iota`. -/
def AttesterInactivity : Reason := 5

/-- The constant `ProposerAttestations = iota`. -/
def ProposerAttestations : Reason := 6

/-- The constant `ProposerProposal = iota`. -/
def ProposerProposal : Reason := 7

/-- The constant `ProposerWhistleblowing = iota`. -/
def ProposerWhistleblowing : Reason := 8

/-- The constant `ValidatorDeposit = iota`. -/
def ValidatorDeposit : Reason := 9

/-- The constant `ValidatorSlashing = iota`. -/
def ValidatorSlashing : Reason := 10

/-- The constant `ValidatorWhistleblowing = iota`. -/
def ValidatorWhistleblowing : Reason := 11

/-- The constant `ValidatorWithdrawal = iota`. -/
def ValidatorWithdrawal : Reason := 12

/-- The constant `TotalReasonsCount = iota`, fourteenth of the block; it is the
length of the array in `Breakdown` and the bound of the loop in `IsZero`. -/
def TotalReasonsCount : Nat := 13

/-- Embeds `func ReasonID(r Reason) string`; the cases of the Go `switch` are
tried in the order in which they are written. -/
def ReasonID (r : Reason) : String :=
  if r = AttesterAttestation then "attesterAttestation"
  else if r = AttesterAttestationSource then "attesterAttestationSource"
  else if r = AttesterAttestationTarget then "attesterAttestationTarget"
  else if r = AttesterHead then "attesterHead"
  else if r = AttesterInactivity then "attesterInactivity"
  else if r = ProposerAttestations then "proposerAttestations"
  else if r = ProposerProposal then "proposerProposal"
  else if r = ProposerWhistleblowing then "proposerWhistleblowing"
  else if r = ValidatorDeposit then "validatorDeposit"
  else if r = ValidatorSlashing then "validatorSlashing"
  else if r = ValidatorWhistleblowing then "validatorWhistleblowing"
  else if r = ValidatorWithdrawal then "validatorWithdrawal"
  else "unknown"

/-- The twelve production reasons in the order of the constant block, each
with the name of its Go constant. -/
def productionReasons : List (String × Reason) :=
  [("AttesterAttestation", AttesterAttestation),
   ("AttesterAttestationSource", AttesterAttestationSource),
   ("AttesterAttestationTarget", AttesterAttestationTarget),
   ("AttesterHead", AttesterHead),
   ("AttesterInactivity", AttesterInactivity),
   ("ProposerAttestations", ProposerAttestations),
   ("ProposerProposal", ProposerProposal),
   ("ProposerWhistleblowing", ProposerWhistleblowing),
   ("ValidatorDeposit", ValidatorDeposit),
   ("ValidatorSlashing", ValidatorSlashing),
   ("ValidatorWhistleblowing", ValidatorWhistleblowing),
   ("ValidatorWithdrawal", ValidatorWithdrawal)]

/-! ## `breakdown.go` -/

/-- The Go struct `Breakdown`, whose only field is the array
`breakdown [TotalReasonsCount]BalanceUpdate`: a list together with the fact that
it has the length of the array type. -/
structure Breakdown where
  breakdown : List BalanceUpdate
  size : breakdown.length = TotalReasonsCount
deriving DecidableEq, Repr

/-- The Go zero value `Breakdown{}`: every slot is the zero `BalanceUpdate`. -/
def Breakdown.zero : Breakdown :=
  { breakdown := List.replicate TotalReasonsCount BalanceUpdate.zero,
    size := List.length_replicate _ _ }

/-- Go indexing `b.breakdown[r]` with an `int`: the slot, or `none` for the
run-time panic "index out of range" when `r` is negative or not below the
length of the array. -/
def Breakdown.slot (b : Breakdown) (r : Reason) : Option BalanceUpdate :=
  if r < 0 then none else b.breakdown.get? r.toNat

/-- Embeds `func (b *Breakdown) Add(delta uint64, reason Reason)`; `none` is the
panic of the indexing. -/
def Breakdown.Add (b : Breakdown) (delta : Nat) (reason : Reason) : Option Breakdown :=
  match b.slot reason with
  | none => none
  | some bu =>
    some { breakdown := b.breakdown.set reason.toNat (bu.Add delta),
           size := (List.length_set _ _ _).trans b.size }

/-- Embeds `func (b *Breakdown) Sub(delta uint64, reason Reason)`; `none` is the
panic of the indexing. -/
def Breakdown.Sub (b : Breakdown) (delta : Nat) (reason : Reason) : Option Breakdown :=
  match b.slot reason with
  | none => none
  | some bu =>
    some { breakdown := b.breakdown.set reason.toNat (bu.Sub delta),
           size := (List.length_set _ _ _).trans b.size }

/-- The loop of `Total`: the two running sums after the slots of the list,
starting from `acc = (totalInc, totalDec)`. -/
def Breakdown.totals (slots : List BalanceUpdate) (acc : Nat × Nat) : Nat × Nat :=
  slots.foldl
    (fun acc bu =>
      let totalInc := if bu.Increase ≠ 0 then wrapAdd acc.1 bu.Increase else acc.1
      let totalDec := if bu.Decrease ≠ 0 then wrapAdd acc.2 bu.Decrease else acc.2
      (totalInc, totalDec))
    acc

/-- Embeds `func (b Breakdown) Total() BalanceUpdate`. -/
def Breakdown.Total (b : Breakdown) : BalanceUpdate :=
  let sums := Breakdown.totals b.breakdown (0, 0)
  let totalInc := sums.1
  let totalDec := sums.2
  if totalInc ≠ 0 ∧ totalDec ≠ 0 then
    if totalInc > totalDec then
      { Increase := wrapSub totalInc totalDec, Decrease := 0 }
    else
      { Increase := 0, Decrease := wrapSub totalDec totalInc }
  else
    { Increase := totalInc, Decrease := totalDec }

/-- Embeds `func (b Breakdown) IsZero() bool`: the loop over
`r = 0 .. TotalReasonsCount - 1` stops with `false` at the first slot that is
not zero. -/
def Breakdown.IsZero (b : Breakdown) : Bool :=
  (List.finRange TotalReasonsCount).all fun r =>
    (b.breakdown.get (Fin.cast b.size.symm r)).IsZero

/-- Calls of `Add` and `Sub` on a `Breakdown`, all for the reason `r`, first to
last; `none` as soon as one of them panics. -/
def Breakdown.run (r : Reason) (b : Breakdown) : List BalanceUpdate.Call → Option Breakdown
  | [] => some b
  | .add delta :: calls =>
    match b.Add delta r with
    | none => none
    | some b' => Breakdown.run r b' calls
  | .sub delta :: calls =>
    match b.Sub delta r with
    | none => none
    | some b' => Breakdown.run r b' calls

/-- The sum of the `Increase` fields of all slots, as a natural number. -/
def Breakdown.sumIncrease (b : Breakdown) : Nat := (b.breakdown.map (·.Increase)).sum

/-- The sum of the `Decrease` fields of all slots, as a natural number. -/
def Breakdown.sumDecrease (b : Breakdown) : Nat := (b.breakdown.map (·.Decrease)).sum

/-- A reason that indexes a slot of the array: `0 <= r < TotalReasonsCount`. -/
def Reason.Valid (r : Reason) : Prop := 0 ≤ r ∧ r < TotalReasonsCount

instance (r : Reason) : Decidable (Reason.Valid r) := by
  unfold Reason.Valid; infer_instance

/-- Embeds `func (b Breakdown) BalanceUpdate(r Reason) BalanceUpdate`; `none` is
the panic of the indexing. -/
def Breakdown.BalanceUpdate (b : Breakdown) (r : Reason) : Option BalanceUpdate :=
  b.slot r

/-! ## Collaborators of `rewards_penalties.go`

The Go file reaches its surroundings through the interface `state.BeaconState`,
through `params.BeaconConfig()`, through `mathutil.Add64`, `mathutil.Max`,
`slots.ToEpoch`, `IsActiveValidatorUsingTrie`, through the package-level cache
`balanceCache` and through the package-level file `jsonl` and the logger.  None
of them is defined in the embedded sources; they appear below as parameters or
as small models. -/

/-- Go `error` values met in the embedded code (`nil` is `none` of
`Option Error`); the names follow the error taxonomy of the specification. -/
inductive Error where
  | NotFound
  | InvalidInput
  | Overflow
  | Other (msg : String)
deriving DecidableEq, Repr

/-- The fields of `params.BeaconConfig()` read by the embedded code, taken as a
parameter. -/
structure BeaconChainConfig where
  EffectiveBalanceIncrement : Nat
  MinEpochsToInactivityPenalty : Nat
  SlotsPerEpoch : Nat
deriving DecidableEq, Repr

/-- What the embedded code reads of a `state.ReadOnlyValidator`: the public key
(a `[48]byte`, one number per byte), the effective balance and the two epochs
that bound the validator's activity. -/
structure Validator where
  PublicKey : List Nat
  EffectiveBalance : Nat
  ActivationEpoch : Nat
  ExitEpoch : Nat
deriving DecidableEq, Repr

/-- The methods of the Go interface `state.BeaconState` that the embedded code
calls, over an arbitrary implementation with states of type `σ` (the interface
is declared outside the embedded sources, so it is a parameter).  A reading
method returns its result; `UpdateBalancesAtIndex`, which mutates the receiver
in Go, returns the new state, or the error when it writes nothing.
`ParentRoot` stands for `LatestBlockHeader().ParentRoot`, a byte slice.
`ReadFromEveryValidator` takes a callback in Go; here it gives the validators
that the method hands to the callback, in the order of the calls, or the error
with which the method fails by itself.  `SparseBalanceUpdateBreakdown` gives
the pairs of validator index and `Breakdown` in the order in which the Go
`range` over its result visits them. -/
structure BeaconState (σ : Type) where
  Slot : σ → Nat
  ParentRoot : σ → List Nat
  ValidatorAtIndexReadOnly : σ → Nat → Except Error Validator
  BalanceAtIndex : σ → Nat → Except Error Nat
  UpdateBalancesAtIndex : σ → Nat → Nat → Except Error σ
  ReadFromEveryValidator : σ → Except Error (List Validator)
  SparseBalanceUpdateBreakdown : σ → List (Nat × Breakdown)

/-- The balance accessors of an implementation agree with each other: a balance
that was written at an index is the balance read there afterwards. -/
def BeaconState.ReadsBackWrites {σ : Type} (S : BeaconState σ) : Prop :=
  ∀ (st st' : σ) (idx val : Nat),
    S.UpdateBalancesAtIndex st idx val = .ok st' → S.BalanceAtIndex st' idx = .ok val

/-- Modelled from the spec: a concrete state behind the accessors of §6
(`slot()`, `validator_at_index(idx) -> Result<Validator, NotFound>`,
`balance_at_index(idx) -> Result<u64, NotFound>`,
`update_balances_at_index(idx, new_balance) -> Result<(), Error>`,
`for_each_validator(fn)`, `latest_block_header().parent_root`); the
beacon-state implementation itself is
missing from the sources.  Validators and balances are kept in two lists and an
index past the end of the list does not resolve; the breakdowns of the balance
updates are kept with the index of their validator. -/
structure ListState where
  slot : Nat
  parentRoot : List Nat
  validators : List Validator
  balances : List Nat
  breakdowns : List (Nat × Breakdown) := []
deriving DecidableEq, Repr

/-- The accessors of `ListState`. -/
def ListState.access : BeaconState ListState where
  Slot st := st.slot
  ParentRoot st := st.parentRoot
  ValidatorAtIndexReadOnly st idx :=
    match st.validators.get? idx with
    | some v => .ok v
    | none => .error .NotFound
  BalanceAtIndex st idx :=
    match st.balances.get? idx with
    | some b => .ok b
    | none => .error .NotFound
  UpdateBalancesAtIndex st idx val :=
    if idx < st.balances.length then
      .ok { st with balances := st.balances.set idx val }
    else
      .error .NotFound
  ReadFromEveryValidator st := .ok st.validators
  SparseBalanceUpdateBreakdown st := st.breakdowns

/-- Modelled from the spec: `mathutil.Add64` (package `math` of the repository,
missing from the sources), which §4.5 describes as computing `current + delta`
with overflow detection, failing with an `Overflow` condition if the sum would
exceed the representable range. -/
def mathutil.Add64 (a b : Nat) : Except Error Nat :=
  if a + b < 2 ^ 64 then .ok (a + b) else .error .Overflow

/-- Modelled from the spec: `mathutil.Max` (package `math` of the repository,
missing from the sources), the larger of two `uint64` values; §4.5 describes
its use as flooring the total at the minimum increment. -/
def mathutil.Max (a b : Nat) : Nat :=
  if a > b then a else b

/-- Modelled from the spec: `slots.ToEpoch` (package `time/slots` of the
repository, missing from the sources): an epoch is a fixed-length group of
consecutive slots, so the epoch of a slot is the slot divided by
`SlotsPerEpoch`. -/
def slots.ToEpoch (cfg : BeaconChainConfig) (slot : Nat) : Nat :=
  slot / cfg.SlotsPerEpoch

/-- Modelled from the spec: `IsActiveValidatorUsingTrie` (file `validators.go`
of the same Go package, missing from the sources).  By the glossary an active
validator is one whose activation epoch has passed and whose exit epoch has
not, as of the given epoch. -/
def IsActiveValidatorUsingTrie (validator : Validator) (epoch : Nat) : Bool :=
  decide (validator.ActivationEpoch ≤ epoch) && decide (epoch < validator.ExitEpoch)

/-- The two methods that the embedded code calls on the package-level variable
`balanceCache = cache.NewEffectiveBalanceCache()`, over an arbitrary
implementation with caches of type `κ` (the cache package is outside the
embedded sources, so the cache is a parameter).  `Get` fails with
`Error.NotFound` (`cache.ErrNotFound`) on a miss; `AddTotalEffectiveBalance`
returns the cache after the store, or the error when it stores nothing. -/
structure EffectiveBalanceCache (κ σ : Type) where
  Get : κ → σ → Except Error Nat
  AddTotalEffectiveBalance : κ → σ → Nat → Except Error κ

/-- Modelled from the spec: the effective-balance cache of §4.3 for `ListState`,
missing from the sources.  It holds at most one entry, a fingerprint of a state
(its epoch and its validators) with a total; `get` returns the total iff the
fingerprint of the state is the stored one and fails with `NotFound` otherwise;
`put` replaces the entry. -/
structure SingleEntryCache where
  entry : Option ((Nat × List Validator) × Nat)
deriving DecidableEq, Repr

/-- The methods of `SingleEntryCache`. -/
def SingleEntryCache.access (cfg : BeaconChainConfig) :
    EffectiveBalanceCache SingleEntryCache ListState where
  Get c st :=
    match c.entry with
    | none => .error .NotFound
    | some (key, total) =>
      if key = (slots.ToEpoch cfg st.slot, st.validators) then .ok total
      else .error .NotFound
  AddTotalEffectiveBalance _ st total :=
    .ok { entry := some ((slots.ToEpoch cfg st.slot, st.validators), total) }

/-- A cache whose lookup returns the value most recently stored for the same
state: after a successful store of `total` for `s`, `Get` for `s` gives `total`. -/
def EffectiveBalanceCache.ReturnsLastStored {κ σ : Type} (C : EffectiveBalanceCache κ σ) :
    Prop :=
  ∀ (c c' : κ) (s : σ) (total : Nat),
    C.AddTotalEffectiveBalance c s total = .ok c' → C.Get c' s = .ok total

/-- One entry written through the logger (`log.WithFields(...).Info(...)`,
`log.WithError(err).Error(...)`): level, message and rendered fields. -/
structure LogEntry where
  level : String
  msg : String
  fields : List (String × String)
deriving DecidableEq, Repr

/-- One operation on the mutex `mxJsonl` or on the file `jsonl`:
`mxJsonl.Lock()`, `mxJsonl.Unlock()`, `jsonl.WriteString(s)`, `jsonl.Close()`. -/
inductive SinkOp where
  | Lock
  | Unlock
  | WriteString (s : String)
  | Close
deriving DecidableEq, Repr

/-- The audit sink of one Go package, its file `jsonl` with its mutex
`mxJsonl`: the strings written so far to the file (oldest first), whether the
file has been closed (after the shutdown handler has closed it every write
fails), the log entries made so far, and the operations made so far on the
mutex and on the file, in the order in which the code makes them. -/
structure AuditSink where
  jsonl : List String
  closed : Bool
  log : List LogEntry
  ops : List SinkOp
deriving DecidableEq, Repr

/-- `mxJsonl.Lock()`. -/
def AuditSink.Lock (sink : AuditSink) : AuditSink :=
  { sink with ops := sink.ops ++ [.Lock] }

/-- `mxJsonl.Unlock()`. -/
def AuditSink.Unlock (sink : AuditSink) : AuditSink :=
  { sink with ops := sink.ops ++ [.Unlock] }

/-- `jsonl.WriteString(s)`: appends `s`, or fails on a closed file and appends
nothing; the second component is the returned error (`none` for `nil`). -/
def AuditSink.WriteString (sink : AuditSink) (s : String) : AuditSink × Option Error :=
  let sink := { sink with ops := sink.ops ++ [.WriteString s] }
  if sink.closed then (sink, some (.Other "file already closed"))
  else ({ sink with jsonl := sink.jsonl ++ [s] }, none)

/-- `jsonl.Close()`: closes the file, or fails on a file that is closed
already. -/
def AuditSink.Close (sink : AuditSink) : AuditSink × Option Error :=
  let sink := { sink with ops := sink.ops ++ [.Close] }
  if sink.closed then (sink, some (.Other "file already closed"))
  else ({ sink with closed := true }, none)

/-- Appends one log entry. -/
def AuditSink.logEntry (sink : AuditSink) (e : LogEntry) : AuditSink :=
  { sink with log := sink.log ++ [e] }

/-- Two lower-case hexadecimal digits of one byte. -/
def hexByte (b : Nat) : List Char :=
  [Nat.digitChar (b / 16), Nat.digitChar (b % 16)]

/-- Go `fmt.Sprintf("%#x", bytes)` for a byte array or slice: `0x` followed by
two hexadecimal digits per byte, and nothing at all for no bytes. -/
def sharpHex (bytes : List Nat) : String :=
  if bytes.isEmpty then "" else "0x" ++ String.mk (bytes.flatMap hexByte)

/-- Go `fmt.Sprintf("%d", n)` for an unsigned number. -/
def decimal (n : Nat) : String := Nat.repr n

/-! ## `rewards_penalties.go` -/

/-- Embeds `func TotalBalance(state state.ReadOnlyValidators, indices []types.ValidatorIndex) uint64`. -/
def TotalBalance {σ : Type} (cfg : BeaconChainConfig) (S : BeaconState σ) (st : σ)
    (indices : List Nat) : Nat :=
  let total := indices.foldl
    (fun total idx =>
      match S.ValidatorAtIndexReadOnly st idx with
      | .error _ => total
      | .ok val => wrapAdd total val.EffectiveBalance)
    0
  if total < cfg.EffectiveBalanceIncrement then
    cfg.EffectiveBalanceIncrement
  else
    total

/-- What a call of `TotalActiveBalance` leaves behind: the two results (`err`
is `none` for `nil`), the cache, and how many times the call has run
`ReadFromEveryValidator`, the scan over all validators. -/
structure ActiveBalanceOutcome (κ : Type) where
  value : Nat
  err : Option Error
  cache : κ
  scans : Nat

/-- Embeds `func TotalActiveBalance(s state.ReadOnlyBeaconState) (uint64, error)`;
`errors.Is(err, cache.ErrNotFound)` is the comparison with `Error.NotFound`. -/
def TotalActiveBalance {κ σ : Type} (cfg : BeaconChainConfig)
    (C : EffectiveBalanceCache κ σ) (c : κ) (S : BeaconState σ) (s : σ) :
    ActiveBalanceOutcome κ :=
  match C.Get c s with
  | .ok bal => { value := bal, err := none, cache := c, scans := 0 }
  | .error err =>
    if err = .NotFound then
      let epoch := slots.ToEpoch cfg (S.Slot s)
      match S.ReadFromEveryValidator s with
      | .error err => { value := 0, err := some err, cache := c, scans := 1 }
      | .ok vals =>
        let total := vals.foldl
          (fun total val =>
            if IsActiveValidatorUsingTrie val epoch then
              wrapAdd total val.EffectiveBalance
            else
              total)
          0
        let total := mathutil.Max cfg.EffectiveBalanceIncrement total
        match C.AddTotalEffectiveBalance c s total with
        | .error err => { value := 0, err := some err, cache := c, scans := 1 }
        | .ok c => { value := total, err := none, cache := c, scans := 1 }
    else
      { value := 0, err := some err, cache := c, scans := 0 }

/-- Embeds `func IncreaseBalanceWithVal(currBalance, delta uint64) (uint64, error)`. -/
def IncreaseBalanceWithVal (currBalance delta : Nat) : Except Error Nat :=
  mathutil.Add64 currBalance delta

/-- Embeds `func DecreaseBalanceWithVal(currBalance, delta uint64) uint64`. -/
def DecreaseBalanceWithVal (currBalance delta : Nat) : Nat :=
  if delta > currBalance then
    0
  else
    wrapSub currBalance delta

/-- The line that `emitEvent` writes to `jsonl`, from the values already
rendered; it is the format string of the Go code with its arguments filled in. -/
def eventLine (epoch slot : Nat) (parentRoot strKey strDelta reason : String) : String :=
  "\x7b\"epoch\":" ++ decimal epoch ++ ",\"slot\":" ++ decimal slot ++
    ",\"parentRoot\":\"" ++ parentRoot ++ "\",\"key\",\"" ++ strKey ++
    "\",\"delta\":" ++ strDelta ++ ",\"reason\":\"" ++ reason ++ "\"\x7d\n"

/-- Embeds `func emitEvent(state state.BeaconState, idx types.ValidatorIndex, delta uint64, increment bool, reason string)`:
returns the audit sink after the call. -/
def emitEvent {σ : Type} (cfg : BeaconChainConfig) (S : BeaconState σ) (st : σ)
    (sink : AuditSink) (idx delta : Nat) (increment : Bool) (reason : String) : AuditSink :=
  if delta = 0 ∨ reason.length = 0 then
    sink
  else
    let slot := S.Slot st
    let epoch := slots.ToEpoch cfg slot
    let key : List Nat :=
      match S.ValidatorAtIndexReadOnly st idx with
      | .ok validator => validator.PublicKey
      | .error _ => List.replicate 48 0
    let strKey := sharpHex key
    let strDelta := if increment then decimal delta else "-" ++ decimal delta
    let parentRoot := sharpHex (S.ParentRoot st)
    let sink := sink.logEntry
      { level := "info", msg := "Validator balance updated",
        fields := [("epoch", decimal epoch), ("slot", decimal slot),
          ("parentRoot", parentRoot), ("key", strKey), ("delta", strDelta),
          ("reason", reason)] }
    let sink := sink.Lock
    let sink :=
      match sink.WriteString (eventLine epoch slot parentRoot strKey strDelta reason) with
      | (sink, none) => sink
      | (sink, some _) =>
        sink.logEntry { level := "error", msg := "Failed to write into eth-jsonl", fields := [] }
    sink.Unlock

/-- The record that `emitEvent` writes for these arguments: `eventLine` of the
values that `emitEvent` computes from them. -/
def eventRecord {σ : Type} (cfg : BeaconChainConfig) (S : BeaconState σ) (st : σ)
    (idx delta : Nat) (increment : Bool) (reason : String) : String :=
  eventLine (slots.ToEpoch cfg (S.Slot st)) (S.Slot st) (sharpHex (S.ParentRoot st))
    (sharpHex
      (match S.ValidatorAtIndexReadOnly st idx with
      | .ok validator => validator.PublicKey
      | .error _ => List.replicate 48 0))
    (if increment then decimal delta else "-" ++ decimal delta) reason

/-- The body of the goroutine started by `init()`, in `rewards_penalties.go` and
again in `blockchain/balance_update.go`, once a shutdown signal has arrived:
returns the audit sink after it. -/
def closeOnShutdown (sink : AuditSink) : AuditSink :=
  let sink := sink.Lock
  let sink := sink.logEntry { level := "info", msg := "Closing eth-jsonl", fields := [] }
  let sink :=
    match sink.Close with
    | (sink, none) => sink
    | (sink, some _) =>
      sink.logEntry { level := "error", msg := "Failed to close eth-jsonl", fields := [] }
  sink.Unlock

/-- Walks through a sequence of operations, `held` telling whether the mutex is
held before the first of them: true iff every `WriteString` and every `Close`
is made while the mutex is held. -/
def SinkOp.guardedFrom (held : Bool) : List SinkOp → Bool
  | [] => true
  | .Lock :: ops => SinkOp.guardedFrom true ops
  | .Unlock :: ops => SinkOp.guardedFrom false ops
  | .WriteString _ :: ops => held && SinkOp.guardedFrom held ops
  | .Close :: ops => held && SinkOp.guardedFrom held ops

/-- Every write to the file and every close of it is made under the mutex, in a
sequence of operations that starts with the mutex free. -/
def SinkOp.Guarded (ops : List SinkOp) : Prop := SinkOp.guardedFrom false ops = true

instance (ops : List SinkOp) : Decidable (SinkOp.Guarded ops) := by
  unfold SinkOp.Guarded; infer_instance

/-- What a balance operation leaves behind: the returned error (`none` for
`nil`), the state and the audit sink. -/
structure Outcome (σ : Type) where
  err : Option Error
  state : σ
  sink : AuditSink

/-- Embeds `func IncreaseBalance(state state.BeaconState, idx types.ValidatorIndex, delta uint64, reason string) error`. -/
def IncreaseBalance {σ : Type} (cfg : BeaconChainConfig) (S : BeaconState σ) (st : σ)
    (sink : AuditSink) (idx delta : Nat) (reason : String) : Outcome σ :=
  match S.BalanceAtIndex st idx with
  | .error err => { err := some err, state := st, sink := sink }
  | .ok balAtIdx =>
    match IncreaseBalanceWithVal balAtIdx delta with
    | .error err => { err := some err, state := st, sink := sink }
    | .ok newBal =>
      let sink := emitEvent cfg S st sink idx delta true reason
      match S.UpdateBalancesAtIndex st idx newBal with
      | .error err => { err := some err, state := st, sink := sink }
      | .ok st => { err := none, state := st, sink := sink }

/-- Embeds `func DecreaseBalance(state state.BeaconState, idx types.ValidatorIndex, delta uint64, reason string) error`. -/
def DecreaseBalance {σ : Type} (cfg : BeaconChainConfig) (S : BeaconState σ) (st : σ)
    (sink : AuditSink) (idx delta : Nat) (reason : String) : Outcome σ :=
  match S.BalanceAtIndex st idx with
  | .error err => { err := some err, state := st, sink := sink }
  | .ok balAtIdx =>
    let sink := emitEvent cfg S st sink idx delta false reason
    match S.UpdateBalancesAtIndex st idx (DecreaseBalanceWithVal balAtIdx delta) with
    | .error err => { err := some err, state := st, sink := sink }
    | .ok st => { err := none, state := st, sink := sink }

/-- Embeds `func FinalityDelay(prevEpoch, finalizedEpoch types.Epoch) types.Epoch`;
`types.Epoch` is a `uint64`. -/
def FinalityDelay (prevEpoch finalizedEpoch : Nat) : Nat :=
  wrapSub prevEpoch finalizedEpoch

/-- Embeds `func IsInInactivityLeak(prevEpoch, finalizedEpoch types.Epoch) bool`. -/
def IsInInactivityLeak (cfg : BeaconChainConfig) (prevEpoch finalizedEpoch : Nat) : Bool :=
  decide (FinalityDelay prevEpoch finalizedEpoch > cfg.MinEpochsToInactivityPenalty)

/-- The effective balances of the validators of the list that are active at the
epoch, in the order of the list. -/
def activeBalances (vals : List Validator) (epoch : Nat) : List Nat :=
  (vals.filter fun val => IsActiveValidatorUsingTrie val epoch).map (·.EffectiveBalance)

/-- The effective balances of the listed indices whose validator lookup
succeeds, in the order of the list (an index listed twice counts twice). -/
def resolvedBalances {σ : Type} (S : BeaconState σ) (st : σ) (indices : List Nat) : List Nat :=
  indices.filterMap fun idx =>
    match S.ValidatorAtIndexReadOnly st idx with
    | .ok val => some val.EffectiveBalance
    | .error _ => none

/-! ## `blockchain/balance_update.go` -/

/-- The loop `for r := 0; r < balanceupdate.TotalReasonsCount; r++` of
`logBalanceUpdates` over the remaining ordinals, `l` being the line built so
far; `none` is the panic of `bub.BalanceUpdate(r)` on an index out of range. -/
def summaryFields (bub : Breakdown) (l : String) : List Nat → Option String
  | [] => some l
  | r :: rs =>
    match bub.BalanceUpdate (r : Int) with
    | none => none
    | some delta =>
      let l :=
        if !delta.IsZero then
          if delta.Decrease ≠ 0 then
            l ++ (",\"" ++ ReasonID (r : Int) ++ "\":-" ++ decimal delta.Decrease)
          else
            l ++ (",\"" ++ ReasonID (r : Int) ++ "\":" ++ decimal delta.Increase)
        else
          l
      summaryFields bub l rs

/-- The line `l` that the body of the loop of `logBalanceUpdates` builds for the
validator index `idx` and its breakdown `bub`, at the slot of the state. -/
def summaryLine (cfg : BeaconChainConfig) (slot idx : Nat) (bub : Breakdown) : Option String :=
  let l := "\x7b\"epoch\":" ++ decimal (slots.ToEpoch cfg slot) ++ ",\"slot\":" ++
    decimal slot ++ ",\"index\":\"" ++ decimal idx ++ "\",\"delta\":"
  let total := bub.Total
  let l :=
    if total.Decrease ≠ 0 then
      l ++ ("-" ++ decimal total.Decrease)
    else
      l ++ decimal total.Increase
  match summaryFields bub l (List.range TotalReasonsCount) with
  | none => none
  | some l => some (l ++ "\x7d\n")

/-- The loop `for idx, bub := range sbub` of `logBalanceUpdates` over the
remaining pairs. -/
def logBalanceUpdatesLoop (cfg : BeaconChainConfig) (slot : Nat) :
    List (Nat × Breakdown) → AuditSink → Option AuditSink
  | [], sink => some sink
  | (idx, bub) :: rest, sink =>
    match summaryLine cfg slot idx bub with
    | none => none
    | some l =>
      let sink :=
        match sink.WriteString l with
        | (sink, none) => sink
        | (sink, some _) =>
          sink.logEntry
            { level := "error", msg := "Failed to write into eth-jsonl", fields := [] }
      logBalanceUpdatesLoop cfg slot rest sink

/-- Embeds `func logBalanceUpdates(st state.BeaconState)`: the audit sink of the
package `blockchain` after the call, or `none` if the call panics. -/
def logBalanceUpdates {σ : Type} (cfg : BeaconChainConfig) (S : BeaconState σ) (st : σ)
    (sink : AuditSink) : Option AuditSink :=
  let sbub := S.SparseBalanceUpdateBreakdown st
  logBalanceUpdatesLoop cfg (S.Slot st) sbub sink

/-- A `BalanceUpdate` as a signed decimal: `-` and `Decrease` if `Decrease` is
non-zero, `Increase` otherwise. -/
def signedDecimal (bu : BalanceUpdate) : String :=
  if bu.Decrease ≠ 0 then "-" ++ decimal bu.Decrease else decimal bu.Increase

/-- The strings of a list one after the other. -/
def joinFields : List String → String
  | [] => ""
  | field :: fields => field ++ joinFields fields

/-- The summary line as the specification words it: the head with epoch, slot,
index and the total as a signed decimal, then one field per ordinal whose slot
is non-zero, in increasing ordinal order, named by `ReasonID` and valued by the
slot as a signed decimal, then the closing brace and a newline. -/
def summaryLineSpec (cfg : BeaconChainConfig) (slot idx : Nat) (bub : Breakdown) : String :=
  "\x7b\"epoch\":" ++ decimal (slots.ToEpoch cfg slot) ++ ",\"slot\":" ++
    decimal slot ++ ",\"index\":\"" ++ decimal idx ++ "\",\"delta\":" ++
    signedDecimal bub.Total ++
    joinFields
      ((bub.breakdown.enum.filter fun p => !p.2.IsZero).map fun p =>
        ",\"" ++ ReasonID (p.1 : Int) ++ "\":" ++ signedDecimal p.2) ++
    "\x7d\n"

/-! ## The sync-committee head state cache -/

/-- The fork versions of a state, oldest first. -/
inductive Version where
  | Phase0
  | Altair
  | Bellatrix
  | Capella
deriving DecidableEq, Repr

/-- The place of a version in the order of the forks. -/
def Version.ordinal : Version → Nat
  | .Phase0 => 0
  | .Altair => 1
  | .Bellatrix => 2
  | .Capella => 3

/-- Modelled from the spec: the sync-committee head state cache of §4.4, whose
implementation is missing from the sources (only its test is there).  The
cache holds at most one pair of a slot and a state. -/
structure SyncCommitteeHeadStateCache (σ : Type) where
  entry : Option (Nat × σ)
deriving DecidableEq, Repr

/-- Modelled from the spec: `NewSyncCommitteeHeadState()`, the empty cache. -/
def NewSyncCommitteeHeadState {σ : Type} : SyncCommitteeHeadStateCache σ :=
  { entry := none }

/-- Modelled from the spec: `Put(slot, state)` of §4.4, where `none` is the nil
state and `version` gives the fork version of a state.  "`put` fails with
`InvalidInput` if `state` is absent, or if `state`'s fork version predates the
minimum version that carries sync-committee data ...  On success it replaces
any previously stored `(slot, state)` pair unconditionally."  The result is the
cache after the call with the returned error (`none` for `nil`). -/
def SyncCommitteeHeadStateCache.Put {σ : Type} (version : σ → Version)
    (c : SyncCommitteeHeadStateCache σ) (slot : Nat) (st : Option σ) :
    SyncCommitteeHeadStateCache σ × Option Error :=
  match st with
  | none => (c, some .InvalidInput)
  | some st =>
    if (version st).ordinal < Version.Altair.ordinal then (c, some .InvalidInput)
    else ({ entry := some (slot, st) }, none)

/-- Modelled from the spec: `Get(slot)` of §4.4.  "`get` fails with `NotFound`
if the cache is empty or if the requested slot does not equal the slot of the
single currently stored entry." -/
def SyncCommitteeHeadStateCache.Get {σ : Type} (c : SyncCommitteeHeadStateCache σ)
    (slot : Nat) : Except Error σ :=
  match c.entry with
  | none => .error .NotFound
  | some (stored, st) => if slot = stored then .ok st else .error .NotFound

/-- A sequence of `Put` calls, first to last, whatever each one returns. -/
def SyncCommitteeHeadStateCache.putAll {σ : Type} (version : σ → Version)
    (c : SyncCommitteeHeadStateCache σ) (puts : List (Nat × Option σ)) :
    SyncCommitteeHeadStateCache σ :=
  puts.foldl (fun c p => (c.Put version p.1 p.2).1) c

/-- The `Put` calls of a sequence that are given a state of version Altair or
later, each with its slot and state, in the order of the calls. -/
def acceptedPuts {σ : Type} (version : σ → Version) (puts : List (Nat × Option σ)) :
    List (Nat × σ) :=
  puts.filterMap fun p =>
    match p.2 with
    | none => none
    | some st =>
      if Version.Altair.ordinal ≤ (version st).ordinal then some (p.1, st) else none

/-! ## Logging balance changes in a `BalanceUpdate` -/

/-- One change made to a validator's balance.  An increase carries the delta
handed to `IncreaseBalanceWithVal`; once the overflow check has passed the
balance rises by exactly that delta, and it is the delta handed to `Add`.  A
decrease carries the delta handed to `DecreaseBalanceWithVal` and, apart from
it, the amount `logged` that is handed to `Sub`: the two differ when the
decrease saturates, and nothing in the sources says which of them is logged. -/
inductive BalanceChange where
  | increase (delta : Nat)
  | decrease (delta logged : Nat)
deriving DecidableEq, Repr

/-- A validator's balance together with the `BalanceUpdate` that logs the
changes made to it. -/
structure Ledger where
  balance : Nat
  update : BalanceUpdate
deriving DecidableEq, Repr

/-- Modelled from the spec: the caller of `Add`/`Sub`, which is missing from
the sources.  Following §4.1 and the comment in `Add`/`Sub` ("the add/sub
operation on balance is checked before we log the BalanceUpdate"), a change is
first applied to the balance, an increase with the overflow check of
`IncreaseBalanceWithVal` and a decrease with `DecreaseBalanceWithVal`, and is
then logged with `Add` for an increase and `Sub` for a decrease.  An increase
that fails the check is rejected and logs nothing.  Which amount a decrease
hands to `Sub` is left to the change (`logged`), since neither §4.1 nor the
comment fixes it. -/
def Ledger.apply (l : Ledger) : BalanceChange → Except Error Ledger
  | .increase delta =>
    match IncreaseBalanceWithVal l.balance delta with
    | .error err => .error err
    | .ok newBal => .ok { balance := newBal, update := l.update.Add delta }
  | .decrease delta logged =>
    .ok { balance := DecreaseBalanceWithVal l.balance delta, update := l.update.Sub logged }

/-- The changes of a sequence that are applied, each paired with the ledger it
is applied to; the sequence ends at the first rejected increase. -/
def Ledger.trace (l : Ledger) : List BalanceChange → List (Ledger × BalanceChange)
  | [] => []
  | c :: cs =>
    match l.apply c with
    | .error _ => []
    | .ok l' => (l, c) :: l'.trace cs

/-- The addition that `Add` (for an increase) or `Sub` (for a decrease)
performs on `bu` for this change does not wrap: the field it adds to, plus the
amount handed to it, stays below `2 ^ 64`. -/
def BalanceChange.Fits (c : BalanceChange) (bu : BalanceUpdate) : Prop :=
  match c with
  | .increase delta => bu.Increase + delta < 2 ^ 64
  | .decrease _ logged => bu.Decrease + logged < 2 ^ 64

instance (c : BalanceChange) (bu : BalanceUpdate) : Decidable (c.Fits bu) := by
  unfold BalanceChange.Fits; cases c <;> infer_instance

/-- The change logs its own delta: a decrease hands to `Sub` the delta it
handed to `DecreaseBalanceWithVal`. -/
def BalanceChange.LogsDelta (c : BalanceChange) : Prop :=
  match c with
  | .increase _ => True
  | .decrease delta logged => logged = delta

instance (c : BalanceChange) : Decidable c.LogsDelta := by
  unfold BalanceChange.LogsDelta; cases c <;> infer_instance

/-- The change logs what the balance lost: a decrease applied to `balance`
hands to `Sub` the difference between `balance` and the balance that
`DecreaseBalanceWithVal` returns.  That is the delta when the delta does not
exceed the balance, and the whole balance when the decrease saturates. -/
def BalanceChange.LogsApplied (c : BalanceChange) (balance : Nat) : Prop :=
  match c with
  | .increase _ => True
  | .decrease delta logged => logged = balance - DecreaseBalanceWithVal balance delta

instance (c : BalanceChange) (balance : Nat) : Decidable (c.LogsApplied balance) := by
  unfold BalanceChange.LogsApplied; cases c <;> infer_instance

/-! ## Sample values

Small concrete inputs on which the definitions are evaluated. -/

/-- A configuration with the mainnet values of the three fields. -/
def sampleConfig : BeaconChainConfig :=
  { EffectiveBalanceIncrement := 1000000000, MinEpochsToInactivityPenalty := 4,
    SlotsPerEpoch := 32 }

/-- A validator with the given effective balance. -/
def sampleValidator (effectiveBalance : Nat) : Validator :=
  { PublicKey := List.replicate 48 171, EffectiveBalance := effectiveBalance,
    ActivationEpoch := 0, ExitEpoch := 1000 }

/-- A state at slot 70 with two validators, of balances `bal` and `7`. -/
def sampleState (bal : Nat) : ListState :=
  { slot := 70, parentRoot := [1, 255],
    validators := [sampleValidator 32000000000, sampleValidator 31000000000],
    balances := [bal, 7] }

/-- An open audit sink with nothing written to it. -/
def sampleSink : AuditSink := { jsonl := [], closed := false, log := [], ops := [] }

/-- A breakdown with a gain of 5 for `AttesterAttestation`, a loss of 3 for
`ValidatorSlashing` and nothing else. -/
def sampleBreakdown : Breakdown :=
  { breakdown :=
      [⟨0, 0⟩, ⟨5, 0⟩, ⟨0, 0⟩, ⟨0, 0⟩, ⟨0, 0⟩, ⟨0, 0⟩, ⟨0, 0⟩,
       ⟨0, 0⟩, ⟨0, 0⟩, ⟨0, 0⟩, ⟨0, 3⟩, ⟨0, 0⟩, ⟨0, 0⟩],
    size := rfl }

/-- A breakdown with a loss of `2^63` for `AttesterAttestation` and a loss of
`2^63` for `AttesterAttestationSource`: its `Decrease` fields sum to `2^64`. -/
def lossyBreakdown : Breakdown :=
  { breakdown :=
      [⟨0, 0⟩, ⟨0, 2 ^ 63⟩, ⟨0, 2 ^ 63⟩, ⟨0, 0⟩, ⟨0, 0⟩, ⟨0, 0⟩, ⟨0, 0⟩,
       ⟨0, 0⟩, ⟨0, 0⟩, ⟨0, 0⟩, ⟨0, 0⟩, ⟨0, 0⟩, ⟨0, 0⟩],
    size := rfl }

/-- A breakdown with a gain of `2^63` for `AttesterAttestation` and a gain of
`2^63` for `AttesterAttestationSource`: its `Increase` fields sum to `2^64`. -/
def gainfulBreakdown : Breakdown :=
  { breakdown :=
      [⟨0, 0⟩, ⟨2 ^ 63, 0⟩, ⟨2 ^ 63, 0⟩, ⟨0, 0⟩, ⟨0, 0⟩, ⟨0, 0⟩, ⟨0, 0⟩,
       ⟨0, 0⟩, ⟨0, 0⟩, ⟨0, 0⟩, ⟨0, 0⟩, ⟨0, 0⟩, ⟨0, 0⟩],
    size := rfl }

/-- A state at slot 70 whose validators have the given effective balances. -/
def sampleStateOf (effectiveBalances : List Nat) : ListState :=
  { slot := 70, parentRoot := [1, 255],
    validators := effectiveBalances.map sampleValidator,
    balances := effectiveBalances }

/-- An effective-balance cache with no entry. -/
def emptyCache : SingleEntryCache := { entry := none }

/-- An audit sink whose file has been closed. -/
def closedSink : AuditSink := { jsonl := [], closed := true, log := [], ops := [] }

/-- A cache that never holds an entry and whose store fails. -/
def storeFailingCache : EffectiveBalanceCache Unit ListState where
  Get _ _ := .error .NotFound
  AddTotalEffectiveBalance _ _ _ := .error (.Other "balance cache store")

/-- The accessors of `ListState`, except that every balance write fails. -/
def frozenAccess : BeaconState ListState :=
  { ListState.access with
    UpdateBalancesAtIndex := fun _ _ _ => .error (.Other "invalid index provided") }

/-- A state at slot 70 that reports `sampleBreakdown` for the validator 3. -/
def sampleLoggedState : ListState :=
  { slot := 70, parentRoot := [1, 255],
    validators := [sampleValidator 32000000000],
    balances := [5],
    breakdowns := [(3, sampleBreakdown)] }

/-- A cache whose every call fails, whatever the state. -/
def failingCache : EffectiveBalanceCache Unit ListState where
  Get _ _ := .error (.Other "balance cache key")
  AddTotalEffectiveBalance _ _ _ := .error (.Other "balance cache key")

/-! ## Properties of `BalanceUpdate` -/

theorem BalanceUpdate.netted_Add (bu : BalanceUpdate) (delta : Nat) :
    (bu.Add delta).Netted := by
  unfold BalanceUpdate.Add BalanceUpdate.Netted
  by_cases h0 : bu.Decrease = 0
  · simp [h0]
  · by_cases h1 : wrapAdd bu.Increase delta > bu.Decrease <;> simp [h0, h1]

theorem BalanceUpdate.netted_Sub (bu : BalanceUpdate) (delta : Nat) :
    (bu.Sub delta).Netted := by
  unfold BalanceUpdate.Sub BalanceUpdate.Netted
  by_cases h0 : bu.Increase = 0
  · simp [h0]
  · by_cases h1 : bu.Increase > wrapAdd bu.Decrease delta <;> simp [h0, h1]

theorem BalanceUpdate.run_append (bu : BalanceUpdate) (xs ys : List BalanceUpdate.Call) :
    bu.run (xs ++ ys) = (bu.run xs).run ys := by
  simp [BalanceUpdate.run, List.foldl_append]

theorem BalanceUpdate.netted_run (bu : BalanceUpdate) (h : bu.Netted)
    (calls : List BalanceUpdate.Call) : (bu.run calls).Netted := by
  induction calls generalizing bu with
  | nil => simpa [BalanceUpdate.run] using h
  | cons c cs ih =>
    have hs : (bu.step c).Netted := by
      cases c with
      | add delta => exact BalanceUpdate.netted_Add bu delta
      | sub delta => exact BalanceUpdate.netted_Sub bu delta
    simpa [BalanceUpdate.run] using ih (bu.step c) hs

/-- C1. For every `BalanceUpdate` (fields arbitrary, arithmetic wrapping modulo
`2 ^ 64`) and every delta, at most one of `Increase` and `Decrease` is non-zero
after `Add(delta)` and after `Sub(delta)`; hence, starting from the zero value,
the netting invariant holds after every call of every sequence of `Add`/`Sub`
calls (after each prefix `calls.take k` of the sequence). -/
theorem BalanceUpdate_netting_invariant :
    (∀ (bu : BalanceUpdate) (delta : Nat),
        (bu.Add delta).Netted ∧ (bu.Sub delta).Netted) ∧
    (∀ (calls : List BalanceUpdate.Call) (k : Nat),
        (BalanceUpdate.zero.run (calls.take k)).Netted) := by
  refine ⟨fun bu delta => ⟨BalanceUpdate.netted_Add bu delta, BalanceUpdate.netted_Sub bu delta⟩, ?_⟩
  intro calls k
  exact BalanceUpdate.netted_run _ (Or.inl rfl) _


theorem wrapAdd_eq (a b : Nat) (h : a + b < 2 ^ 64) : wrapAdd a b = a + b := by
  unfold wrapAdd; omega

theorem wrapSub_eq (a b : Nat) (ha : a < 2 ^ 64) (h : b ≤ a) : wrapSub a b = a - b := by
  unfold wrapSub; omega

theorem wrapSub_self (a : Nat) : wrapSub a a = 0 := by
  unfold wrapSub; omega

theorem BalanceUpdate.value_Add (bu : BalanceUpdate) (delta : Nat) (hr : bu.InRange)
    (h : bu.Increase + delta < 2 ^ 64) : (bu.Add delta).value = bu.value + delta := by
  obtain ⟨hi, hd⟩ := hr
  unfold BalanceUpdate.Add BalanceUpdate.value
  simp only [wrapAdd_eq _ _ h]
  split_ifs with h0 h1
  · simp [h0]
  · simp only [gt_iff_lt] at h1
    rw [wrapSub_eq _ _ h (Nat.le_of_lt h1)]
    push_cast [Nat.le_of_lt h1]
    omega
  · simp only [gt_iff_lt, not_lt] at h1
    rw [wrapSub_eq _ _ hd h1]
    push_cast [h1]
    omega

theorem BalanceUpdate.value_Sub (bu : BalanceUpdate) (delta : Nat) (hr : bu.InRange)
    (h : bu.Decrease + delta < 2 ^ 64) : (bu.Sub delta).value = bu.value - delta := by
  obtain ⟨hi, hd⟩ := hr
  unfold BalanceUpdate.Sub BalanceUpdate.value
  simp only [wrapAdd_eq _ _ h]
  split_ifs with h0 h1
  · simp only [h0]; push_cast; omega
  · simp only [gt_iff_lt] at h1
    rw [wrapSub_eq _ _ hi (Nat.le_of_lt h1)]
    push_cast [Nat.le_of_lt h1]
    omega
  · simp only [gt_iff_lt, not_lt] at h1
    rw [wrapSub_eq _ _ h h1]
    push_cast [h1]
    omega

theorem BalanceUpdate.zero_Add_Sub (a b : Nat) (ha : a < 2 ^ 64) (hb : b < 2 ^ 64) :
    (BalanceUpdate.zero.Add a).Sub b =
      if a > b then { Increase := a - b, Decrease := 0 }
      else { Increase := 0, Decrease := b - a } := by
  have h1 : wrapAdd 0 a = a := by unfold wrapAdd; omega
  have h2 : wrapAdd 0 b = b := by unfold wrapAdd; omega
  unfold BalanceUpdate.Add BalanceUpdate.Sub BalanceUpdate.zero
  simp only [h1, h2, if_true]
  by_cases h0 : a = 0
  · subst h0; simp
  · by_cases hab : a > b
    · simp [h0, hab, wrapSub_eq a b ha (Nat.le_of_lt hab)]
    · have hle : a ≤ b := Nat.le_of_not_lt hab
      simp [h0, hab, wrapSub_eq b a hb hle]

/-- C8. A `BalanceUpdate` tracks the signed net of its updates.  For fields in
the `uint64` range: if `Increase + delta < 2 ^ 64` then `Add(delta)` changes the
integer `Increase - Decrease` by exactly `+delta`; if `Decrease + delta < 2 ^ 64`
then `Sub(delta)` changes it by exactly `-delta`.  From the zero value, `Add(a)`
then `Sub(b)` gives `{a - b, 0}` if `a > b` and `{0, b - a}` otherwise; in
particular `Add(42)`, `Sub(84)` gives `{0, 42}`, for which `IsZero` is false. -/
theorem BalanceUpdate_tracks_signed_net (bu : BalanceUpdate) (delta a b : Nat)
    (hr : bu.InRange) (ha : a < 2 ^ 64) (hb : b < 2 ^ 64) :
    (bu.Increase + delta < 2 ^ 64 → (bu.Add delta).value = bu.value + delta) ∧
    (bu.Decrease + delta < 2 ^ 64 → (bu.Sub delta).value = bu.value - delta) ∧
    ((BalanceUpdate.zero.Add a).Sub b =
      if a > b then { Increase := a - b, Decrease := 0 }
      else { Increase := 0, Decrease := b - a }) ∧
    (BalanceUpdate.zero.Add 42).Sub 84 = { Increase := 0, Decrease := 42 } ∧
    ((BalanceUpdate.zero.Add 42).Sub 84).IsZero = false := by
  refine ⟨BalanceUpdate.value_Add bu delta hr, BalanceUpdate.value_Sub bu delta hr,
    BalanceUpdate.zero_Add_Sub a b ha hb, ?_, ?_⟩
  · rw [BalanceUpdate.zero_Add_Sub 42 84 (by norm_num) (by norm_num)]; simp
  · rw [BalanceUpdate.zero_Add_Sub 42 84 (by norm_num) (by norm_num)]; simp [BalanceUpdate.IsZero]

theorem BalanceUpdate_tracks_signed_net_witness :
    (BalanceUpdate.mk 5 9).InRange ∧ 7 < 2 ^ 64 ∧ 3 < 2 ^ 64 ∧
    (((BalanceUpdate.mk 5 9).Add 6).value = (BalanceUpdate.mk 5 9).value + 6) ∧
    (((BalanceUpdate.mk 5 9).Sub 6).value = (BalanceUpdate.mk 5 9).value - 6) ∧
    (BalanceUpdate.zero.Add 7).Sub 3 = { Increase := 4, Decrease := 0 } :=
  have hr : (BalanceUpdate.mk 5 9).InRange := ⟨by norm_num, by norm_num⟩
  have h := BalanceUpdate_tracks_signed_net (BalanceUpdate.mk 5 9) 6 7 3 hr (by norm_num) (by norm_num)
  ⟨hr, by norm_num, by norm_num, h.1 (by norm_num), h.2.1 (by norm_num), by simpa using h.2.2.1⟩

/-- C9. `Sub` is the mirror image of `Add`: for every `BalanceUpdate` and every
delta, `Sub(delta)` gives the same result as exchanging the two fields, applying
`Add(delta)` and exchanging the fields back.  In the tie case, where the field
that was added to becomes equal to the other one, both fields end at zero. -/
theorem BalanceUpdate_Sub_mirrors_Add (bu : BalanceUpdate) (delta : Nat) :
    bu.Sub delta = ((bu.swap).Add delta).swap ∧
    (bu.Increase = wrapAdd bu.Decrease delta → bu.Sub delta = BalanceUpdate.zero) ∧
    (bu.Decrease = wrapAdd bu.Increase delta → bu.Add delta = BalanceUpdate.zero) := by
  refine ⟨?_, ?_, ?_⟩
  · unfold BalanceUpdate.Sub BalanceUpdate.Add BalanceUpdate.swap
    by_cases h0 : bu.Increase = 0
    · simp [h0]
    · simp only [h0, if_false]
      rcases Nat.lt_trichotomy bu.Increase (wrapAdd bu.Decrease delta) with h | h | h
      · have h1 : ¬ bu.Increase > wrapAdd bu.Decrease delta := by omega
        simp [h1, h]
      · have h1 : ¬ bu.Increase > wrapAdd bu.Decrease delta := by omega
        have h2 : ¬ wrapAdd bu.Decrease delta > bu.Increase := by omega
        simp [h1, h2, ← h, wrapSub_self]
      · have h2 : ¬ wrapAdd bu.Decrease delta > bu.Increase := by omega
        simp [h, h2]
  · intro h
    unfold BalanceUpdate.Sub BalanceUpdate.zero
    by_cases h0 : bu.Increase = 0
    · simp [h0, ← h]
    · simp [h0, ← h, wrapSub_self]
  · intro h
    unfold BalanceUpdate.Add BalanceUpdate.zero
    by_cases h0 : bu.Decrease = 0
    · simp [h0, ← h]
    · simp [h0, ← h, wrapSub_self]

theorem BalanceUpdate_Sub_mirrors_Add_witness :
    (BalanceUpdate.mk 9 4).Increase = wrapAdd (BalanceUpdate.mk 9 4).Decrease 5 ∧
    (BalanceUpdate.mk 9 4).Sub 5 = BalanceUpdate.zero ∧
    (BalanceUpdate.mk 4 9).Decrease = wrapAdd (BalanceUpdate.mk 4 9).Increase 5 ∧
    (BalanceUpdate.mk 4 9).Add 5 = BalanceUpdate.zero :=
  have h1 : (BalanceUpdate.mk 9 4).Increase = wrapAdd (BalanceUpdate.mk 9 4).Decrease 5 := by
    simp [wrapAdd]
  have h2 : (BalanceUpdate.mk 4 9).Decrease = wrapAdd (BalanceUpdate.mk 4 9).Increase 5 := by
    simp [wrapAdd]
  ⟨h1, (BalanceUpdate_Sub_mirrors_Add (BalanceUpdate.mk 9 4) 5).2.1 h1,
    h2, (BalanceUpdate_Sub_mirrors_Add (BalanceUpdate.mk 4 9) 5).2.2 h2⟩

/-! ## Properties of the balance operations -/

theorem IncreaseBalanceWithVal_ok (b d : Nat) (h : b + d < 2 ^ 64) :
    IncreaseBalanceWithVal b d = .ok (b + d) := by
  unfold IncreaseBalanceWithVal mathutil.Add64
  rw [if_pos h]

theorem IncreaseBalanceWithVal_overflow (b d : Nat) (h : 2 ^ 64 ≤ b + d) :
    IncreaseBalanceWithVal b d = .error .Overflow := by
  have h' : ¬ b + d < 2 ^ 64 := by omega
  unfold IncreaseBalanceWithVal mathutil.Add64
  rw [if_neg h']

theorem DecreaseBalanceWithVal_eq (b d : Nat) (hb : b < 2 ^ 64) :
    DecreaseBalanceWithVal b d = b - d := by
  unfold DecreaseBalanceWithVal
  split_ifs with h
  · omega
  · exact wrapSub_eq b d hb (by omega)

theorem IncreaseBalance_of_read {σ : Type} (cfg : BeaconChainConfig) (S : BeaconState σ)
    (st : σ) (sink : AuditSink) (idx d : Nat) (reason : String) (b : Nat)
    (hread : S.BalanceAtIndex st idx = .ok b) (h : b + d < 2 ^ 64) :
    IncreaseBalance cfg S st sink idx d reason =
      match S.UpdateBalancesAtIndex st idx (b + d) with
      | .error err =>
        { err := some err, state := st, sink := emitEvent cfg S st sink idx d true reason }
      | .ok st' =>
        { err := none, state := st', sink := emitEvent cfg S st sink idx d true reason } := by
  simp only [IncreaseBalance, hread, IncreaseBalanceWithVal_ok b d h]

theorem DecreaseBalance_of_read {σ : Type} (cfg : BeaconChainConfig) (S : BeaconState σ)
    (st : σ) (sink : AuditSink) (idx d : Nat) (reason : String) (b : Nat)
    (hread : S.BalanceAtIndex st idx = .ok b) :
    DecreaseBalance cfg S st sink idx d reason =
      match S.UpdateBalancesAtIndex st idx (DecreaseBalanceWithVal b d) with
      | .error err =>
        { err := some err, state := st, sink := emitEvent cfg S st sink idx d false reason }
      | .ok st' =>
        { err := none, state := st', sink := emitEvent cfg S st sink idx d false reason } := by
  simp only [DecreaseBalance, hread]

theorem ListState.readsBackWrites : ListState.access.ReadsBackWrites := by
  intro st st' idx val h
  simp only [ListState.access] at h ⊢
  split_ifs at h with hlt
  · cases h
    simp [List.getElem?_set, hlt]

/-- C2. `IncreaseBalanceWithVal(b, d)` returns `b + d` with no error when
`b + d <= 2^64 - 1` and returns an error when `b + d > 2^64 - 1`; a value it
returns as a success is the true sum, never a wrapped one.  `IncreaseBalance`
on a state whose balance at the index reads `b` fails in the same overflow
case, and otherwise fails only if the balance write itself fails. -/
theorem IncreaseBalanceWithVal_checks_overflow {σ : Type} (cfg : BeaconChainConfig)
    (S : BeaconState σ) (st : σ) (sink : AuditSink) (idx : Nat) (reason : String)
    (b d : Nat) :
    (b + d ≤ 2 ^ 64 - 1 → IncreaseBalanceWithVal b d = .ok (b + d)) ∧
    (b + d > 2 ^ 64 - 1 → IncreaseBalanceWithVal b d = .error .Overflow) ∧
    (∀ v, IncreaseBalanceWithVal b d = .ok v → v = b + d ∧ b + d ≤ 2 ^ 64 - 1) ∧
    (S.BalanceAtIndex st idx = .ok b →
      (b + d > 2 ^ 64 - 1 →
        (IncreaseBalance cfg S st sink idx d reason).err = some .Overflow) ∧
      (b + d ≤ 2 ^ 64 - 1 → ∀ st', S.UpdateBalancesAtIndex st idx (b + d) = .ok st' →
        (IncreaseBalance cfg S st sink idx d reason).err = none ∧
        (IncreaseBalance cfg S st sink idx d reason).state = st')) := by
  refine ⟨fun h => IncreaseBalanceWithVal_ok b d (by omega),
    fun h => IncreaseBalanceWithVal_overflow b d (by omega), ?_, ?_⟩
  · intro v hv
    by_cases h : b + d < 2 ^ 64
    · rw [IncreaseBalanceWithVal_ok b d h] at hv
      cases hv
      exact ⟨rfl, by omega⟩
    · rw [IncreaseBalanceWithVal_overflow b d (by omega)] at hv
      cases hv
  · intro hread
    refine ⟨fun h => ?_, fun h st' hw => ?_⟩
    · simp only [IncreaseBalance, hread, IncreaseBalanceWithVal_overflow b d (by omega)]
    · rw [IncreaseBalance_of_read cfg S st sink idx d reason b hread (by omega), hw]
      exact ⟨rfl, rfl⟩

theorem IncreaseBalanceWithVal_checks_overflow_witness :
    (5 + 7 ≤ 2 ^ 64 - 1 ∧ IncreaseBalanceWithVal 5 7 = .ok 12 ∧
      (IncreaseBalance sampleConfig ListState.access (sampleState 5) sampleSink 0 7
        "processDeposit").err = none ∧
      (IncreaseBalance sampleConfig ListState.access (sampleState 5) sampleSink 0 7
        "processDeposit").state = sampleState 12) ∧
    ((2 ^ 64 - 1) + 1 > 2 ^ 64 - 1 ∧
      IncreaseBalanceWithVal (2 ^ 64 - 1) 1 = .error .Overflow ∧
      (IncreaseBalance sampleConfig ListState.access (sampleState (2 ^ 64 - 1)) sampleSink 0 1
        "processDeposit").err = some .Overflow) :=
  have h1 := IncreaseBalanceWithVal_checks_overflow sampleConfig ListState.access
    (sampleState 5) sampleSink 0 "processDeposit" 5 7
  have h2 := IncreaseBalanceWithVal_checks_overflow sampleConfig ListState.access
    (sampleState (2 ^ 64 - 1)) sampleSink 0 "processDeposit" (2 ^ 64 - 1) 1
  have a1 : 5 + 7 ≤ 2 ^ 64 - 1 := by norm_num
  have a2 : (2 ^ 64 - 1) + 1 > 2 ^ 64 - 1 := by norm_num
  ⟨⟨a1, h1.1 a1, (h1.2.2.2 rfl).2 a1 (sampleState 12) rfl⟩,
    ⟨a2, h2.2.1 a2, (h2.2.2.2 rfl).1 a2⟩⟩

/-- C3. For a current balance `b` in the `uint64` range and any delta `d`,
`DecreaseBalanceWithVal(b, d)` is `b - d` when `d <= b` and exactly `0` when
`d > b`; it returns a value for every input (it has no error result) and the
value never exceeds `b` (no wrap-around).  `DecreaseBalance` on a state whose
balance at the index reads `b` passes exactly this value to the balance write,
so that after a successful call the balance read at the index is this value. -/
theorem DecreaseBalanceWithVal_saturates {σ : Type} (cfg : BeaconChainConfig)
    (S : BeaconState σ) (st : σ) (sink : AuditSink) (idx : Nat) (reason : String)
    (b d : Nat) (hb : b < 2 ^ 64) :
    (d ≤ b → DecreaseBalanceWithVal b d = b - d) ∧
    (d > b → DecreaseBalanceWithVal b d = 0) ∧
    DecreaseBalanceWithVal b d ≤ b ∧
    (S.BalanceAtIndex st idx = .ok b →
      (∀ st', S.UpdateBalancesAtIndex st idx (DecreaseBalanceWithVal b d) = .ok st' →
        (DecreaseBalance cfg S st sink idx d reason).err = none ∧
        (DecreaseBalance cfg S st sink idx d reason).state = st') ∧
      (S.ReadsBackWrites → (DecreaseBalance cfg S st sink idx d reason).err = none →
        S.BalanceAtIndex (DecreaseBalance cfg S st sink idx d reason).state idx =
          .ok (if d > b then 0 else b - d))) := by
  have heq := DecreaseBalanceWithVal_eq b d hb
  refine ⟨fun _ => heq, fun h => by rw [heq]; omega, by rw [heq]; omega, ?_⟩
  intro hread
  have hval : (if d > b then 0 else b - d) = DecreaseBalanceWithVal b d := by
    rw [heq]; split_ifs <;> omega
  refine ⟨fun st' hw => ?_, fun hlaw herr => ?_⟩
  · rw [DecreaseBalance_of_read cfg S st sink idx d reason b hread, hw]
    exact ⟨rfl, rfl⟩
  · rw [hval]
    rw [DecreaseBalance_of_read cfg S st sink idx d reason b hread] at herr ⊢
    cases hw : S.UpdateBalancesAtIndex st idx (DecreaseBalanceWithVal b d) with
    | error e => rw [hw] at herr; cases herr
    | ok st' => exact hlaw st st' idx _ hw

theorem DecreaseBalanceWithVal_saturates_witness :
    (5 < 2 ^ 64 ∧ 3 ≤ 5 ∧ DecreaseBalanceWithVal 5 3 = 2) ∧
    (9 > 5 ∧ DecreaseBalanceWithVal 5 9 = 0 ∧
      (DecreaseBalance sampleConfig ListState.access (sampleState 5) sampleSink 0 9
        "processSlashing").state = sampleState 0 ∧
      ListState.access.BalanceAtIndex
        (DecreaseBalance sampleConfig ListState.access (sampleState 5) sampleSink 0 9
          "processSlashing").state 0 = .ok 0) :=
  have hb : 5 < 2 ^ 64 := by norm_num
  have h1 := DecreaseBalanceWithVal_saturates sampleConfig ListState.access
    (sampleState 5) sampleSink 0 "processSlashing" 5 3 hb
  have h2 := DecreaseBalanceWithVal_saturates sampleConfig ListState.access
    (sampleState 5) sampleSink 0 "processSlashing" 5 9 hb
  have a2 : 9 > 5 := by norm_num
  have hw : ListState.access.UpdateBalancesAtIndex (sampleState 5) 0
      (DecreaseBalanceWithVal 5 9) = .ok (sampleState 0) := by
    rw [h2.2.1 a2]; rfl
  have hwr := (h2.2.2.2 rfl).1 (sampleState 0) hw
  ⟨⟨hb, by norm_num, h1.1 (by norm_num)⟩,
    ⟨a2, h2.2.1 a2, hwr.2, (h2.2.2.2 rfl).2 ListState.readsBackWrites hwr.1⟩⟩

/-- C4. Round trip.  If `b + d <= 2^64 - 1` then `IncreaseBalanceWithVal(b, d)`
succeeds with a value `v` and `DecreaseBalanceWithVal(v, d) = b`.  On a state
whose balance at the index reads `b` (and whose accessors read back what was
written), a successful `IncreaseBalance` followed by a successful
`DecreaseBalance` of the same delta at the same index leaves the balance read
at that index equal to `b`. -/
theorem increase_then_decrease_restores {σ : Type} (cfg : BeaconChainConfig)
    (S : BeaconState σ) (st : σ) (sink : AuditSink) (idx : Nat) (reason reason' : String)
    (b d : Nat) (h : b + d ≤ 2 ^ 64 - 1) :
    (∃ v, IncreaseBalanceWithVal b d = .ok v ∧ DecreaseBalanceWithVal v d = b) ∧
    (S.ReadsBackWrites → S.BalanceAtIndex st idx = .ok b →
      (IncreaseBalance cfg S st sink idx d reason).err = none →
      (DecreaseBalance cfg S (IncreaseBalance cfg S st sink idx d reason).state
        (IncreaseBalance cfg S st sink idx d reason).sink idx d reason').err = none →
      S.BalanceAtIndex
        (DecreaseBalance cfg S (IncreaseBalance cfg S st sink idx d reason).state
          (IncreaseBalance cfg S st sink idx d reason).sink idx d reason').state idx = .ok b) := by
  have hsum : b + d < 2 ^ 64 := by omega
  have hback : DecreaseBalanceWithVal (b + d) d = b := by
    rw [DecreaseBalanceWithVal_eq (b + d) d hsum]; omega
  refine ⟨⟨b + d, IncreaseBalanceWithVal_ok b d hsum, hback⟩, ?_⟩
  intro hlaw hread
  rw [IncreaseBalance_of_read cfg S st sink idx d reason b hread hsum]
  cases hw : S.UpdateBalancesAtIndex st idx (b + d) with
  | error e => intro herr; cases herr
  | ok st1 =>
    intro _
    have hread1 : S.BalanceAtIndex st1 idx = .ok (b + d) := hlaw st st1 idx _ hw
    simp only []
    rw [DecreaseBalance_of_read cfg S st1 _ idx d reason' (b + d) hread1, hback]
    cases hw2 : S.UpdateBalancesAtIndex st1 idx b with
    | error e => intro herr; cases herr
    | ok st2 =>
      intro _
      exact hlaw st1 st2 idx _ hw2

theorem increase_then_decrease_restores_witness :
    5 + 7 ≤ 2 ^ 64 - 1 ∧
    (∃ v, IncreaseBalanceWithVal 5 7 = .ok v ∧ DecreaseBalanceWithVal v 7 = 5) ∧
    ListState.access.BalanceAtIndex
      (DecreaseBalance sampleConfig ListState.access
        (IncreaseBalance sampleConfig ListState.access (sampleState 5) sampleSink 0 7
          "processDeposit").state
        (IncreaseBalance sampleConfig ListState.access (sampleState 5) sampleSink 0 7
          "processDeposit").sink 0 7 "processWithdrawal").state 0 = .ok 5 :=
  have a : 5 + 7 ≤ 2 ^ 64 - 1 := by norm_num
  have h := increase_then_decrease_restores sampleConfig ListState.access (sampleState 5)
    sampleSink 0 "processDeposit" "processWithdrawal" 5 7 a
  ⟨a, h.1, h.2 ListState.readsBackWrites rfl rfl rfl⟩

/-- C5. Atomicity of `IncreaseBalance` on failure: if the balance cannot be read
at the index, or it reads `b` and `b + delta` overflows `uint64`, then
`IncreaseBalance` returns an error, the audit sink is as before (no record
written, nothing logged) and the state is as before (no balance written). -/
theorem IncreaseBalance_failure_is_atomic {σ : Type} (cfg : BeaconChainConfig)
    (S : BeaconState σ) (st : σ) (sink : AuditSink) (idx delta : Nat) (reason : String)
    (hfail : (∃ e, S.BalanceAtIndex st idx = .error e) ∨
      (∃ b, S.BalanceAtIndex st idx = .ok b ∧ b + delta > 2 ^ 64 - 1)) :
    (IncreaseBalance cfg S st sink idx delta reason).err ≠ none ∧
    (IncreaseBalance cfg S st sink idx delta reason).sink = sink ∧
    (IncreaseBalance cfg S st sink idx delta reason).state = st := by
  rcases hfail with ⟨e, he⟩ | ⟨b, hb, hov⟩
  · have hout : IncreaseBalance cfg S st sink idx delta reason =
        { err := some e, state := st, sink := sink } := by
      simp only [IncreaseBalance, he]
    rw [hout]
    exact ⟨by simp, rfl, rfl⟩
  · have hout : IncreaseBalance cfg S st sink idx delta reason =
        { err := some .Overflow, state := st, sink := sink } := by
      simp only [IncreaseBalance, hb, IncreaseBalanceWithVal_overflow b delta (by omega)]
    rw [hout]
    exact ⟨by simp, rfl, rfl⟩

theorem IncreaseBalance_failure_is_atomic_witness :
    ((∃ e, ListState.access.BalanceAtIndex (sampleState 5) 2 = .error e) ∧
      (IncreaseBalance sampleConfig ListState.access (sampleState 5) sampleSink 2 7
        "processDeposit").err ≠ none ∧
      (IncreaseBalance sampleConfig ListState.access (sampleState 5) sampleSink 2 7
        "processDeposit").sink = sampleSink ∧
      (IncreaseBalance sampleConfig ListState.access (sampleState 5) sampleSink 2 7
        "processDeposit").state = sampleState 5) ∧
    ((∃ b, ListState.access.BalanceAtIndex (sampleState (2 ^ 64 - 1)) 0 = .ok b ∧
        b + 1 > 2 ^ 64 - 1) ∧
      (IncreaseBalance sampleConfig ListState.access (sampleState (2 ^ 64 - 1)) sampleSink 0 1
        "processDeposit").err ≠ none ∧
      (IncreaseBalance sampleConfig ListState.access (sampleState (2 ^ 64 - 1)) sampleSink 0 1
        "processDeposit").sink = sampleSink ∧
      (IncreaseBalance sampleConfig ListState.access (sampleState (2 ^ 64 - 1)) sampleSink 0 1
        "processDeposit").state = sampleState (2 ^ 64 - 1)) :=
  have h1 : ∃ e, ListState.access.BalanceAtIndex (sampleState 5) 2 = .error e :=
    ⟨.NotFound, rfl⟩
  have h2 : ∃ b, ListState.access.BalanceAtIndex (sampleState (2 ^ 64 - 1)) 0 = .ok b ∧
      b + 1 > 2 ^ 64 - 1 := ⟨2 ^ 64 - 1, rfl, by norm_num⟩
  ⟨⟨h1, IncreaseBalance_failure_is_atomic sampleConfig ListState.access (sampleState 5)
      sampleSink 2 7 "processDeposit" (Or.inl h1)⟩,
    ⟨h2, IncreaseBalance_failure_is_atomic sampleConfig ListState.access
      (sampleState (2 ^ 64 - 1)) sampleSink 0 1 "processDeposit" (Or.inr h2)⟩⟩

theorem TotalBalance_fold_eq {σ : Type} (S : BeaconState σ) (st : σ) (indices : List Nat)
    (acc : Nat) (h : acc + (resolvedBalances S st indices).sum < 2 ^ 64) :
    indices.foldl
      (fun total idx =>
        match S.ValidatorAtIndexReadOnly st idx with
        | .error _ => total
        | .ok val => wrapAdd total val.EffectiveBalance)
      acc = acc + (resolvedBalances S st indices).sum := by
  induction indices generalizing acc with
  | nil => simp [resolvedBalances]
  | cons i is ih =>
    simp only [List.foldl_cons]
    cases hv : S.ValidatorAtIndexReadOnly st i with
    | error e =>
      have hres : resolvedBalances S st (i :: is) = resolvedBalances S st is := by
        simp [resolvedBalances, hv]
      rw [hres] at h ⊢
      exact ih acc h
    | ok val =>
      have hres : resolvedBalances S st (i :: is) =
          val.EffectiveBalance :: resolvedBalances S st is := by
        simp [resolvedBalances, hv]
      rw [hres, List.sum_cons] at h ⊢
      simp only []
      rw [wrapAdd_eq acc val.EffectiveBalance (by omega), ih _ (by omega)]
      omega

/-- C6. For every state and every list of validator indices (the empty list,
lists with indices that do not resolve and lists whose sum wraps modulo `2^64`
included), `TotalBalance` returns at least `EffectiveBalanceIncrement`. -/
theorem TotalBalance_ge_increment {σ : Type} (cfg : BeaconChainConfig) (S : BeaconState σ)
    (st : σ) (indices : List Nat) :
    cfg.EffectiveBalanceIncrement ≤ TotalBalance cfg S st indices := by
  unfold TotalBalance
  simp only []
  split_ifs with h
  · exact Nat.le_refl _
  · omega

/-- C7. For every state and list of indices whose resolvable effective balances
sum to less than `2^64`, `TotalBalance` is the maximum of
`EffectiveBalanceIncrement` and the sum of the effective balances of exactly
the listed indices whose validator lookup succeeds; an index whose lookup fails
adds nothing, and `TotalBalance` has no error result. -/
theorem TotalBalance_eq_max {σ : Type} (cfg : BeaconChainConfig) (S : BeaconState σ)
    (st : σ) (indices : List Nat) (h : (resolvedBalances S st indices).sum < 2 ^ 64) :
    TotalBalance cfg S st indices =
      max cfg.EffectiveBalanceIncrement (resolvedBalances S st indices).sum := by
  unfold TotalBalance
  simp only []
  rw [TotalBalance_fold_eq S st indices 0 (by omega)]
  simp only [Nat.zero_add]
  split_ifs with hlt
  · omega
  · omega

theorem TotalBalance_eq_max_witness :
    (resolvedBalances ListState.access (sampleState 5) [0, 5, 1, 0]).sum < 2 ^ 64 ∧
    resolvedBalances ListState.access (sampleState 5) [0, 5, 1, 0] =
      [32000000000, 31000000000, 32000000000] ∧
    TotalBalance sampleConfig ListState.access (sampleState 5) [0, 5, 1, 0] = 95000000000 ∧
    TotalBalance sampleConfig ListState.access (sampleState 5) [5] = 1000000000 :=
  have h1 : (resolvedBalances ListState.access (sampleState 5) [0, 5, 1, 0]).sum < 2 ^ 64 := by
    decide
  have h2 : (resolvedBalances ListState.access (sampleState 5) [5]).sum < 2 ^ 64 := by
    decide
  ⟨h1, by decide, TotalBalance_eq_max sampleConfig ListState.access (sampleState 5) [0, 5, 1, 0] h1,
    TotalBalance_eq_max sampleConfig ListState.access (sampleState 5) [5] h2⟩

/-! ## Logged deltas and wrap-around -/

theorem BalanceUpdate.inRange_Add (bu : BalanceUpdate) (delta : Nat) :
    (bu.Add delta).InRange := by
  have h1 : ∀ a b, wrapAdd a b < 2 ^ 64 := fun a b => by unfold wrapAdd; omega
  have h2 : ∀ a b, wrapSub a b < 2 ^ 64 := fun a b => by unfold wrapSub; omega
  unfold BalanceUpdate.Add BalanceUpdate.InRange
  simp only []
  split_ifs with h0 h
  · exact ⟨h1 _ _, by simp only [h0]; norm_num⟩
  · exact ⟨h2 _ _, by norm_num⟩
  · exact ⟨by norm_num, h2 _ _⟩

theorem BalanceUpdate.inRange_Sub (bu : BalanceUpdate) (delta : Nat) :
    (bu.Sub delta).InRange := by
  have h1 : ∀ a b, wrapAdd a b < 2 ^ 64 := fun a b => by unfold wrapAdd; omega
  have h2 : ∀ a b, wrapSub a b < 2 ^ 64 := fun a b => by unfold wrapSub; omega
  unfold BalanceUpdate.Sub BalanceUpdate.InRange
  simp only []
  split_ifs with h0 h
  · exact ⟨by simp only [h0]; norm_num, h1 _ _⟩
  · exact ⟨h2 _ _, by norm_num⟩
  · exact ⟨by norm_num, h2 _ _⟩

/-- While every decrease logs what the balance lost, the logged
`BalanceUpdate` is the signed difference between the balance and the starting
balance `b0`, and no addition made by `Add` or `Sub` wraps. -/
theorem Ledger.trace_fits_of_applied (b0 : Nat) (hb0 : b0 < 2 ^ 64)
    (changes : List BalanceChange)
    (l : Ledger) (hbal : l.balance < 2 ^ 64) (hnet : l.update.Netted)
    (hrange : l.update.InRange) (hval : l.update.value = (l.balance : Int) - (b0 : Int))
    (happlied : ∀ p ∈ l.trace changes, p.2.LogsApplied p.1.balance) :
    ∀ p ∈ l.trace changes, p.2.Fits p.1.update ∧ p.1.update.Netted ∧
      p.1.update.value = (p.1.balance : Int) - (b0 : Int) := by
  induction changes generalizing l with
  | nil => intro p hp; simp [Ledger.trace] at hp
  | cons c cs ih =>
    cases happ : l.apply c with
    | error e => intro p hp; simp [Ledger.trace, happ] at hp
    | ok l' =>
      have htr : l.trace (c :: cs) = (l, c) :: l'.trace cs := by
        simp [Ledger.trace, happ]
      rw [htr] at happlied ⊢
      have hex0 : c.LogsApplied l.balance := happlied (l, c) (List.mem_cons_self _ _)
      have hexs : ∀ p ∈ l'.trace cs, p.2.LogsApplied p.1.balance :=
        fun p hp => happlied p (List.mem_cons_of_mem _ hp)
      have hval0 := hval
      obtain ⟨hI, hD⟩ := hrange
      have hfit : c.Fits l.update ∧ l'.balance < 2 ^ 64 ∧
          l'.update.Netted ∧ l'.update.InRange ∧
          l'.update.value = (l'.balance : Int) - (b0 : Int) := by
        unfold BalanceUpdate.value at hval
        cases c with
        | increase delta =>
          simp only [Ledger.apply] at happ
          by_cases hsum : l.balance + delta < 2 ^ 64
          · rw [IncreaseBalanceWithVal_ok _ _ hsum] at happ
            cases happ
            have hf : l.update.Increase + delta < 2 ^ 64 := by
              rcases hnet with h | h <;> omega
            refine ⟨hf, hsum, BalanceUpdate.netted_Add _ _, BalanceUpdate.inRange_Add _ _, ?_⟩
            rw [BalanceUpdate.value_Add _ _ ⟨hI, hD⟩ hf]
            unfold BalanceUpdate.value
            push_cast
            omega
          · rw [IncreaseBalanceWithVal_overflow _ _ (by omega)] at happ
            cases happ
        | decrease delta logged =>
          simp only [Ledger.apply] at happ
          cases happ
          have hlog : logged = l.balance - (l.balance - delta) := by
            have h : logged = l.balance - DecreaseBalanceWithVal l.balance delta := hex0
            rw [DecreaseBalanceWithVal_eq _ delta hbal] at h
            exact h
          have hf : l.update.Decrease + logged < 2 ^ 64 := by
            rcases hnet with h | h <;> omega
          refine ⟨hf, ?_, BalanceUpdate.netted_Sub _ _, BalanceUpdate.inRange_Sub _ _, ?_⟩
          · simp only [DecreaseBalanceWithVal_eq _ delta hbal]; omega
          · rw [BalanceUpdate.value_Sub _ _ ⟨hI, hD⟩ hf]
            simp only [DecreaseBalanceWithVal_eq _ delta hbal]
            unfold BalanceUpdate.value
            omega
      obtain ⟨hf, hbal', hnet', hrange', hval'⟩ := hfit
      intro p hp
      rcases List.mem_cons.mp hp with rfl | hp
      · exact ⟨hf, hnet, hval0⟩
      · exact ih l' hbal' hnet' hrange' hval' hexs p hp

theorem Breakdown_totals_cons (bu : BalanceUpdate) (slots : List BalanceUpdate)
    (acc : Nat × Nat) :
    Breakdown.totals (bu :: slots) acc =
      Breakdown.totals slots
        (if bu.Increase ≠ 0 then wrapAdd acc.1 bu.Increase else acc.1,
         if bu.Decrease ≠ 0 then wrapAdd acc.2 bu.Decrease else acc.2) := rfl

theorem Breakdown_totals_eq (slots : List BalanceUpdate) (acc : Nat × Nat)
    (hI : acc.1 + (slots.map (·.Increase)).sum < 2 ^ 64)
    (hD : acc.2 + (slots.map (·.Decrease)).sum < 2 ^ 64) :
    Breakdown.totals slots acc =
      (acc.1 + (slots.map (·.Increase)).sum, acc.2 + (slots.map (·.Decrease)).sum) := by
  induction slots generalizing acc with
  | nil => simp [Breakdown.totals]
  | cons bu slots ih =>
    simp only [List.map_cons, List.sum_cons] at hI hD ⊢
    rw [Breakdown_totals_cons]
    have h1 : (if bu.Increase ≠ 0 then wrapAdd acc.1 bu.Increase else acc.1) =
        acc.1 + bu.Increase := by
      split_ifs with h
      · exact wrapAdd_eq _ _ (by omega)
      · omega
    have h2 : (if bu.Decrease ≠ 0 then wrapAdd acc.2 bu.Decrease else acc.2) =
        acc.2 + bu.Decrease := by
      split_ifs with h
      · exact wrapAdd_eq _ _ (by omega)
      · omega
    rw [h1, h2, ih _ (by simp only []; omega) (by simp only []; omega)]
    simp only [Prod.mk.injEq]
    omega

/-- While the two sums of a table stay below `2^64`, `Total` is the pair of
sums netted once. -/
theorem Breakdown_Total_of_sums (b : Breakdown)
    (hI : b.sumIncrease < 2 ^ 64) (hD : b.sumDecrease < 2 ^ 64) :
    b.Total =
      if b.sumIncrease > b.sumDecrease then
        { Increase := b.sumIncrease - b.sumDecrease, Decrease := 0 }
      else
        { Increase := 0, Decrease := b.sumDecrease - b.sumIncrease } := by
  unfold Breakdown.sumIncrease at hI
  unfold Breakdown.sumDecrease at hD
  have ht := Breakdown_totals_eq b.breakdown (0, 0) (by simpa using hI) (by simpa using hD)
  simp only [Nat.zero_add] at ht
  unfold Breakdown.Total Breakdown.sumIncrease Breakdown.sumDecrease
  rw [ht]
  simp only []
  generalize (b.breakdown.map (·.Increase)).sum = si at hI ⊢
  generalize (b.breakdown.map (·.Decrease)).sum = sd at hD ⊢
  by_cases hgt : si > sd
  · have hne : si ≠ 0 := by omega
    by_cases hd0 : sd = 0
    · subst hd0; simp [hgt]
    · simp [hgt, hne, hd0, wrapSub_eq si sd hI (by omega)]
  · have hle : si ≤ sd := by omega
    by_cases hi0 : si = 0
    · subst hi0; simp
    · have hd0 : sd ≠ 0 := by omega
      simp [hgt, hi0, hd0, wrapSub_eq sd si hD hle]

/-- C11. For every `Breakdown` whose `Increase` fields sum to `SI < 2^64` and
whose `Decrease` fields sum to `SD < 2^64`, `Total()` is the two sums netted
once: `{Increase: SI - SD, Decrease: 0}` if `SI > SD` and
`{Increase: 0, Decrease: SD - SI}` otherwise. -/
theorem Breakdown_Total_nets_sums_once (b : Breakdown)
    (hI : b.sumIncrease < 2 ^ 64) (hD : b.sumDecrease < 2 ^ 64) :
    b.Total =
      if b.sumIncrease > b.sumDecrease then
        { Increase := b.sumIncrease - b.sumDecrease, Decrease := 0 }
      else
        { Increase := 0, Decrease := b.sumDecrease - b.sumIncrease } :=
  Breakdown_Total_of_sums b hI hD

theorem Breakdown_Total_nets_sums_once_witness :
    sampleBreakdown.sumIncrease < 2 ^ 64 ∧ sampleBreakdown.sumDecrease < 2 ^ 64 ∧
    sampleBreakdown.sumIncrease = 5 ∧ sampleBreakdown.sumDecrease = 3 ∧
    sampleBreakdown.Total = { Increase := 2, Decrease := 0 } :=
  have hI : sampleBreakdown.sumIncrease < 2 ^ 64 := by decide
  have hD : sampleBreakdown.sumDecrease < 2 ^ 64 := by decide
  ⟨hI, hD, by decide, by decide, Breakdown_Total_nets_sums_once sampleBreakdown hI hD⟩

/-- C12. For every `Breakdown`, whatever its slots hold and with the sums taken
modulo `2^64`, the `BalanceUpdate` returned by `Total()` has at most one of
`Increase` and `Decrease` non-zero. -/
theorem Breakdown_Total_is_netted (b : Breakdown) : b.Total.Netted := by
  unfold Breakdown.Total BalanceUpdate.Netted
  simp only []
  split_ifs with h1 h2
  · exact Or.inr rfl
  · exact Or.inl rfl
  · simp only []
    by_cases h0 : (Breakdown.totals b.breakdown (0, 0)).1 = 0
    · exact Or.inl h0
    · right
      by_contra h3
      exact h1 ⟨h0, h3⟩

/-- The bounds of a valid reason, stated on `Int`. -/
theorem Reason_valid_bounds (r : Int) (hr : Reason.Valid r) : 0 ≤ r ∧ r < 13 := hr

theorem Reason_toNat_lt (r : Int) (hr : Reason.Valid r) : r.toNat < TotalReasonsCount := by
  have h13 : TotalReasonsCount = 13 := rfl
  have hb := Reason_valid_bounds r hr
  omega

theorem Reason_toNat_ne (r r' : Int) (hr : Reason.Valid r) (hr' : Reason.Valid r')
    (hne : r' ≠ r) : r.toNat ≠ r'.toNat := by
  have hb := Reason_valid_bounds r hr
  have hb' := Reason_valid_bounds r' hr'
  omega

theorem Reason_toNat_ge (r : Int) (hr : ¬ r < 0) (hge : r ≥ (TotalReasonsCount : Int)) :
    TotalReasonsCount ≤ r.toNat := by
  omega

theorem Breakdown_slot_valid (b : Breakdown) (r : Reason) (hr : Reason.Valid r) :
    b.slot r = b.breakdown[r.toNat]? ∧ ∃ bu, b.slot r = some bu := by
  have hlt : r.toNat < b.breakdown.length := by
    rw [b.size]; exact Reason_toNat_lt r hr
  have hnn : ¬ r < 0 := not_lt.mpr (Reason_valid_bounds r hr).1
  have h1 : b.slot r = b.breakdown[r.toNat]? := by
    simp [Breakdown.slot, hnn]
  refine ⟨h1, b.breakdown[r.toNat], ?_⟩
  rw [h1, List.getElem?_eq_getElem hlt]

theorem Breakdown_slot_invalid (b : Breakdown) (r : Reason)
    (hr : r < 0 ∨ r ≥ TotalReasonsCount) : b.slot r = none := by
  unfold Breakdown.slot
  split_ifs with h
  · rfl
  · have hge : b.breakdown.length ≤ r.toNat := by
      rw [b.size]
      rcases hr with h0 | h1
      · exact absurd h0 h
      · exact Reason_toNat_ge r h h1
    simp [hge]

/-- Writing a slot with `set`, as `Add` and `Sub` do: the written slot holds the
new value and every other slot is as before. -/
theorem Breakdown_slot_set (b b' : Breakdown) (r : Reason) (hr : Reason.Valid r)
    (x : BalanceUpdate) (hset : b'.breakdown = b.breakdown.set r.toNat x) :
    b'.slot r = some x ∧ ∀ r', Reason.Valid r' → r' ≠ r → b'.slot r' = b.slot r' := by
  have hlt : r.toNat < b.breakdown.length := by
    rw [b.size]; exact Reason_toNat_lt r hr
  refine ⟨?_, fun r' hr' hne => ?_⟩
  · rw [(Breakdown_slot_valid b' r hr).1, hset]
    simp [hlt]
  · rw [(Breakdown_slot_valid b' r' hr').1, (Breakdown_slot_valid b r' hr').1, hset]
    have hne' : r.toNat ≠ r'.toNat := Reason_toNat_ne r r' hr hr' hne
    simp [List.getElem?_set, hne']

/-- C14. For every `Breakdown`, valid reason `r` and delta, `Add(delta, r)` and
`Sub(delta, r)` do not panic and change only slot `r`: afterwards
`BalanceUpdate(r)` is `BalanceUpdate.Add(delta)` (resp. `Sub`) applied to the
old slot `r`, and `BalanceUpdate(r')` is as before for every other valid
reason `r'`. -/
theorem Breakdown_Add_Sub_change_one_slot (b : Breakdown) (r : Reason) (delta : Nat)
    (hr : Reason.Valid r) :
    ∃ bu bAdd bSub, b.BalanceUpdate r = some bu ∧
      b.Add delta r = some bAdd ∧ b.Sub delta r = some bSub ∧
      bAdd.BalanceUpdate r = some (bu.Add delta) ∧
      bSub.BalanceUpdate r = some (bu.Sub delta) ∧
      ∀ r', Reason.Valid r' → r' ≠ r →
        bAdd.BalanceUpdate r' = b.BalanceUpdate r' ∧
        bSub.BalanceUpdate r' = b.BalanceUpdate r' := by
  obtain ⟨bu, hbu⟩ := (Breakdown_slot_valid b r hr).2
  have hA := Breakdown_slot_set b
    { breakdown := b.breakdown.set r.toNat (bu.Add delta),
      size := (List.length_set _ _ _).trans b.size } r hr (bu.Add delta) rfl
  have hS := Breakdown_slot_set b
    { breakdown := b.breakdown.set r.toNat (bu.Sub delta),
      size := (List.length_set _ _ _).trans b.size } r hr (bu.Sub delta) rfl
  refine ⟨bu, _, _, hbu, ?_, ?_, hA.1, hS.1, fun r' hr' hne => ⟨hA.2 r' hr' hne, hS.2 r' hr' hne⟩⟩
  · simp only [Breakdown.Add, hbu]
  · simp only [Breakdown.Sub, hbu]

theorem Breakdown_Add_Sub_change_one_slot_witness :
    Reason.Valid ValidatorSlashing ∧
    ∃ bu bAdd bSub, sampleBreakdown.BalanceUpdate ValidatorSlashing = some bu ∧
      sampleBreakdown.Add 7 ValidatorSlashing = some bAdd ∧
      sampleBreakdown.Sub 7 ValidatorSlashing = some bSub ∧
      bAdd.BalanceUpdate ValidatorSlashing = some (bu.Add 7) ∧
      bSub.BalanceUpdate ValidatorSlashing = some (bu.Sub 7) ∧
      ∀ r', Reason.Valid r' → r' ≠ ValidatorSlashing →
        bAdd.BalanceUpdate r' = sampleBreakdown.BalanceUpdate r' ∧
        bSub.BalanceUpdate r' = sampleBreakdown.BalanceUpdate r' :=
  have hr : Reason.Valid ValidatorSlashing := by decide
  ⟨hr, Breakdown_Add_Sub_change_one_slot sampleBreakdown ValidatorSlashing 7 hr⟩

theorem BalanceUpdate_inRange_run (calls : List BalanceUpdate.Call) (bu : BalanceUpdate)
    (h : bu.InRange) : (bu.run calls).InRange := by
  induction calls generalizing bu with
  | nil => simpa [BalanceUpdate.run] using h
  | cons c cs ih =>
    have hs : (bu.step c).InRange := by
      cases c with
      | add delta => exact BalanceUpdate.inRange_Add bu delta
      | sub delta => exact BalanceUpdate.inRange_Sub bu delta
    simpa [BalanceUpdate.run] using ih (bu.step c) hs

/-- A table in which only slot `n` may be non-zero has the fields of that slot
as its two sums. -/
theorem Breakdown_sums_single (n : Nat) (hn : n < TotalReasonsCount) (bu : BalanceUpdate) :
    (((List.replicate TotalReasonsCount BalanceUpdate.zero).set n bu).map (·.Increase)).sum =
      bu.Increase ∧
    (((List.replicate TotalReasonsCount BalanceUpdate.zero).set n bu).map (·.Decrease)).sum =
      bu.Decrease := by
  have h13 : TotalReasonsCount = 13 := rfl
  rw [h13] at hn ⊢
  interval_cases n <;>
    simp [List.replicate, List.set, BalanceUpdate.zero]

/-- Calls for one valid reason on a table in which only the slot of that reason
may be non-zero: the calls do not panic and act on that slot alone. -/
theorem Breakdown_run_single (r : Reason) (hr : Reason.Valid r)
    (calls : List BalanceUpdate.Call) (b : Breakdown) (bu : BalanceUpdate)
    (hb : b.breakdown = (List.replicate TotalReasonsCount BalanceUpdate.zero).set r.toNat bu) :
    ∃ b', Breakdown.run r b calls = some b' ∧
      b'.breakdown =
        (List.replicate TotalReasonsCount BalanceUpdate.zero).set r.toNat (bu.run calls) := by
  have hlt : r.toNat < (List.replicate TotalReasonsCount BalanceUpdate.zero).length := by
    rw [List.length_replicate]; exact Reason_toNat_lt r hr
  have hslot : ∀ (b : Breakdown) (bu : BalanceUpdate),
      b.breakdown = (List.replicate TotalReasonsCount BalanceUpdate.zero).set r.toNat bu →
      b.slot r = some bu := by
    intro b bu hb
    rw [(Breakdown_slot_valid b r hr).1, hb]
    exact List.getElem?_set_self hlt
  induction calls generalizing b bu with
  | nil => exact ⟨b, rfl, by simpa [BalanceUpdate.run] using hb⟩
  | cons c cs ih =>
    cases c with
    | add delta =>
      have hstep : b.Add delta r = some
          { breakdown := b.breakdown.set r.toNat (bu.Add delta),
            size := (List.length_set _ _ _).trans b.size } := by
        simp only [Breakdown.Add, hslot b bu hb]
      have hset : b.breakdown.set r.toNat (bu.Add delta) =
          (List.replicate TotalReasonsCount BalanceUpdate.zero).set r.toNat (bu.Add delta) := by
        simp only [hb, List.set_set]
      obtain ⟨b', hrun, hb'⟩ := ih ⟨_, (List.length_set _ _ _).trans b.size⟩ (bu.Add delta) hset
      exact ⟨b', by simp only [Breakdown.run, hstep, hrun],
        by simpa [BalanceUpdate.run, BalanceUpdate.step] using hb'⟩
    | sub delta =>
      have hstep : b.Sub delta r = some
          { breakdown := b.breakdown.set r.toNat (bu.Sub delta),
            size := (List.length_set _ _ _).trans b.size } := by
        simp only [Breakdown.Sub, hslot b bu hb]
      have hset : b.breakdown.set r.toNat (bu.Sub delta) =
          (List.replicate TotalReasonsCount BalanceUpdate.zero).set r.toNat (bu.Sub delta) := by
        simp only [hb, List.set_set]
      obtain ⟨b', hrun, hb'⟩ := ih ⟨_, (List.length_set _ _ _).trans b.size⟩ (bu.Sub delta) hset
      exact ⟨b', by simp only [Breakdown.run, hstep, hrun],
        by simpa [BalanceUpdate.run, BalanceUpdate.step] using hb'⟩

theorem Breakdown_zero_eq_set (n : Nat) :
    Breakdown.zero.breakdown =
      (List.replicate TotalReasonsCount BalanceUpdate.zero).set n BalanceUpdate.zero := by
  unfold Breakdown.zero
  simp only []
  apply List.ext_getElem?
  intro i
  by_cases h : n = i
  · subst h
    by_cases hn : n < TotalReasonsCount
    · simp [hn]
    · simp [hn]
  · simp [List.getElem?_set, h]

/-- C13. For every valid reason `r` and every sequence of `Add(delta, r)` /
`Sub(delta, r)` calls, all for the reason `r`, on a zero `Breakdown`: the calls
do not panic, `Total()` equals `BalanceUpdate(r)`, and both equal the result of
the same `Add`/`Sub` sequence on a zero `BalanceUpdate`. -/
theorem Breakdown_single_reason_Total (r : Reason) (hr : Reason.Valid r)
    (calls : List BalanceUpdate.Call) :
    ∃ b, Breakdown.run r Breakdown.zero calls = some b ∧
      b.BalanceUpdate r = some (BalanceUpdate.zero.run calls) ∧
      some b.Total = b.BalanceUpdate r ∧
      b.Total = BalanceUpdate.zero.run calls := by
  obtain ⟨b, hrun, hb⟩ := Breakdown_run_single r hr calls Breakdown.zero BalanceUpdate.zero
    (Breakdown_zero_eq_set r.toNat)
  have hlt := Reason_toNat_lt r hr
  have hslot : b.BalanceUpdate r = some (BalanceUpdate.zero.run calls) := by
    unfold Breakdown.BalanceUpdate
    rw [(Breakdown_slot_valid b r hr).1, hb]
    simp [hlt]
  have hnet : (BalanceUpdate.zero.run calls).Netted :=
    BalanceUpdate.netted_run _ (Or.inl rfl) _
  have hrange : (BalanceUpdate.zero.run calls).InRange :=
    BalanceUpdate_inRange_run calls _ ⟨by decide, by decide⟩
  obtain ⟨hsi, hsd⟩ := Breakdown_sums_single r.toNat hlt (BalanceUpdate.zero.run calls)
  have hI : b.sumIncrease = (BalanceUpdate.zero.run calls).Increase := by
    unfold Breakdown.sumIncrease; rw [hb, hsi]
  have hD : b.sumDecrease = (BalanceUpdate.zero.run calls).Decrease := by
    unfold Breakdown.sumDecrease; rw [hb, hsd]
  have htotal : b.Total = BalanceUpdate.zero.run calls := by
    rw [Breakdown_Total_of_sums b (by rw [hI]; exact hrange.1) (by rw [hD]; exact hrange.2),
      hI, hD]
    generalize BalanceUpdate.zero.run calls = bu at hnet
    obtain ⟨i, d⟩ := bu
    simp only [BalanceUpdate.Netted] at hnet
    rcases hnet with h | h
    · subst h; simp
    · subst h
      by_cases hi : i = 0
      · subst hi; simp
      · have : i > 0 := Nat.pos_of_ne_zero hi
        simp [this]
  exact ⟨b, hrun, hslot, by rw [hslot, htotal], htotal⟩

theorem Breakdown_single_reason_Total_witness :
    Reason.Valid ValidatorDeposit ∧
    ∃ b, Breakdown.run ValidatorDeposit Breakdown.zero [.add 42, .sub 84] = some b ∧
      b.BalanceUpdate ValidatorDeposit = some { Increase := 0, Decrease := 42 } ∧
      b.Total = { Increase := 0, Decrease := 42 } :=
  have hr : Reason.Valid ValidatorDeposit := by decide
  have hval : BalanceUpdate.zero.run [.add 42, .sub 84] = { Increase := 0, Decrease := 42 } := by
    decide
  match Breakdown_single_reason_Total ValidatorDeposit hr [.add 42, .sub 84] with
  | ⟨b, hrun, hslot, _, htotal⟩ => ⟨hr, b, hrun, hval ▸ hslot, hval ▸ htotal⟩

/-- C15. The table of a `Breakdown` has exactly `TotalReasonsCount = 13` slots;
the twelve production reasons have the ordinals 1..12 in the listed order and
the `Test` sentinel has ordinal 0, all below `TotalReasonsCount`.  So `Add`,
`Sub` and `BalanceUpdate` never index out of range for a named reason (nor for
any reason `0 <= r < TotalReasonsCount`), while for every reason `r < 0` or
`r >= TotalReasonsCount` each of the three panics on the index. -/
theorem Breakdown_indexing_in_range (b : Breakdown) (delta : Nat) (r : Reason) :
    TotalReasonsCount = 13 ∧ b.breakdown.length = TotalReasonsCount ∧
    Test = 0 ∧
    productionReasons.map (·.2) = [1, 2, 3, 4, 5, 6, 7, 8, 9, 10, 11, 12] ∧
    (∀ q ∈ Test :: productionReasons.map (·.2), Reason.Valid q ∧
      (b.Add delta q).isSome ∧ (b.Sub delta q).isSome ∧ (b.BalanceUpdate q).isSome) ∧
    (Reason.Valid r →
      (b.Add delta r).isSome ∧ (b.Sub delta r).isSome ∧ (b.BalanceUpdate r).isSome) ∧
    ((r < 0 ∨ r ≥ TotalReasonsCount) →
      b.Add delta r = none ∧ b.Sub delta r = none ∧ b.BalanceUpdate r = none) := by
  have hvalid : ∀ q, Reason.Valid q →
      (b.Add delta q).isSome ∧ (b.Sub delta q).isSome ∧ (b.BalanceUpdate q).isSome := by
    intro q hq
    obtain ⟨bu, hbu⟩ := (Breakdown_slot_valid b q hq).2
    simp only [Breakdown.Add, Breakdown.Sub, Breakdown.BalanceUpdate, hbu]
    exact ⟨rfl, rfl, rfl⟩
  refine ⟨rfl, b.size, rfl, rfl, ?_, hvalid r, ?_⟩
  · intro q hq
    have hq' : Reason.Valid q := by
      revert q
      decide
    exact ⟨hq', hvalid q hq'⟩
  · intro hr
    have hslot := Breakdown_slot_invalid b r hr
    refine ⟨?_, ?_, hslot⟩
    · simp only [Breakdown.Add, hslot]
    · simp only [Breakdown.Sub, hslot]

theorem Breakdown_indexing_in_range_witness :
    (Reason.Valid ValidatorDeposit ∧
      (sampleBreakdown.Add 7 ValidatorDeposit).isSome ∧
      (sampleBreakdown.Sub 7 ValidatorDeposit).isSome ∧
      (sampleBreakdown.BalanceUpdate ValidatorDeposit).isSome) ∧
    (((13 : Reason) < 0 ∨ (13 : Reason) ≥ TotalReasonsCount) ∧
      sampleBreakdown.Add 7 13 = none ∧ sampleBreakdown.Sub 7 13 = none ∧
      sampleBreakdown.BalanceUpdate 13 = none) ∧
    (((-1 : Reason) < 0 ∨ (-1 : Reason) ≥ TotalReasonsCount) ∧
      sampleBreakdown.Add 7 (-1) = none ∧ sampleBreakdown.Sub 7 (-1) = none ∧
      sampleBreakdown.BalanceUpdate (-1) = none) :=
  have h1 : Reason.Valid ValidatorDeposit := by decide
  have h2 : (13 : Reason) < 0 ∨ (13 : Reason) ≥ TotalReasonsCount := by decide
  have h3 : (-1 : Reason) < 0 ∨ (-1 : Reason) ≥ TotalReasonsCount := by decide
  ⟨⟨h1, (Breakdown_indexing_in_range sampleBreakdown 7 ValidatorDeposit).2.2.2.2.2.1 h1⟩,
    ⟨h2, (Breakdown_indexing_in_range sampleBreakdown 7 13).2.2.2.2.2.2 h2⟩,
    ⟨h3, (Breakdown_indexing_in_range sampleBreakdown 7 (-1)).2.2.2.2.2.2 h3⟩⟩

/-! ## Properties of `ReasonID` -/

/-- C16. `ReasonID` maps the twelve production reasons to twelve pairwise
distinct identifiers, each the name of the reason's constant with a lower-case
first letter (`ValidatorDeposit` gives `validatorDeposit`) and none of them
`unknown`; every other integer, among them the `Test` sentinel 0 and every
value from `TotalReasonsCount` on, is mapped to `unknown`. -/
theorem ReasonID_identifiers (r : Reason) :
    (∀ p ∈ productionReasons, ReasonID p.2 = p.1.decapitalize ∧ ReasonID p.2 ≠ "unknown") ∧
    (productionReasons.map fun p => ReasonID p.2).Nodup ∧
    productionReasons.length = 12 ∧
    ReasonID ValidatorDeposit = "validatorDeposit" ∧
    (r ∉ productionReasons.map (·.2) → ReasonID r = "unknown") ∧
    ReasonID Test = "unknown" ∧
    (r ≥ TotalReasonsCount → ReasonID r = "unknown") := by
  have hother : ∀ q : Int, q ∉ productionReasons.map (·.2) → ReasonID q = "unknown" := by
    intro q hq
    simp only [productionReasons, AttesterAttestation, AttesterAttestationSource,
      AttesterAttestationTarget, AttesterHead, AttesterInactivity, ProposerAttestations,
      ProposerProposal, ProposerWhistleblowing, ValidatorDeposit, ValidatorSlashing,
      ValidatorWhistleblowing, ValidatorWithdrawal, List.map_cons, List.map_nil,
      List.mem_cons, List.mem_singleton, not_or, List.not_mem_nil, or_false] at hq
    obtain ⟨h1, h2, h3, h4, h5, h6, h7, h8, h9, h10, h11, h12⟩ := hq
    simp only [ReasonID, AttesterAttestation, AttesterAttestationSource,
      AttesterAttestationTarget, AttesterHead, AttesterInactivity, ProposerAttestations,
      ProposerProposal, ProposerWhistleblowing, ValidatorDeposit, ValidatorSlashing,
      ValidatorWhistleblowing, ValidatorWithdrawal, h1, h2, h3, h4, h5, h6, h7, h8, h9,
      h10, h11, h12, if_false]
  refine ⟨by decide, by decide, rfl, by decide, hother r, by decide, ?_⟩
  intro hge
  apply hother r
  have h13 : TotalReasonsCount = 13 := rfl
  have hge' : (13 : Int) ≤ r := by
    have : ((TotalReasonsCount : Nat) : Int) ≤ r := hge
    omega
  intro hmem
  have hcases : ∀ q : Int, q ∈ productionReasons.map (·.2) → q ≤ 12 := by decide
  have := hcases r hmem
  omega

theorem ReasonID_identifiers_witness :
    ((0 : Reason) ∉ productionReasons.map (·.2) ∧ ReasonID 0 = "unknown") ∧
    ((40 : Reason) ≥ TotalReasonsCount ∧ ReasonID 40 = "unknown") ∧
    ((-3 : Reason) ∉ productionReasons.map (·.2) ∧ ReasonID (-3) = "unknown") :=
  have h0 : (0 : Reason) ∉ productionReasons.map (·.2) := by decide
  have h40 : (40 : Reason) ≥ TotalReasonsCount := by decide
  have h3 : (-3 : Reason) ∉ productionReasons.map (·.2) := by decide
  ⟨⟨h0, (ReasonID_identifiers 0).2.2.2.2.1 h0⟩, ⟨h40, (ReasonID_identifiers 40).2.2.2.2.2.2 h40⟩,
    ⟨h3, (ReasonID_identifiers (-3)).2.2.2.2.1 h3⟩⟩

/-! ## Properties of `IsZero` -/

theorem BalanceUpdate_IsZero_iff (bu : BalanceUpdate) :
    bu.IsZero = true ↔ bu.Increase = 0 ∧ bu.Decrease = 0 := by
  simp [BalanceUpdate.IsZero]

/-- C17. `BalanceUpdate.IsZero()` is true iff both `Increase` and `Decrease` are
zero, and `Breakdown.IsZero()` is true iff every one of the `TotalReasonsCount`
slots of the table is zero in that sense. -/
theorem IsZero_iff_all_zero (bu : BalanceUpdate) (b : Breakdown) :
    (bu.IsZero = true ↔ bu.Increase = 0 ∧ bu.Decrease = 0) ∧
    b.breakdown.length = TotalReasonsCount ∧
    (b.IsZero = true ↔ ∀ slot ∈ b.breakdown, slot.Increase = 0 ∧ slot.Decrease = 0) := by
  refine ⟨BalanceUpdate_IsZero_iff bu, b.size, ?_⟩
  unfold Breakdown.IsZero
  rw [List.all_eq_true]
  constructor
  · intro h slot hslot
    obtain ⟨i, hi⟩ := List.mem_iff_get.mp hslot
    have := h (Fin.cast b.size i) (List.mem_finRange _)
    rw [← BalanceUpdate_IsZero_iff, ← hi]
    simpa using this
  · intro h r _
    rw [BalanceUpdate_IsZero_iff]
    exact h _ (List.get_mem _ _ _)

/-! ## Properties of `FinalityDelay` and `IsInInactivityLeak` -/

/-- C18. For all epochs with `finalizedEpoch <= prevEpoch` (in the `uint64`
range), `FinalityDelay(prevEpoch, finalizedEpoch) = prevEpoch - finalizedEpoch`
and `IsInInactivityLeak(prevEpoch, finalizedEpoch)` is true iff
`prevEpoch - finalizedEpoch > MinEpochsToInactivityPenalty`; a delay equal to
the constant gives false and a delay of the constant plus one gives true. -/
theorem IsInInactivityLeak_iff (cfg : BeaconChainConfig) (prevEpoch finalizedEpoch : Nat)
    (hrange : prevEpoch < 2 ^ 64) (hle : finalizedEpoch ≤ prevEpoch) :
    FinalityDelay prevEpoch finalizedEpoch = prevEpoch - finalizedEpoch ∧
    (IsInInactivityLeak cfg prevEpoch finalizedEpoch = true ↔
      prevEpoch - finalizedEpoch > cfg.MinEpochsToInactivityPenalty) ∧
    (prevEpoch - finalizedEpoch = cfg.MinEpochsToInactivityPenalty →
      IsInInactivityLeak cfg prevEpoch finalizedEpoch = false) ∧
    (prevEpoch - finalizedEpoch = cfg.MinEpochsToInactivityPenalty + 1 →
      IsInInactivityLeak cfg prevEpoch finalizedEpoch = true) := by
  have hd : FinalityDelay prevEpoch finalizedEpoch = prevEpoch - finalizedEpoch :=
    wrapSub_eq prevEpoch finalizedEpoch hrange hle
  refine ⟨hd, ?_, ?_, ?_⟩
  · simp [IsInInactivityLeak, hd]
  · intro h
    simp [IsInInactivityLeak, hd, h]
  · intro h
    simp [IsInInactivityLeak, hd, h]

theorem IsInInactivityLeak_iff_witness :
    (14 < 2 ^ 64 ∧ 10 ≤ 14 ∧ 14 - 10 = sampleConfig.MinEpochsToInactivityPenalty ∧
      FinalityDelay 14 10 = 4 ∧ IsInInactivityLeak sampleConfig 14 10 = false) ∧
    (15 < 2 ^ 64 ∧ 10 ≤ 15 ∧ 15 - 10 = sampleConfig.MinEpochsToInactivityPenalty + 1 ∧
      FinalityDelay 15 10 = 5 ∧ IsInInactivityLeak sampleConfig 15 10 = true) :=
  have a1 : 14 < 2 ^ 64 := by norm_num
  have a2 : 15 < 2 ^ 64 := by norm_num
  have b1 : 10 ≤ 14 := by norm_num
  have b2 : 10 ≤ 15 := by norm_num
  have h1 := IsInInactivityLeak_iff sampleConfig 14 10 a1 b1
  have h2 := IsInInactivityLeak_iff sampleConfig 15 10 a2 b2
  ⟨⟨a1, b1, rfl, h1.1, h1.2.2.1 rfl⟩, ⟨a2, b2, rfl, h2.1, h2.2.2.2 rfl⟩⟩

theorem IsZero_iff_all_zero_witness :
    Breakdown.zero.IsZero = true ∧ sampleBreakdown.IsZero = false :=
  have h1 : ∀ slot ∈ Breakdown.zero.breakdown, slot.Increase = 0 ∧ slot.Decrease = 0 := by
    decide
  have h2 : ¬ ∀ slot ∈ sampleBreakdown.breakdown, slot.Increase = 0 ∧ slot.Decrease = 0 := by
    decide
  ⟨(IsZero_iff_all_zero BalanceUpdate.zero Breakdown.zero).2.2.mpr h1,
    Bool.eq_false_iff.mpr
      (fun h => h2 ((IsZero_iff_all_zero BalanceUpdate.zero sampleBreakdown).2.2.mp h))⟩

/-! ## Properties of `TotalActiveBalance` -/

/-- The loop of `TotalActiveBalance` computes the sum of the active effective
balances modulo `2 ^ 64`. -/
theorem TotalActiveBalance_fold_eq (vals : List Validator) (epoch acc : Nat)
    (hacc : acc < 2 ^ 64) :
    vals.foldl
      (fun total val =>
        if IsActiveValidatorUsingTrie val epoch then
          wrapAdd total val.EffectiveBalance
        else
          total)
      acc = (acc + (activeBalances vals epoch).sum) % 2 ^ 64 := by
  induction vals generalizing acc with
  | nil => simp [activeBalances]; omega
  | cons v vs ih =>
    simp only [List.foldl_cons]
    by_cases hv : IsActiveValidatorUsingTrie v epoch = true
    · have hres : activeBalances (v :: vs) epoch =
          v.EffectiveBalance :: activeBalances vs epoch := by
        simp [activeBalances, hv]
      rw [hres, List.sum_cons]
      simp only [hv, if_true]
      have hlt : wrapAdd acc v.EffectiveBalance < 2 ^ 64 := by unfold wrapAdd; omega
      rw [ih _ hlt]
      unfold wrapAdd
      omega
    · have hres : activeBalances (v :: vs) epoch = activeBalances vs epoch := by
        simp [activeBalances, hv]
      rw [hres]
      simp only [hv]
      exact ih acc hacc

theorem mathutil_Max_eq (a b : Nat) : mathutil.Max a b = max a b := by
  unfold mathutil.Max
  split_ifs with h
  · omega
  · omega

theorem TotalActiveBalance_of_miss {κ σ : Type} (cfg : BeaconChainConfig)
    (C : EffectiveBalanceCache κ σ) (c : κ) (S : BeaconState σ) (s : σ) (vals : List Validator)
    (hmiss : C.Get c s = .error .NotFound) (hscan : S.ReadFromEveryValidator s = .ok vals) :
    TotalActiveBalance cfg C c S s =
      match C.AddTotalEffectiveBalance c s
          (max cfg.EffectiveBalanceIncrement
            ((activeBalances vals (slots.ToEpoch cfg (S.Slot s))).sum % 2 ^ 64)) with
      | .error err => { value := 0, err := some err, cache := c, scans := 1 }
      | .ok c' =>
        { value := max cfg.EffectiveBalanceIncrement
            ((activeBalances vals (slots.ToEpoch cfg (S.Slot s))).sum % 2 ^ 64),
          err := none, cache := c', scans := 1 } := by
  unfold TotalActiveBalance
  simp only [hmiss, hscan, if_true]
  rw [TotalActiveBalance_fold_eq vals _ 0 (by norm_num), mathutil_Max_eq, Nat.zero_add]

/-- C19 (as amended).  When the cache lookup reports `NotFound` and the
iteration over the validators succeeds, `TotalActiveBalance` scans once and
passes to the cache store, for that state, the maximum of
`EffectiveBalanceIncrement` and the sum modulo `2^64` of the effective balances
of exactly the validators active at the epoch of the state's slot; when the
store succeeds it returns that value with no error and leaves the cache that
the store produced.  When the sum is below `2^64` the value is
`max(EffectiveBalanceIncrement, sum)`. -/
theorem TotalActiveBalance_on_miss {κ σ : Type} (cfg : BeaconChainConfig)
    (C : EffectiveBalanceCache κ σ) (c : κ) (S : BeaconState σ) (s : σ) (vals : List Validator)
    (hmiss : C.Get c s = .error .NotFound) (hscan : S.ReadFromEveryValidator s = .ok vals) :
    (∀ c', C.AddTotalEffectiveBalance c s
        (max cfg.EffectiveBalanceIncrement
          ((activeBalances vals (slots.ToEpoch cfg (S.Slot s))).sum % 2 ^ 64)) = .ok c' →
      (TotalActiveBalance cfg C c S s).value =
        max cfg.EffectiveBalanceIncrement
          ((activeBalances vals (slots.ToEpoch cfg (S.Slot s))).sum % 2 ^ 64) ∧
      (TotalActiveBalance cfg C c S s).err = none ∧
      (TotalActiveBalance cfg C c S s).cache = c' ∧
      (TotalActiveBalance cfg C c S s).scans = 1) ∧
    ((activeBalances vals (slots.ToEpoch cfg (S.Slot s))).sum < 2 ^ 64 →
      ∀ c', C.AddTotalEffectiveBalance c s
          (max cfg.EffectiveBalanceIncrement
            (activeBalances vals (slots.ToEpoch cfg (S.Slot s))).sum) = .ok c' →
        (TotalActiveBalance cfg C c S s).value =
          max cfg.EffectiveBalanceIncrement
            (activeBalances vals (slots.ToEpoch cfg (S.Slot s))).sum ∧
        (TotalActiveBalance cfg C c S s).err = none ∧
        (TotalActiveBalance cfg C c S s).cache = c') := by
  have hgen : ∀ c', C.AddTotalEffectiveBalance c s
        (max cfg.EffectiveBalanceIncrement
          ((activeBalances vals (slots.ToEpoch cfg (S.Slot s))).sum % 2 ^ 64)) = .ok c' →
      (TotalActiveBalance cfg C c S s).value =
        max cfg.EffectiveBalanceIncrement
          ((activeBalances vals (slots.ToEpoch cfg (S.Slot s))).sum % 2 ^ 64) ∧
      (TotalActiveBalance cfg C c S s).err = none ∧
      (TotalActiveBalance cfg C c S s).cache = c' ∧
      (TotalActiveBalance cfg C c S s).scans = 1 := by
    intro c' hstore
    rw [TotalActiveBalance_of_miss cfg C c S s vals hmiss hscan, hstore]
    exact ⟨rfl, rfl, rfl, rfl⟩
  refine ⟨hgen, ?_⟩
  intro hlt c' hstore
  rw [← Nat.mod_eq_of_lt hlt] at hstore
  obtain ⟨h1, h2, h3, _⟩ := hgen c' hstore
  rw [Nat.mod_eq_of_lt hlt] at h1
  exact ⟨h1, h2, h3⟩

theorem TotalActiveBalance_on_miss_witness :
    (SingleEntryCache.access sampleConfig).Get emptyCache (sampleStateOf [32000000000, 5]) =
      .error .NotFound ∧
    ListState.access.ReadFromEveryValidator (sampleStateOf [32000000000, 5]) =
      .ok [sampleValidator 32000000000, sampleValidator 5] ∧
    (activeBalances [sampleValidator 32000000000, sampleValidator 5]
      (slots.ToEpoch sampleConfig 70)).sum < 2 ^ 64 ∧
    (TotalActiveBalance sampleConfig (SingleEntryCache.access sampleConfig) emptyCache
      ListState.access (sampleStateOf [32000000000, 5])).value = 32000000005 ∧
    (TotalActiveBalance sampleConfig (SingleEntryCache.access sampleConfig) emptyCache
      ListState.access (sampleStateOf [32000000000, 5])).err = none ∧
    (TotalActiveBalance sampleConfig (SingleEntryCache.access sampleConfig) emptyCache
      ListState.access (sampleStateOf [32000000000, 5])).cache =
      { entry := some ((2, [sampleValidator 32000000000, sampleValidator 5]), 32000000005) } :=
  have hlt : (activeBalances [sampleValidator 32000000000, sampleValidator 5]
      (slots.ToEpoch sampleConfig 70)).sum < 2 ^ 64 := by decide
  have h := (TotalActiveBalance_on_miss sampleConfig (SingleEntryCache.access sampleConfig)
    emptyCache ListState.access (sampleStateOf [32000000000, 5])
    [sampleValidator 32000000000, sampleValidator 5] rfl rfl).2 hlt
    { entry := some ((2, [sampleValidator 32000000000, sampleValidator 5]), 32000000005) } rfl
  ⟨rfl, rfl, hlt, h.1, h.2.1, h.2.2⟩

/-- C19 (the claim as stated fails).  A state with two active validators of
effective balance `2^63` each and an empty cache: the lookup reports
`NotFound`, the iteration succeeds and both validators are active, so the sum
of the active effective balances is `2^64`; the running total wraps to 0 and
`TotalActiveBalance` returns `EffectiveBalanceIncrement`, not the maximum of
`EffectiveBalanceIncrement` and the sum. -/
theorem TotalActiveBalance_sum_wraps :
    (SingleEntryCache.access sampleConfig).Get emptyCache (sampleStateOf [2 ^ 63, 2 ^ 63]) =
      .error .NotFound ∧
    ListState.access.ReadFromEveryValidator (sampleStateOf [2 ^ 63, 2 ^ 63]) =
      .ok [sampleValidator (2 ^ 63), sampleValidator (2 ^ 63)] ∧
    activeBalances [sampleValidator (2 ^ 63), sampleValidator (2 ^ 63)]
      (slots.ToEpoch sampleConfig (ListState.access.Slot (sampleStateOf [2 ^ 63, 2 ^ 63]))) =
      [2 ^ 63, 2 ^ 63] ∧
    (TotalActiveBalance sampleConfig (SingleEntryCache.access sampleConfig) emptyCache
      ListState.access (sampleStateOf [2 ^ 63, 2 ^ 63])).err = none ∧
    (TotalActiveBalance sampleConfig (SingleEntryCache.access sampleConfig) emptyCache
      ListState.access (sampleStateOf [2 ^ 63, 2 ^ 63])).value = 1000000000 ∧
    max sampleConfig.EffectiveBalanceIncrement ([2 ^ 63, 2 ^ 63] : List Nat).sum = 2 ^ 64 ∧
    (TotalActiveBalance sampleConfig (SingleEntryCache.access sampleConfig) emptyCache
      ListState.access (sampleStateOf [2 ^ 63, 2 ^ 63])).value ≠
      max sampleConfig.EffectiveBalanceIncrement
        (activeBalances [sampleValidator (2 ^ 63), sampleValidator (2 ^ 63)]
          (slots.ToEpoch sampleConfig
            (ListState.access.Slot (sampleStateOf [2 ^ 63, 2 ^ 63])))).sum := by
  refine ⟨rfl, rfl, by decide, by decide, by decide, by decide, by decide⟩

/-- C20. If the cache lookup fails with an error other than `NotFound`,
`TotalActiveBalance` returns that error with value 0, does not scan the
validators and leaves the cache as it was (nothing is stored). -/
theorem TotalActiveBalance_lookup_error {κ σ : Type} (cfg : BeaconChainConfig)
    (C : EffectiveBalanceCache κ σ) (c : κ) (S : BeaconState σ) (s : σ) (e : Error)
    (hget : C.Get c s = .error e) (hne : e ≠ .NotFound) :
    (TotalActiveBalance cfg C c S s).value = 0 ∧
    (TotalActiveBalance cfg C c S s).err = some e ∧
    (TotalActiveBalance cfg C c S s).scans = 0 ∧
    (TotalActiveBalance cfg C c S s).cache = c := by
  have hout : TotalActiveBalance cfg C c S s =
      { value := 0, err := some e, cache := c, scans := 0 } := by
    unfold TotalActiveBalance
    simp only [hget, hne, if_false]
  rw [hout]
  exact ⟨rfl, rfl, rfl, rfl⟩

theorem TotalActiveBalance_lookup_error_witness :
    failingCache.Get () (sampleStateOf [32000000000, 5]) =
      .error (.Other "balance cache key") ∧
    Error.Other "balance cache key" ≠ Error.NotFound ∧
    (TotalActiveBalance sampleConfig failingCache () ListState.access
      (sampleStateOf [32000000000, 5])).value = 0 ∧
    (TotalActiveBalance sampleConfig failingCache () ListState.access
      (sampleStateOf [32000000000, 5])).err = some (.Other "balance cache key") ∧
    (TotalActiveBalance sampleConfig failingCache () ListState.access
      (sampleStateOf [32000000000, 5])).scans = 0 :=
  have hne : Error.Other "balance cache key" ≠ Error.NotFound := by decide
  have h := TotalActiveBalance_lookup_error sampleConfig failingCache ()
    ListState.access (sampleStateOf [32000000000, 5]) (.Other "balance cache key") rfl hne
  ⟨rfl, hne, h.1, h.2.1, h.2.2.1⟩


/-! ## `TotalActiveBalance` and the errors of the cache -/

theorem TotalActiveBalance_of_hit {κ σ : Type} (cfg : BeaconChainConfig)
    (C : EffectiveBalanceCache κ σ) (c : κ) (S : BeaconState σ) (s : σ) (bal : Nat)
    (hget : C.Get c s = .ok bal) :
    TotalActiveBalance cfg C c S s = { value := bal, err := none, cache := c, scans := 0 } := by
  unfold TotalActiveBalance
  simp only [hget]

theorem TotalActiveBalance_of_lookup_error {κ σ : Type} (cfg : BeaconChainConfig)
    (C : EffectiveBalanceCache κ σ) (c : κ) (S : BeaconState σ) (s : σ) (e : Error)
    (hget : C.Get c s = .error e) (hne : e ≠ .NotFound) :
    TotalActiveBalance cfg C c S s = { value := 0, err := some e, cache := c, scans := 0 } := by
  unfold TotalActiveBalance
  simp only [hget, hne, if_false]

theorem TotalActiveBalance_of_scan_error {κ σ : Type} (cfg : BeaconChainConfig)
    (C : EffectiveBalanceCache κ σ) (c : κ) (S : BeaconState σ) (s : σ) (e : Error)
    (hmiss : C.Get c s = .error .NotFound) (hscan : S.ReadFromEveryValidator s = .error e) :
    TotalActiveBalance cfg C c S s = { value := 0, err := some e, cache := c, scans := 1 } := by
  unfold TotalActiveBalance
  simp only [hmiss, hscan, if_true]

/-- C21 (as amended).  Of the errors of the cache only the miss is non-fatal.
When the validator scan succeeds: after a lookup that reports `NotFound` and a
store that succeeds, `TotalActiveBalance` returns the recomputed total with no
error; a lookup that fails with any other error is returned with value 0 and
without a scan; a store that fails is returned with value 0 after the scan. -/
theorem TotalActiveBalance_cache_errors {κ σ : Type} (cfg : BeaconChainConfig)
    (C : EffectiveBalanceCache κ σ) (c : κ) (S : BeaconState σ) (s : σ) (vals : List Validator)
    (hscan : S.ReadFromEveryValidator s = .ok vals) :
    (C.Get c s = .error .NotFound →
      ∀ c', C.AddTotalEffectiveBalance c s
          (max cfg.EffectiveBalanceIncrement
            ((activeBalances vals (slots.ToEpoch cfg (S.Slot s))).sum % 2 ^ 64)) = .ok c' →
        (TotalActiveBalance cfg C c S s).value =
          max cfg.EffectiveBalanceIncrement
            ((activeBalances vals (slots.ToEpoch cfg (S.Slot s))).sum % 2 ^ 64) ∧
        (TotalActiveBalance cfg C c S s).err = none) ∧
    (∀ e, C.Get c s = .error e → e ≠ .NotFound →
      (TotalActiveBalance cfg C c S s).value = 0 ∧
      (TotalActiveBalance cfg C c S s).err = some e ∧
      (TotalActiveBalance cfg C c S s).scans = 0) ∧
    (C.Get c s = .error .NotFound →
      ∀ e, C.AddTotalEffectiveBalance c s
          (max cfg.EffectiveBalanceIncrement
            ((activeBalances vals (slots.ToEpoch cfg (S.Slot s))).sum % 2 ^ 64)) = .error e →
        (TotalActiveBalance cfg C c S s).value = 0 ∧
        (TotalActiveBalance cfg C c S s).err = some e ∧
        (TotalActiveBalance cfg C c S s).scans = 1) := by
  refine ⟨fun hmiss c' hstore => ?_, fun e hget hne => ?_, fun hmiss e hstore => ?_⟩
  · rw [TotalActiveBalance_of_miss cfg C c S s vals hmiss hscan, hstore]
    exact ⟨rfl, rfl⟩
  · rw [TotalActiveBalance_of_lookup_error cfg C c S s e hget hne]
    exact ⟨rfl, rfl, rfl⟩
  · rw [TotalActiveBalance_of_miss cfg C c S s vals hmiss hscan, hstore]
    exact ⟨rfl, rfl, rfl⟩

theorem TotalActiveBalance_cache_errors_witness :
    ListState.access.ReadFromEveryValidator (sampleStateOf [32000000000, 5]) =
      .ok [sampleValidator 32000000000, sampleValidator 5] ∧
    ((SingleEntryCache.access sampleConfig).Get emptyCache (sampleStateOf [32000000000, 5]) =
        .error .NotFound ∧
      (TotalActiveBalance sampleConfig (SingleEntryCache.access sampleConfig) emptyCache
        ListState.access (sampleStateOf [32000000000, 5])).value = 32000000005 ∧
      (TotalActiveBalance sampleConfig (SingleEntryCache.access sampleConfig) emptyCache
        ListState.access (sampleStateOf [32000000000, 5])).err = none) ∧
    (failingCache.Get () (sampleStateOf [32000000000, 5]) =
        .error (.Other "balance cache key") ∧
      (TotalActiveBalance sampleConfig failingCache () ListState.access
        (sampleStateOf [32000000000, 5])).err = some (.Other "balance cache key") ∧
      (TotalActiveBalance sampleConfig failingCache () ListState.access
        (sampleStateOf [32000000000, 5])).scans = 0) ∧
    (storeFailingCache.Get () (sampleStateOf [32000000000, 5]) = .error .NotFound ∧
      (TotalActiveBalance sampleConfig storeFailingCache () ListState.access
        (sampleStateOf [32000000000, 5])).value = 0 ∧
      (TotalActiveBalance sampleConfig storeFailingCache () ListState.access
        (sampleStateOf [32000000000, 5])).err = some (.Other "balance cache store")) :=
  have h1 := TotalActiveBalance_cache_errors sampleConfig (SingleEntryCache.access sampleConfig)
    emptyCache ListState.access (sampleStateOf [32000000000, 5])
    [sampleValidator 32000000000, sampleValidator 5] rfl
  have h2 := TotalActiveBalance_cache_errors sampleConfig failingCache ()
    ListState.access (sampleStateOf [32000000000, 5])
    [sampleValidator 32000000000, sampleValidator 5] rfl
  have h3 := TotalActiveBalance_cache_errors sampleConfig storeFailingCache ()
    ListState.access (sampleStateOf [32000000000, 5])
    [sampleValidator 32000000000, sampleValidator 5] rfl
  have a1 := h1.1 rfl
    { entry := some ((2, [sampleValidator 32000000000, sampleValidator 5]), 32000000005) } rfl
  have a2 := h2.2.1 (.Other "balance cache key") rfl (by decide)
  have a3 := h3.2.2 rfl (.Other "balance cache store") rfl
  ⟨rfl, ⟨rfl, a1.1, a1.2⟩, ⟨rfl, a2.2.1, a2.2.2⟩, ⟨rfl, a3.1, a3.2.1⟩⟩

/-- C21 (the claim as stated fails).  With a cache whose lookup fails with an
error other than `NotFound`, on a state whose validator scan succeeds and
whose active effective balances sum to 32000000005, `TotalActiveBalance`
returns that error with value 0 instead of the recomputed total; and with a
cache that misses and whose store fails, it returns the error of the store
with value 0. -/
theorem TotalActiveBalance_cache_error_is_fatal :
    ListState.access.ReadFromEveryValidator (sampleStateOf [32000000000, 5]) =
      .ok [sampleValidator 32000000000, sampleValidator 5] ∧
    max sampleConfig.EffectiveBalanceIncrement
      (activeBalances [sampleValidator 32000000000, sampleValidator 5]
        (slots.ToEpoch sampleConfig 70)).sum = 32000000005 ∧
    (TotalActiveBalance sampleConfig failingCache () ListState.access
      (sampleStateOf [32000000000, 5])).err = some (.Other "balance cache key") ∧
    (TotalActiveBalance sampleConfig failingCache () ListState.access
      (sampleStateOf [32000000000, 5])).value = 0 ∧
    (TotalActiveBalance sampleConfig storeFailingCache () ListState.access
      (sampleStateOf [32000000000, 5])).err = some (.Other "balance cache store") ∧
    (TotalActiveBalance sampleConfig storeFailingCache () ListState.access
      (sampleStateOf [32000000000, 5])).value = 0 ∧
    ¬ ((TotalActiveBalance sampleConfig failingCache () ListState.access
        (sampleStateOf [32000000000, 5])).err = none ∧
      (TotalActiveBalance sampleConfig failingCache () ListState.access
        (sampleStateOf [32000000000, 5])).value = 32000000005) := by
  refine ⟨rfl, by decide, by decide, by decide, by decide, by decide, by decide⟩

theorem SingleEntryCache_returnsLastStored (cfg : BeaconChainConfig) :
    (SingleEntryCache.access cfg).ReturnsLastStored := by
  intro c c' s total h
  simp only [SingleEntryCache.access] at h ⊢
  cases h
  simp

/-- C22. For a cache whose lookup returns the value most recently stored for the
same state, a call of `TotalActiveBalance` that returns without error and a
second call on the same unchanged state, with the cache the first call left,
return the identical value, and the second call returns it without error and
without running the scan over the validators. -/
theorem TotalActiveBalance_second_call_is_cached {κ σ : Type} (cfg : BeaconChainConfig)
    (C : EffectiveBalanceCache κ σ) (c : κ) (S : BeaconState σ) (s : σ)
    (hlaw : C.ReturnsLastStored) (hfirst : (TotalActiveBalance cfg C c S s).err = none) :
    (TotalActiveBalance cfg C (TotalActiveBalance cfg C c S s).cache S s).value =
      (TotalActiveBalance cfg C c S s).value ∧
    (TotalActiveBalance cfg C (TotalActiveBalance cfg C c S s).cache S s).err = none ∧
    (TotalActiveBalance cfg C (TotalActiveBalance cfg C c S s).cache S s).scans = 0 := by
  cases hget : C.Get c s with
  | ok bal =>
    rw [TotalActiveBalance_of_hit cfg C c S s bal hget]
    simp only []
    rw [TotalActiveBalance_of_hit cfg C c S s bal hget]
    exact ⟨rfl, rfl, rfl⟩
  | error e =>
    by_cases hne : e = .NotFound
    · subst hne
      cases hscan : S.ReadFromEveryValidator s with
      | error e' =>
        rw [TotalActiveBalance_of_scan_error cfg C c S s e' hget hscan] at hfirst
        cases hfirst
      | ok vals =>
        rw [TotalActiveBalance_of_miss cfg C c S s vals hget hscan] at hfirst ⊢
        cases hstore : C.AddTotalEffectiveBalance c s
            (max cfg.EffectiveBalanceIncrement
              ((activeBalances vals (slots.ToEpoch cfg (S.Slot s))).sum % 2 ^ 64)) with
        | error e' =>
          rw [hstore] at hfirst
          cases hfirst
        | ok c' =>
          simp only []
          rw [TotalActiveBalance_of_hit cfg C c' S s _ (hlaw c c' s _ hstore)]
          exact ⟨rfl, rfl, rfl⟩
    · rw [TotalActiveBalance_of_lookup_error cfg C c S s e hget hne] at hfirst
      cases hfirst

theorem TotalActiveBalance_second_call_is_cached_witness :
    (SingleEntryCache.access sampleConfig).ReturnsLastStored ∧
    (TotalActiveBalance sampleConfig (SingleEntryCache.access sampleConfig) emptyCache
      ListState.access (sampleStateOf [32000000000, 5])).err = none ∧
    (TotalActiveBalance sampleConfig (SingleEntryCache.access sampleConfig) emptyCache
      ListState.access (sampleStateOf [32000000000, 5])).scans = 1 ∧
    (TotalActiveBalance sampleConfig (SingleEntryCache.access sampleConfig)
      (TotalActiveBalance sampleConfig (SingleEntryCache.access sampleConfig) emptyCache
        ListState.access (sampleStateOf [32000000000, 5])).cache
      ListState.access (sampleStateOf [32000000000, 5])).value =
      (TotalActiveBalance sampleConfig (SingleEntryCache.access sampleConfig) emptyCache
        ListState.access (sampleStateOf [32000000000, 5])).value ∧
    (TotalActiveBalance sampleConfig (SingleEntryCache.access sampleConfig)
      (TotalActiveBalance sampleConfig (SingleEntryCache.access sampleConfig) emptyCache
        ListState.access (sampleStateOf [32000000000, 5])).cache
      ListState.access (sampleStateOf [32000000000, 5])).scans = 0 :=
  have hlaw := SingleEntryCache_returnsLastStored sampleConfig
  have hfirst : (TotalActiveBalance sampleConfig (SingleEntryCache.access sampleConfig)
      emptyCache ListState.access (sampleStateOf [32000000000, 5])).err = none := by decide
  have h := TotalActiveBalance_second_call_is_cached sampleConfig
    (SingleEntryCache.access sampleConfig) emptyCache ListState.access
    (sampleStateOf [32000000000, 5]) hlaw hfirst
  ⟨hlaw, hfirst, by decide, h.1, h.2.2⟩

/-! ## Properties of `emitEvent` -/

theorem String_length_eq_zero (s : String) : s.length = 0 ↔ s = "" := by
  constructor
  · intro h
    apply String.ext
    exact List.length_eq_zero.mp h
  · intro h
    subst h
    rfl

theorem emitEvent_of_skip {σ : Type} (cfg : BeaconChainConfig) (S : BeaconState σ) (st : σ)
    (sink : AuditSink) (idx delta : Nat) (increment : Bool) (reason : String)
    (h : delta = 0 ∨ reason = "") :
    emitEvent cfg S st sink idx delta increment reason = sink := by
  have h' : delta = 0 ∨ reason.length = 0 := by
    rcases h with h | h
    · exact Or.inl h
    · exact Or.inr ((String_length_eq_zero reason).mpr h)
  unfold emitEvent
  rw [if_pos h']

/-- What `emitEvent` does when it does not return at once: one log entry, then
`Lock`, one `WriteString` of the record, `Unlock`; the record is in the file
afterwards unless the file is closed, in which case the failure is logged. -/
theorem emitEvent_of_emit {σ : Type} (cfg : BeaconChainConfig) (S : BeaconState σ) (st : σ)
    (sink : AuditSink) (idx delta : Nat) (increment : Bool) (reason : String)
    (hd : delta ≠ 0) (hr : reason ≠ "") :
    (emitEvent cfg S st sink idx delta increment reason).ops =
      sink.ops ++ [.Lock, .WriteString (eventRecord cfg S st idx delta increment reason),
        .Unlock] ∧
    (emitEvent cfg S st sink idx delta increment reason).closed = sink.closed ∧
    (sink.closed = false →
      (emitEvent cfg S st sink idx delta increment reason).jsonl =
        sink.jsonl ++ [eventRecord cfg S st idx delta increment reason]) ∧
    (sink.closed = true →
      (emitEvent cfg S st sink idx delta increment reason).jsonl = sink.jsonl) := by
  have h' : ¬ (delta = 0 ∨ reason.length = 0) := by
    intro h
    rcases h with h | h
    · exact hd h
    · exact hr ((String_length_eq_zero reason).mp h)
  unfold emitEvent
  rw [if_neg h']
  cases hc : sink.closed with
  | false =>
    simp [AuditSink.WriteString, AuditSink.Lock, AuditSink.Unlock, AuditSink.logEntry,
      eventRecord, hc]
  | true =>
    simp [AuditSink.WriteString, AuditSink.Lock, AuditSink.Unlock, AuditSink.logEntry,
      eventRecord, hc]

/-- C23. `emitEvent` appends exactly one record when `delta != 0` and the reason
is non-empty: it makes exactly one `WriteString`, of the record, under the
mutex, and on a file that accepts the write the content grows by exactly that
record.  It appends nothing when `delta == 0` or the reason is empty (the
sink is returned as it was); in that case a successful `IncreaseBalance` or
`DecreaseBalance` still writes the new balance. -/
theorem emitEvent_appends_one_record {σ : Type} (cfg : BeaconChainConfig)
    (S : BeaconState σ) (st : σ) (sink : AuditSink) (idx delta : Nat) (increment : Bool)
    (reason : String) :
    (delta ≠ 0 ∧ reason ≠ "" →
      (emitEvent cfg S st sink idx delta increment reason).ops =
        sink.ops ++ [.Lock, .WriteString (eventRecord cfg S st idx delta increment reason),
          .Unlock] ∧
      (sink.closed = false →
        (emitEvent cfg S st sink idx delta increment reason).jsonl =
          sink.jsonl ++ [eventRecord cfg S st idx delta increment reason])) ∧
    (delta = 0 ∨ reason = "" →
      emitEvent cfg S st sink idx delta increment reason = sink) ∧
    (delta = 0 ∨ reason = "" → ∀ b, S.BalanceAtIndex st idx = .ok b →
      (b + delta < 2 ^ 64 → ∀ st', S.UpdateBalancesAtIndex st idx (b + delta) = .ok st' →
        (IncreaseBalance cfg S st sink idx delta reason).err = none ∧
        (IncreaseBalance cfg S st sink idx delta reason).state = st' ∧
        (IncreaseBalance cfg S st sink idx delta reason).sink = sink) ∧
      (∀ st', S.UpdateBalancesAtIndex st idx (DecreaseBalanceWithVal b delta) = .ok st' →
        (DecreaseBalance cfg S st sink idx delta reason).err = none ∧
        (DecreaseBalance cfg S st sink idx delta reason).state = st' ∧
        (DecreaseBalance cfg S st sink idx delta reason).sink = sink)) := by
  refine ⟨fun h => ?_, emitEvent_of_skip cfg S st sink idx delta increment reason, ?_⟩
  · obtain ⟨h1, _, h3, _⟩ := emitEvent_of_emit cfg S st sink idx delta increment reason h.1 h.2
    exact ⟨h1, h3⟩
  · intro hskip b hread
    refine ⟨fun hsum st' hw => ?_, fun st' hw => ?_⟩
    · rw [IncreaseBalance_of_read cfg S st sink idx delta reason b hread hsum, hw]
      exact ⟨rfl, rfl, emitEvent_of_skip cfg S st sink idx delta true reason hskip⟩
    · rw [DecreaseBalance_of_read cfg S st sink idx delta reason b hread, hw]
      exact ⟨rfl, rfl, emitEvent_of_skip cfg S st sink idx delta false reason hskip⟩

theorem emitEvent_appends_one_record_witness :
    ((7 ≠ 0 ∧ "processDeposit" ≠ "") ∧ sampleSink.closed = false ∧
      (emitEvent sampleConfig ListState.access (sampleState 5) sampleSink 0 7 true
        "processDeposit").jsonl =
        [eventRecord sampleConfig ListState.access (sampleState 5) 0 7 true "processDeposit"] ∧
      (emitEvent sampleConfig ListState.access (sampleState 5) sampleSink 0 7 true
        "processDeposit").ops =
        [.Lock,
          .WriteString
            (eventRecord sampleConfig ListState.access (sampleState 5) 0 7 true
              "processDeposit"),
          .Unlock]) ∧
    ((0 = 0 ∨ "processDeposit" = "") ∧
      emitEvent sampleConfig ListState.access (sampleState 5) sampleSink 0 0 true
        "processDeposit" = sampleSink ∧
      (IncreaseBalance sampleConfig ListState.access (sampleState 5) sampleSink 0 0
        "processDeposit").state = sampleState 5) ∧
    ((7 = 0 ∨ "" = "") ∧
      (DecreaseBalance sampleConfig ListState.access (sampleState 5) sampleSink 0 7 "").state =
        sampleState 0 ∧
      (DecreaseBalance sampleConfig ListState.access (sampleState 5) sampleSink 0 7 "").sink =
        sampleSink) :=
  have h1 := emitEvent_appends_one_record sampleConfig ListState.access (sampleState 5)
    sampleSink 0 7 true "processDeposit"
  have h2 := emitEvent_appends_one_record sampleConfig ListState.access (sampleState 5)
    sampleSink 0 0 true "processDeposit"
  have h3 := emitEvent_appends_one_record sampleConfig ListState.access (sampleState 5)
    sampleSink 0 7 false ""
  have a1 : 7 ≠ 0 ∧ "processDeposit" ≠ "" := ⟨by decide, by decide⟩
  have a2 : 0 = 0 ∨ "processDeposit" = "" := Or.inl rfl
  have a3 : 7 = 0 ∨ "" = "" := Or.inr rfl
  have b2 := (h2.2.2 a2 5 rfl).1 (by norm_num) (sampleState 5) rfl
  have b3 := (h3.2.2 a3 5 rfl).2 (sampleState 0) rfl
  ⟨⟨a1, rfl, (h1.1 a1).2 rfl, (h1.1 a1).1⟩, ⟨a2, h2.2.1 a2, b2.2.1⟩, ⟨a3, b3.2.1, b3.2.2⟩⟩

/-- C25. An audit write failure does not affect the balance mutation: for every
state, index, delta and reason, and for any two audit sinks (in particular one
that accepts the write and one that fails it), `IncreaseBalance` returns the
same error and leaves the same state, balance written included, and so does
`DecreaseBalance`. -/
theorem balance_mutation_independent_of_sink {σ : Type} (cfg : BeaconChainConfig)
    (S : BeaconState σ) (st : σ) (sink sink' : AuditSink) (idx delta : Nat)
    (reason : String) :
    (IncreaseBalance cfg S st sink idx delta reason).err =
      (IncreaseBalance cfg S st sink' idx delta reason).err ∧
    (IncreaseBalance cfg S st sink idx delta reason).state =
      (IncreaseBalance cfg S st sink' idx delta reason).state ∧
    (DecreaseBalance cfg S st sink idx delta reason).err =
      (DecreaseBalance cfg S st sink' idx delta reason).err ∧
    (DecreaseBalance cfg S st sink idx delta reason).state =
      (DecreaseBalance cfg S st sink' idx delta reason).state := by
  unfold IncreaseBalance DecreaseBalance
  cases hread : S.BalanceAtIndex st idx with
  | error e => exact ⟨rfl, rfl, rfl, rfl⟩
  | ok b =>
    simp only []
    refine ⟨?_, ?_, ?_, ?_⟩
    · cases IncreaseBalanceWithVal b delta with
      | error e => rfl
      | ok newBal =>
        simp only []
        cases S.UpdateBalancesAtIndex st idx newBal <;> rfl
    · cases IncreaseBalanceWithVal b delta with
      | error e => rfl
      | ok newBal =>
        simp only []
        cases S.UpdateBalancesAtIndex st idx newBal <;> rfl
    · cases S.UpdateBalancesAtIndex st idx (DecreaseBalanceWithVal b delta) <;> rfl
    · cases S.UpdateBalancesAtIndex st idx (DecreaseBalanceWithVal b delta) <;> rfl

theorem balance_mutation_independent_of_sink_witness :
    (IncreaseBalance sampleConfig ListState.access (sampleState 5) sampleSink 0 7
      "processDeposit").sink.jsonl.length = 1 ∧
    (IncreaseBalance sampleConfig ListState.access (sampleState 5) closedSink 0 7
      "processDeposit").sink.jsonl.length = 0 ∧
    (IncreaseBalance sampleConfig ListState.access (sampleState 5) closedSink 0 7
      "processDeposit").sink.log.length = 2 ∧
    (IncreaseBalance sampleConfig ListState.access (sampleState 5) sampleSink 0 7
      "processDeposit").err =
      (IncreaseBalance sampleConfig ListState.access (sampleState 5) closedSink 0 7
        "processDeposit").err ∧
    (IncreaseBalance sampleConfig ListState.access (sampleState 5) closedSink 0 7
      "processDeposit").state = sampleState 12 ∧
    (DecreaseBalance sampleConfig ListState.access (sampleState 5) closedSink 0 7
      "processSlashing").state = sampleState 0 :=
  have h := balance_mutation_independent_of_sink sampleConfig ListState.access (sampleState 5)
    sampleSink closedSink 0 7 "processDeposit"
  have h' := balance_mutation_independent_of_sink sampleConfig ListState.access (sampleState 5)
    sampleSink closedSink 0 7 "processSlashing"
  ⟨by decide, by decide, by decide, h.1, h.2.1.symm.trans rfl, h'.2.2.2.symm.trans rfl⟩

/-- C24 (the code departs from the claimed form).  The record that `emitEvent`
writes for validator 0 of the sample state, delta 7 as an increase and the
reason `processDeposit`: after the field name `key` the line has a comma, not a
colon, so it is not the line of the claimed form, in which every field name is
followed by a colon and its value. -/
theorem emitEvent_record_key_separator :
    (emitEvent sampleConfig ListState.access (sampleState 5) sampleSink 0 7 true
      "processDeposit").jsonl =
      ["\x7b\"epoch\":2,\"slot\":70,\"parentRoot\":\"0x01ff\",\"key\",\"0xabababababababababababababababababababababababababababababababababababababababababababababababab\",\"delta\":7,\"reason\":\"processDeposit\"\x7d\n"] ∧
    (emitEvent sampleConfig ListState.access (sampleState 5) sampleSink 0 7 true
      "processDeposit").jsonl ≠
      ["\x7b\"epoch\":2,\"slot\":70,\"parentRoot\":\"0x01ff\",\"key\":\"0xabababababababababababababababababababababababababababababababababababababababababababababababab\",\"delta\":7,\"reason\":\"processDeposit\"\x7d\n"] := by
  have h : (emitEvent sampleConfig ListState.access (sampleState 5) sampleSink 0 7 true
      "processDeposit").jsonl =
      ["\x7b\"epoch\":2,\"slot\":70,\"parentRoot\":\"0x01ff\",\"key\",\"0xabababababababababababababababababababababababababababababababababababababababababababababababab\",\"delta\":7,\"reason\":\"processDeposit\"\x7d\n"] := by
    rfl
  refine ⟨h, ?_⟩
  rw [h]
  decide

/-- C30. `IncreaseBalance` and `DecreaseBalance` emit the audit event before they
write the balance, and the event is not retracted: if the balance reads `b`
and the write then fails, the operation returns the error of the write, the
audit sink is the one `emitEvent` left (with the record appended, for a
non-zero delta, a non-empty reason and a file that accepts the write), and the
state is as before, so the balance at the index still reads `b`. -/
theorem failed_write_keeps_audit_event {σ : Type} (cfg : BeaconChainConfig)
    (S : BeaconState σ) (st : σ) (sink : AuditSink) (idx delta : Nat) (reason : String)
    (b : Nat) (e : Error) (hread : S.BalanceAtIndex st idx = .ok b) :
    (b + delta < 2 ^ 64 → S.UpdateBalancesAtIndex st idx (b + delta) = .error e →
      (IncreaseBalance cfg S st sink idx delta reason).err = some e ∧
      (IncreaseBalance cfg S st sink idx delta reason).sink =
        emitEvent cfg S st sink idx delta true reason ∧
      (IncreaseBalance cfg S st sink idx delta reason).state = st ∧
      S.BalanceAtIndex (IncreaseBalance cfg S st sink idx delta reason).state idx = .ok b ∧
      (delta ≠ 0 → reason ≠ "" → sink.closed = false →
        (IncreaseBalance cfg S st sink idx delta reason).sink.jsonl =
          sink.jsonl ++ [eventRecord cfg S st idx delta true reason])) ∧
    (S.UpdateBalancesAtIndex st idx (DecreaseBalanceWithVal b delta) = .error e →
      (DecreaseBalance cfg S st sink idx delta reason).err = some e ∧
      (DecreaseBalance cfg S st sink idx delta reason).sink =
        emitEvent cfg S st sink idx delta false reason ∧
      (DecreaseBalance cfg S st sink idx delta reason).state = st ∧
      S.BalanceAtIndex (DecreaseBalance cfg S st sink idx delta reason).state idx = .ok b ∧
      (delta ≠ 0 → reason ≠ "" → sink.closed = false →
        (DecreaseBalance cfg S st sink idx delta reason).sink.jsonl =
          sink.jsonl ++ [eventRecord cfg S st idx delta false reason])) := by
  refine ⟨fun hsum hw => ?_, fun hw => ?_⟩
  · rw [IncreaseBalance_of_read cfg S st sink idx delta reason b hread hsum, hw]
    refine ⟨rfl, rfl, rfl, hread, fun hd hr hc => ?_⟩
    exact (emitEvent_of_emit cfg S st sink idx delta true reason hd hr).2.2.1 hc
  · rw [DecreaseBalance_of_read cfg S st sink idx delta reason b hread, hw]
    refine ⟨rfl, rfl, rfl, hread, fun hd hr hc => ?_⟩
    exact (emitEvent_of_emit cfg S st sink idx delta false reason hd hr).2.2.1 hc

theorem failed_write_keeps_audit_event_witness :
    frozenAccess.BalanceAtIndex (sampleState 5) 0 = .ok 5 ∧ 5 + 7 < 2 ^ 64 ∧
    frozenAccess.UpdateBalancesAtIndex (sampleState 5) 0 (5 + 7) =
      .error (.Other "invalid index provided") ∧
    (IncreaseBalance sampleConfig frozenAccess (sampleState 5) sampleSink 0 7
      "processDeposit").err = some (.Other "invalid index provided") ∧
    (IncreaseBalance sampleConfig frozenAccess (sampleState 5) sampleSink 0 7
      "processDeposit").state = sampleState 5 ∧
    (IncreaseBalance sampleConfig frozenAccess (sampleState 5) sampleSink 0 7
      "processDeposit").sink.jsonl =
      [eventRecord sampleConfig frozenAccess (sampleState 5) 0 7 true "processDeposit"] ∧
    (DecreaseBalance sampleConfig frozenAccess (sampleState 5) sampleSink 0 7
      "processSlashing").err = some (.Other "invalid index provided") ∧
    (DecreaseBalance sampleConfig frozenAccess (sampleState 5) sampleSink 0 7
      "processSlashing").sink.jsonl =
      [eventRecord sampleConfig frozenAccess (sampleState 5) 0 7 false "processSlashing"] :=
  have hsum : 5 + 7 < 2 ^ 64 := by norm_num
  have h := failed_write_keeps_audit_event sampleConfig frozenAccess (sampleState 5) sampleSink
    0 7 "processDeposit" 5 (.Other "invalid index provided") rfl
  have h' := failed_write_keeps_audit_event sampleConfig frozenAccess (sampleState 5) sampleSink
    0 7 "processSlashing" 5 (.Other "invalid index provided") rfl
  have a := h.1 hsum rfl
  have a' := h'.2 rfl
  ⟨rfl, hsum, rfl, a.1, a.2.2.1, a.2.2.2.2 (by decide) (by decide) rfl,
    a'.1, a'.2.2.2.2 (by decide) (by decide) rfl⟩

/-! ## Properties of `logBalanceUpdates` -/

theorem Breakdown_BalanceUpdate_at (bub : Breakdown) (pre xs : List BalanceUpdate)
    (x : BalanceUpdate) (hb : bub.breakdown = pre ++ x :: xs) :
    bub.BalanceUpdate ((pre.length : Nat) : Int) = some x := by
  unfold Breakdown.BalanceUpdate Breakdown.slot
  have hnn : ¬ ((pre.length : Nat) : Int) < 0 := by omega
  rw [if_neg hnn, hb]
  simp [List.getElem_append_right]

theorem summaryField_negative (a b d : String) :
    a ++ b ++ "\":-" ++ d = a ++ b ++ "\":" ++ ("-" ++ d) := by
  have h : ("\":-" : String) = "\":" ++ "-" := by decide
  rw [h]
  simp only [String.append_assoc]

theorem summaryFields_eq (bub : Breakdown) (xs pre : List BalanceUpdate) (l : String)
    (hb : bub.breakdown = pre ++ xs) :
    summaryFields bub l (List.range' pre.length xs.length) =
      some (l ++ joinFields
        (((xs.enumFrom pre.length).filter fun p => !p.2.IsZero).map fun p =>
          ",\"" ++ ReasonID (p.1 : Int) ++ "\":" ++ signedDecimal p.2)) := by
  induction xs generalizing pre l with
  | nil => simp [summaryFields, joinFields]
  | cons x xs ih =>
    have hb' : bub.breakdown = (pre ++ [x]) ++ xs := by simp [hb]
    have hih := fun l => ih (pre ++ [x]) l hb'
    simp only [List.length_append, List.length_singleton] at hih
    simp only [List.length_cons, List.range'_succ, List.enumFrom_cons]
    unfold summaryFields
    rw [Breakdown_BalanceUpdate_at bub pre xs x hb]
    simp only []
    rw [hih]
    by_cases hz : x.IsZero = true
    · simp [hz, List.filter_cons]
    · have hz' : x.IsZero = false := by simpa using hz
      simp only [hz', Bool.not_false, if_true, List.filter_cons, List.map_cons, joinFields]
      by_cases hd : x.Decrease ≠ 0
      · simp only [hd, if_true, signedDecimal, ne_eq, not_false_eq_true]
        rw [summaryField_negative]
        simp only [String.append_assoc]
      · simp only [hd, if_false, signedDecimal]
        simp only [String.append_assoc]

theorem signedDecimal_eq (l : String) (bu : BalanceUpdate) :
    (if bu.Decrease ≠ 0 then l ++ ("-" ++ decimal bu.Decrease) else l ++ decimal bu.Increase) =
      l ++ signedDecimal bu := by
  unfold signedDecimal
  split_ifs <;> rfl

theorem summaryLine_eq_spec (cfg : BeaconChainConfig) (slot idx : Nat) (bub : Breakdown) :
    summaryLine cfg slot idx bub = some (summaryLineSpec cfg slot idx bub) := by
  have hf := fun l => summaryFields_eq bub bub.breakdown [] l rfl
  simp only [List.length_nil, bub.size] at hf
  unfold summaryLine summaryLineSpec
  simp only []
  rw [signedDecimal_eq, List.range_eq_range', hf]
  rfl

theorem logBalanceUpdatesLoop_eq (cfg : BeaconChainConfig) (slot : Nat)
    (sbub : List (Nat × Breakdown)) (sink : AuditSink) :
    ∃ sink', logBalanceUpdatesLoop cfg slot sbub sink = some sink' ∧
      sink'.closed = sink.closed ∧
      sink'.ops = sink.ops ++
        sbub.map (fun p => SinkOp.WriteString (summaryLineSpec cfg slot p.1 p.2)) ∧
      (sink.closed = false →
        sink'.jsonl = sink.jsonl ++ sbub.map (fun p => summaryLineSpec cfg slot p.1 p.2)) := by
  induction sbub generalizing sink with
  | nil => exact ⟨sink, rfl, rfl, by simp, fun _ => by simp⟩
  | cons p rest ih =>
    obtain ⟨idx, bub⟩ := p
    unfold logBalanceUpdatesLoop
    rw [summaryLine_eq_spec]
    simp only []
    cases hc : sink.closed with
    | false =>
      obtain ⟨sink', h1, h2, h3, h4⟩ := ih
        { sink with
          ops := sink.ops ++ [SinkOp.WriteString (summaryLineSpec cfg slot idx bub)],
          jsonl := sink.jsonl ++ [summaryLineSpec cfg slot idx bub] }
      refine ⟨sink', ?_, ?_, ?_, ?_⟩
      · simpa [AuditSink.WriteString, hc] using h1
      · simpa [hc] using h2
      · simpa using h3
      · intro _
        simpa using h4 (by simpa using hc)
    | true =>
      obtain ⟨sink', h1, h2, h3, _⟩ := ih
        ({ sink with
          ops := sink.ops ++ [SinkOp.WriteString (summaryLineSpec cfg slot idx bub)] }.logEntry
          { level := "error", msg := "Failed to write into eth-jsonl", fields := [] })
      refine ⟨sink', ?_, ?_, ?_, ?_⟩
      · simpa [AuditSink.WriteString, hc] using h1
      · simpa [AuditSink.logEntry, hc] using h2
      · simpa [AuditSink.logEntry] using h3
      · intro h
        cases h

/-- C26. For every validator index and `Breakdown` reported by the state, the
line that `logBalanceUpdates` builds is the summary line of the specification:
the head with epoch, slot, index and `Total()` as a signed decimal (`-` and
`Decrease` if `Total().Decrease != 0`, otherwise `Increase`), then one field
named `ReasonID(r)` for exactly the ordinals `r` in `0..TotalReasonsCount-1`
whose slot is non-zero, in increasing order and negative iff the slot's
`Decrease` is non-zero, then the closing brace and a newline.  The call does
not panic, and on a file that accepts the writes it appends exactly these
lines, one per reported pair, in the order of the pairs. -/
theorem logBalanceUpdates_writes_summary_lines {σ : Type} (cfg : BeaconChainConfig)
    (S : BeaconState σ) (st : σ) (sink : AuditSink) :
    (∀ idx bub, (idx, bub) ∈ S.SparseBalanceUpdateBreakdown st →
      summaryLine cfg (S.Slot st) idx bub = some (summaryLineSpec cfg (S.Slot st) idx bub)) ∧
    (∃ sink', logBalanceUpdates cfg S st sink = some sink' ∧
      (sink.closed = false →
        sink'.jsonl = sink.jsonl ++
          (S.SparseBalanceUpdateBreakdown st).map
            (fun p => summaryLineSpec cfg (S.Slot st) p.1 p.2))) := by
  refine ⟨fun idx bub _ => summaryLine_eq_spec cfg (S.Slot st) idx bub, ?_⟩
  obtain ⟨sink', h1, _, _, h4⟩ :=
    logBalanceUpdatesLoop_eq cfg (S.Slot st) (S.SparseBalanceUpdateBreakdown st) sink
  exact ⟨sink', h1, h4⟩

theorem logBalanceUpdates_writes_summary_lines_witness :
    (3, sampleBreakdown) ∈ ListState.access.SparseBalanceUpdateBreakdown sampleLoggedState ∧
    sampleSink.closed = false ∧
    summaryLineSpec sampleConfig 70 3 sampleBreakdown =
      "\x7b\"epoch\":2,\"slot\":70,\"index\":\"3\",\"delta\":2,\"attesterAttestation\":5,\"validatorSlashing\":-3\x7d\n" ∧
    summaryLine sampleConfig (ListState.access.Slot sampleLoggedState) 3 sampleBreakdown =
      some (summaryLineSpec sampleConfig 70 3 sampleBreakdown) ∧
    ∃ sink', logBalanceUpdates sampleConfig ListState.access sampleLoggedState sampleSink =
        some sink' ∧
      sink'.jsonl = [summaryLineSpec sampleConfig 70 3 sampleBreakdown] :=
  have hmem : (3, sampleBreakdown) ∈
      ListState.access.SparseBalanceUpdateBreakdown sampleLoggedState :=
    List.mem_singleton.mpr rfl
  have h := logBalanceUpdates_writes_summary_lines sampleConfig ListState.access
    sampleLoggedState sampleSink
  match h.2 with
  | ⟨sink', h1, h2⟩ => ⟨hmem, rfl, by rfl, h.1 3 sampleBreakdown hmem, sink', h1, h2 rfl⟩

/-- C29 (the code departs from the claim).  `logBalanceUpdates` on a state that
reports one breakdown makes one `WriteString` on the file of its package and
no `Lock` or `Unlock` at all, so the write is made without the mutex; the
writes of `emitEvent` and the close of the shutdown handler are made between
`Lock` and `Unlock`. -/
theorem logBalanceUpdates_writes_without_mutex :
    (logBalanceUpdates sampleConfig ListState.access sampleLoggedState sampleSink).map
      (fun sink => sink.ops) =
      some [.WriteString (summaryLineSpec sampleConfig 70 3 sampleBreakdown)] ∧
    ¬ SinkOp.Guarded [.WriteString (summaryLineSpec sampleConfig 70 3 sampleBreakdown)] ∧
    (∀ sink, logBalanceUpdates sampleConfig ListState.access sampleLoggedState sampleSink =
      some sink → ¬ SinkOp.Guarded sink.ops) ∧
    SinkOp.Guarded (emitEvent sampleConfig ListState.access (sampleState 5) sampleSink 0 7 true
      "processDeposit").ops ∧
    (closeOnShutdown sampleSink).ops = [.Lock, .Close, .Unlock] ∧
    SinkOp.Guarded (closeOnShutdown sampleSink).ops := by
  have hops : (logBalanceUpdates sampleConfig ListState.access sampleLoggedState sampleSink).map
      (fun sink => sink.ops) =
      some [.WriteString (summaryLineSpec sampleConfig 70 3 sampleBreakdown)] := by
    obtain ⟨sink', h1, _, h3, _⟩ := logBalanceUpdatesLoop_eq sampleConfig 70
      [(3, sampleBreakdown)] sampleSink
    have hrun : logBalanceUpdates sampleConfig ListState.access sampleLoggedState sampleSink =
        some sink' := h1
    rw [hrun]
    simpa [sampleSink] using h3
  have hunguarded :
      ¬ SinkOp.Guarded [.WriteString (summaryLineSpec sampleConfig 70 3 sampleBreakdown)] := by
    simp [SinkOp.Guarded, SinkOp.guardedFrom]
  refine ⟨hops, hunguarded, ?_, ?_, rfl, by decide⟩
  · intro sink hsink
    rw [hsink] at hops
    simp only [Option.map_some', Option.some.injEq] at hops
    rw [hops]
    exact hunguarded
  · have h := (emitEvent_of_emit sampleConfig ListState.access (sampleState 5) sampleSink 0 7
      true "processDeposit" (by decide) (by decide)).1
    rw [h]
    simp [SinkOp.Guarded, SinkOp.guardedFrom, sampleSink]

/-! ## Properties of the sync-committee head state cache -/

theorem SyncCommitteeHeadStateCache_Put_eq {σ : Type} (version : σ → Version)
    (c : SyncCommitteeHeadStateCache σ) (slot : Nat) (st : Option σ) :
    (c.Put version slot st).1.entry =
      match acceptedPuts version [(slot, st)] with
      | [] => c.entry
      | e :: _ => some e := by
  cases st with
  | none => rfl
  | some st =>
    by_cases h : (version st).ordinal < Version.Altair.ordinal
    · have h' : ¬ Version.Altair.ordinal ≤ (version st).ordinal := by omega
      simp [SyncCommitteeHeadStateCache.Put, acceptedPuts, h, h']
    · have h' : Version.Altair.ordinal ≤ (version st).ordinal := by omega
      simp [SyncCommitteeHeadStateCache.Put, acceptedPuts, h, h']

/-- After a sequence of `Put` calls the cache holds the pair of the last call
that was given an acceptable state, or what it held before if there is none. -/
theorem SyncCommitteeHeadStateCache_putAll_entry {σ : Type} (version : σ → Version)
    (puts : List (Nat × Option σ)) (c : SyncCommitteeHeadStateCache σ) :
    (c.putAll version puts).entry =
      ((acceptedPuts version puts).getLast?).or c.entry := by
  induction puts generalizing c with
  | nil => simp [SyncCommitteeHeadStateCache.putAll, acceptedPuts]
  | cons p ps ih =>
    have hstep : c.putAll version (p :: ps) = (c.Put version p.1 p.2).1.putAll version ps := rfl
    have hacc : acceptedPuts version (p :: ps) =
        acceptedPuts version [(p.1, p.2)] ++ acceptedPuts version ps := by
      simp [acceptedPuts, List.filterMap_cons]
      split <;> simp
    rw [hstep, ih, SyncCommitteeHeadStateCache_Put_eq, hacc, List.getLast?_append]
    cases hone : acceptedPuts version [(p.1, p.2)] with
    | nil => simp
    | cons e es =>
      have hes : es = [] := by
        have hlen : (acceptedPuts version [(p.1, p.2)]).length ≤ 1 := by
          unfold acceptedPuts
          exact (List.length_filterMap_le _ _).trans (by simp)
        rw [hone] at hlen
        simp only [List.length_cons] at hlen
        exact List.length_eq_zero.mp (by omega)
      subst hes
      cases (acceptedPuts version ps).getLast? <;> simp

/-- C27. The sync-committee head state cache after any sequence of `Put` calls on
a new cache: `Get(slot)` is decided by the most recent successful `Put` (the
last call given a state of version Altair or later).  If that call stored
`(s, st)`, then `Get(s)` returns exactly `st` and `Get` of every other slot,
a previously stored one included, fails with `NotFound`; if no call succeeded
(the cache is empty), every `Get` fails with `NotFound`.  So `Get(slot)`
succeeds iff `slot` is the slot of the most recent successful `Put`. -/
theorem SyncCommitteeHeadStateCache_Get_last_Put {σ : Type} (version : σ → Version)
    (puts : List (Nat × Option σ)) (slot : Nat) :
    (∀ s st, (acceptedPuts version puts).getLast? = some (s, st) →
      (NewSyncCommitteeHeadState.putAll version puts).Get s = .ok st ∧
      (slot ≠ s → (NewSyncCommitteeHeadState.putAll version puts).Get slot =
        .error .NotFound)) ∧
    ((acceptedPuts version puts).getLast? = none →
      (NewSyncCommitteeHeadState.putAll version puts).Get slot = .error .NotFound) ∧
    ((∃ st, (NewSyncCommitteeHeadState.putAll version puts).Get slot = .ok st) ↔
      ∃ st, (acceptedPuts version puts).getLast? = some (slot, st)) := by
  have hentry := SyncCommitteeHeadStateCache_putAll_entry version puts
    (NewSyncCommitteeHeadState : SyncCommitteeHeadStateCache σ)
  have hnew : (NewSyncCommitteeHeadState : SyncCommitteeHeadStateCache σ).entry = none := rfl
  rw [hnew, Option.or_none] at hentry
  unfold SyncCommitteeHeadStateCache.Get
  rw [hentry]
  refine ⟨fun s st h => ?_, fun h => ?_, ?_⟩
  · rw [h]
    refine ⟨by simp, fun hne => by simp [hne]⟩
  · rw [h]
  · cases hlast : (acceptedPuts version puts).getLast? with
    | none => simp
    | some e =>
      obtain ⟨s, st⟩ := e
      by_cases hs : slot = s
      · subst hs
        simp
      · have hs' : ¬ s = slot := fun h => hs h.symm
        simp [hs, hs']

theorem SyncCommitteeHeadStateCache_Get_last_Put_witness :
    (acceptedPuts id [(1, some Version.Altair)]).getLast? = some (1, Version.Altair) ∧
    (NewSyncCommitteeHeadState.putAll id [(1, some Version.Altair)]).Get 1 =
      .ok Version.Altair ∧
    (2 ≠ 1 ∧ (NewSyncCommitteeHeadState.putAll id [(1, some Version.Altair)]).Get 2 =
      .error .NotFound) ∧
    ((acceptedPuts id ([] : List (Nat × Option Version))).getLast? = none ∧
      (NewSyncCommitteeHeadState.putAll id ([] : List (Nat × Option Version))).Get 1 =
        .error .NotFound) ∧
    ((acceptedPuts id [(1, some Version.Altair), (100, some Version.Bellatrix),
        (7, some Version.Phase0), (8, none)]).getLast? = some (100, Version.Bellatrix) ∧
      (NewSyncCommitteeHeadState.putAll id [(1, some Version.Altair),
        (100, some Version.Bellatrix), (7, some Version.Phase0), (8, none)]).Get 100 =
        .ok Version.Bellatrix ∧
      (NewSyncCommitteeHeadState.putAll id [(1, some Version.Altair),
        (100, some Version.Bellatrix), (7, some Version.Phase0), (8, none)]).Get 1 =
        .error .NotFound) :=
  have h1 := SyncCommitteeHeadStateCache_Get_last_Put id [(1, some Version.Altair)] 2
  have h2 := SyncCommitteeHeadStateCache_Get_last_Put id
    ([] : List (Nat × Option Version)) 1
  have h3 := SyncCommitteeHeadStateCache_Get_last_Put id [(1, some Version.Altair),
    (100, some Version.Bellatrix), (7, some Version.Phase0), (8, none)] 1
  have a1 : (acceptedPuts id [(1, some Version.Altair)]).getLast? =
      some (1, Version.Altair) := by decide
  have a3 : (acceptedPuts id [(1, some Version.Altair), (100, some Version.Bellatrix),
      (7, some Version.Phase0), (8, none)]).getLast? = some (100, Version.Bellatrix) := by
    decide
  ⟨a1, (h1.1 1 Version.Altair a1).1, ⟨by decide, (h1.1 1 Version.Altair a1).2 (by decide)⟩,
    ⟨rfl, h2.2.1 rfl⟩,
    ⟨a3, (h3.1 100 Version.Bellatrix a3).1, (h3.1 100 Version.Bellatrix a3).2 (by decide)⟩⟩

/-- C28. `Put(slot, state)` of the sync-committee head state cache fails iff the
state is nil or its version predates Altair (Phase 0); Altair, Bellatrix and
Capella states are accepted.  A failed `Put` leaves the cache as it was, so
every following `Get` returns what it returned before, `NotFound` on a new
cache. -/
theorem SyncCommitteeHeadStateCache_Put_fails_iff {σ : Type} (version : σ → Version)
    (c : SyncCommitteeHeadStateCache σ) (slot key : Nat) (st : Option σ) :
    ((c.Put version slot st).2 ≠ none ↔
      st = none ∨ ∃ s, st = some s ∧ version s = Version.Phase0) ∧
    (∀ s, st = some s →
      version s = Version.Altair ∨ version s = Version.Bellatrix ∨
        version s = Version.Capella →
      (c.Put version slot st).2 = none ∧ (c.Put version slot st).1.Get slot = .ok s) ∧
    ((c.Put version slot st).2 ≠ none →
      (c.Put version slot st).1 = c ∧ (c.Put version slot st).1.Get key = c.Get key) ∧
    ((NewSyncCommitteeHeadState.Put version slot st).2 ≠ none →
      (NewSyncCommitteeHeadState.Put version slot st).1.Get key = .error .NotFound) := by
  have hfail : (c.Put version slot st).2 ≠ none → (c.Put version slot st).1 = c := by
    cases st with
    | none => intro _; rfl
    | some s =>
      by_cases h : (version s).ordinal < Version.Altair.ordinal
      · intro _; simp [SyncCommitteeHeadStateCache.Put, h]
      · intro hne; simp [SyncCommitteeHeadStateCache.Put, h] at hne
  refine ⟨?_, ?_, fun hne => ?_, ?_⟩
  · cases st with
    | none => simp [SyncCommitteeHeadStateCache.Put]
    | some s =>
      cases hv : version s <;>
        simp [SyncCommitteeHeadStateCache.Put, hv, Version.ordinal]
  · intro s hs hv
    subst hs
    rcases hv with hv | hv | hv <;>
      simp [SyncCommitteeHeadStateCache.Put, SyncCommitteeHeadStateCache.Get, hv,
        Version.ordinal]
  · have h := hfail hne
    exact ⟨h, by rw [h]⟩
  · intro hne
    cases st with
    | none => rfl
    | some s =>
      by_cases h : (version s).ordinal < Version.Altair.ordinal
      · simp [SyncCommitteeHeadStateCache.Put, SyncCommitteeHeadStateCache.Get, h,
          NewSyncCommitteeHeadState]
      · simp [SyncCommitteeHeadStateCache.Put, h] at hne

theorem SyncCommitteeHeadStateCache_Put_fails_iff_witness :
    ((NewSyncCommitteeHeadState.Put id 1 (none : Option Version)).2 ≠ none ∧
      (NewSyncCommitteeHeadState.Put id 1 (none : Option Version)).1.Get 1 =
        .error .NotFound) ∧
    ((NewSyncCommitteeHeadState.Put id 1 (some Version.Phase0)).2 ≠ none ∧
      (NewSyncCommitteeHeadState.Put id 1 (some Version.Phase0)).1.Get 1 =
        .error .NotFound) ∧
    ((NewSyncCommitteeHeadState.Put id 200 (some Version.Capella)).2 = none ∧
      (NewSyncCommitteeHeadState.Put id 200 (some Version.Capella)).1.Get 200 =
        .ok Version.Capella) ∧
    (((SyncCommitteeHeadStateCache.mk (some (1, Version.Altair))).Put id 5
        (some Version.Phase0)).2 ≠ none ∧
      ((SyncCommitteeHeadStateCache.mk (some (1, Version.Altair))).Put id 5
        (some Version.Phase0)).1.Get 1 = .ok Version.Altair) :=
  have h1 := SyncCommitteeHeadStateCache_Put_fails_iff id
    (NewSyncCommitteeHeadState : SyncCommitteeHeadStateCache Version) 1 1 none
  have h2 := SyncCommitteeHeadStateCache_Put_fails_iff id
    (NewSyncCommitteeHeadState : SyncCommitteeHeadStateCache Version) 1 1 (some Version.Phase0)
  have h3 := SyncCommitteeHeadStateCache_Put_fails_iff id
    (NewSyncCommitteeHeadState : SyncCommitteeHeadStateCache Version) 200 200
    (some Version.Capella)
  have h4 := SyncCommitteeHeadStateCache_Put_fails_iff id
    (SyncCommitteeHeadStateCache.mk (some (1, Version.Altair))) 5 1 (some Version.Phase0)
  have a1 := h1.1.mpr (Or.inl rfl)
  have a2 := h2.1.mpr (Or.inr ⟨Version.Phase0, rfl, rfl⟩)
  have a4 := h4.1.mpr (Or.inr ⟨Version.Phase0, rfl, rfl⟩)
  ⟨⟨a1, h1.2.2.2 a1⟩, ⟨a2, h2.2.2.2 a2⟩, h3.2.1 Version.Capella rfl (Or.inr (Or.inr rfl)),
    ⟨a4, (h4.2.2.1 a4).2.trans rfl⟩⟩


/-! ## `Add` and `Sub` as netting -/

theorem BalanceUpdate_net_diff (a b : Nat) :
    (BalanceUpdate.net a b).Increase + b = a + (BalanceUpdate.net a b).Decrease ∧
    (BalanceUpdate.net a b).Increase ≤ a ∧ (BalanceUpdate.net a b).Decrease ≤ b := by
  unfold BalanceUpdate.net
  split_ifs with h
  · simp only []; omega
  · simp only []; omega

/-- Netting depends only on the difference of the two amounts. -/
theorem BalanceUpdate_net_eq_of_diff (a b a' b' : Nat) (h : a + b' = a' + b) :
    BalanceUpdate.net a b = BalanceUpdate.net a' b' := by
  unfold BalanceUpdate.net
  by_cases h1 : a > b
  · have h2 : a' > b' := by omega
    rw [if_pos h1, if_pos h2]
    have : a - b = a' - b' := by omega
    rw [this]
  · have h2 : ¬ a' > b' := by omega
    rw [if_neg h1, if_neg h2]
    have : b - a = b' - a' := by omega
    rw [this]

theorem BalanceUpdate_net_of_netted (bu : BalanceUpdate) (h : bu.Netted) :
    BalanceUpdate.net bu.Increase bu.Decrease = bu := by
  obtain ⟨i, d⟩ := bu
  unfold BalanceUpdate.Netted at h
  simp only [] at h
  unfold BalanceUpdate.net
  rcases h with h | h
  · subst h; simp
  · subst h
    by_cases hi : i = 0
    · subst hi; simp
    · have : i > 0 := Nat.pos_of_ne_zero hi
      simp [this]

/-- While the addition does not wrap, `Add` is the netting of the increased
gain against the loss. -/
theorem BalanceUpdate_Add_eq_net (bu : BalanceUpdate) (delta : Nat)
    (hd : bu.Decrease < 2 ^ 64) (h : bu.Increase + delta < 2 ^ 64) :
    bu.Add delta = BalanceUpdate.net (bu.Increase + delta) bu.Decrease := by
  unfold BalanceUpdate.Add BalanceUpdate.net
  simp only [wrapAdd_eq _ _ h]
  by_cases h0 : bu.Decrease = 0
  · simp only [h0, if_true]
    by_cases hpos : bu.Increase + delta > 0
    · simp [hpos]
    · have hz : bu.Increase + delta = 0 := by omega
      simp [hz]
  · simp only [h0, if_false]
    by_cases h1 : bu.Increase + delta > bu.Decrease
    · simp only [h1, if_true]
      rw [wrapSub_eq _ _ h (Nat.le_of_lt h1)]
    · simp only [h1, if_false]
      rw [wrapSub_eq _ _ hd (by omega)]

/-- While the addition does not wrap, `Sub` is the netting of the gain against
the increased loss. -/
theorem BalanceUpdate_Sub_eq_net (bu : BalanceUpdate) (delta : Nat)
    (hi : bu.Increase < 2 ^ 64) (h : bu.Decrease + delta < 2 ^ 64) :
    bu.Sub delta = BalanceUpdate.net bu.Increase (bu.Decrease + delta) := by
  unfold BalanceUpdate.Sub BalanceUpdate.net
  simp only [wrapAdd_eq _ _ h]
  by_cases h0 : bu.Increase = 0
  · simp [h0]
  · simp only [h0, if_false]
    by_cases h1 : bu.Increase > bu.Decrease + delta
    · simp only [h1, if_true]
      rw [wrapSub_eq _ _ hi (Nat.le_of_lt h1)]
    · simp only [h1, if_false]
      rw [wrapSub_eq _ _ h (by omega)]

theorem BalanceUpdate_Add_then_Sub (bu : BalanceUpdate) (delta : Nat) (hnet : bu.Netted)
    (hr : bu.InRange) (h : bu.Increase + delta < 2 ^ 64) :
    (bu.Add delta).Sub delta = bu := by
  obtain ⟨hi, hd⟩ := hr
  have hA := BalanceUpdate_Add_eq_net bu delta hd h
  obtain ⟨hdiff, hle1, hle2⟩ := BalanceUpdate_net_diff (bu.Increase + delta) bu.Decrease
  rw [← hA] at hdiff hle1 hle2
  have hwrap : (bu.Add delta).Decrease + delta < 2 ^ 64 := by
    rcases BalanceUpdate.netted_Add bu delta with h0 | h0
    · omega
    · omega
  rw [BalanceUpdate_Sub_eq_net (bu.Add delta) delta (by omega) hwrap,
    BalanceUpdate_net_eq_of_diff _ _ bu.Increase bu.Decrease (by omega),
    BalanceUpdate_net_of_netted bu hnet]

theorem BalanceUpdate_Sub_then_Add (bu : BalanceUpdate) (delta : Nat) (hnet : bu.Netted)
    (hr : bu.InRange) (h : bu.Decrease + delta < 2 ^ 64) :
    (bu.Sub delta).Add delta = bu := by
  obtain ⟨hi, hd⟩ := hr
  have hS := BalanceUpdate_Sub_eq_net bu delta hi h
  obtain ⟨hdiff, hle1, hle2⟩ := BalanceUpdate_net_diff bu.Increase (bu.Decrease + delta)
  rw [← hS] at hdiff hle1 hle2
  have hwrap : (bu.Sub delta).Increase + delta < 2 ^ 64 := by
    rcases BalanceUpdate.netted_Sub bu delta with h0 | h0
    · omega
    · omega
  rw [BalanceUpdate_Add_eq_net (bu.Sub delta) delta (by omega) hwrap,
    BalanceUpdate_net_eq_of_diff _ _ bu.Increase bu.Decrease (by omega),
    BalanceUpdate_net_of_netted bu hnet]

/-- C33. `Add` and `Sub` cancel on netted values.  For every `BalanceUpdate` with
at most one non-zero field (both fields in the `uint64` range) and every delta:
if `Increase + delta < 2^64` then `Add(delta)` followed by `Sub(delta)` returns
exactly the original value, and if `Decrease + delta < 2^64` then `Sub(delta)`
followed by `Add(delta)` returns exactly the original value. -/
theorem BalanceUpdate_Add_Sub_cancel (bu : BalanceUpdate) (delta : Nat) (hnet : bu.Netted)
    (hr : bu.InRange) :
    (bu.Increase + delta < 2 ^ 64 → (bu.Add delta).Sub delta = bu) ∧
    (bu.Decrease + delta < 2 ^ 64 → (bu.Sub delta).Add delta = bu) :=
  ⟨BalanceUpdate_Add_then_Sub bu delta hnet hr, BalanceUpdate_Sub_then_Add bu delta hnet hr⟩

theorem BalanceUpdate_Add_Sub_cancel_witness :
    (BalanceUpdate.mk 0 9).Netted ∧ (BalanceUpdate.mk 0 9).InRange ∧
    (BalanceUpdate.mk 0 9).Increase + 20 < 2 ^ 64 ∧
    (BalanceUpdate.mk 0 9).Decrease + 20 < 2 ^ 64 ∧
    (BalanceUpdate.mk 0 9).Add 20 = { Increase := 11, Decrease := 0 } ∧
    ((BalanceUpdate.mk 0 9).Add 20).Sub 20 = { Increase := 0, Decrease := 9 } ∧
    ((BalanceUpdate.mk 0 9).Sub 20).Add 20 = { Increase := 0, Decrease := 9 } :=
  have hnet : (BalanceUpdate.mk 0 9).Netted := Or.inl rfl
  have hr : (BalanceUpdate.mk 0 9).InRange := ⟨by norm_num, by norm_num⟩
  have h1 : (BalanceUpdate.mk 0 9).Increase + 20 < 2 ^ 64 := by norm_num
  have h2 : (BalanceUpdate.mk 0 9).Decrease + 20 < 2 ^ 64 := by norm_num
  have h := BalanceUpdate_Add_Sub_cancel (BalanceUpdate.mk 0 9) 20 hnet hr
  ⟨hnet, hr, h1, h2, by decide, h.1 h1, h.2 h2⟩

/-! ## `Total` after an update of one slot -/

theorem List_sum_map_set {α : Type} (f : α → Nat) (l : List α) (n : Nat)
    (hn : n < l.length) (x : α) :
    ((l.set n x).map f).sum + f l[n] = (l.map f).sum + f x := by
  induction l generalizing n with
  | nil => simp at hn
  | cons a l ih =>
    cases n with
    | zero =>
      simp only [List.set_cons_zero, List.map_cons, List.sum_cons, List.getElem_cons_zero]
      omega
    | succ n =>
      have hn' : n < l.length := by simpa using hn
      have := ih n hn'
      simp only [List.set_cons_succ, List.map_cons, List.sum_cons, List.getElem_cons_succ]
      omega

theorem Breakdown_Total_eq_net (b : Breakdown)
    (hI : b.sumIncrease < 2 ^ 64) (hD : b.sumDecrease < 2 ^ 64) :
    b.Total = BalanceUpdate.net b.sumIncrease b.sumDecrease :=
  Breakdown_Total_of_sums b hI hD

/-- The two sums of a table after slot `n` has been replaced by `x`, and the
bounds of the old slot by the old sums. -/
theorem Breakdown_sums_set (b b' : Breakdown) (n : Nat) (hn : n < b.breakdown.length)
    (x : BalanceUpdate) (hset : b'.breakdown = b.breakdown.set n x) :
    b'.sumIncrease + b.breakdown[n].Increase = b.sumIncrease + x.Increase ∧
    b'.sumDecrease + b.breakdown[n].Decrease = b.sumDecrease + x.Decrease ∧
    b.breakdown[n].Increase ≤ b.sumIncrease ∧ b.breakdown[n].Decrease ≤ b.sumDecrease := by
  unfold Breakdown.sumIncrease Breakdown.sumDecrease
  rw [hset]
  have h1 := List_sum_map_set (fun bu : BalanceUpdate => bu.Increase) b.breakdown n hn x
  have h2 := List_sum_map_set (fun bu : BalanceUpdate => bu.Decrease) b.breakdown n hn x
  have h3 := List_sum_map_set (fun bu : BalanceUpdate => bu.Increase) b.breakdown n hn
    BalanceUpdate.zero
  have h4 := List_sum_map_set (fun bu : BalanceUpdate => bu.Decrease) b.breakdown n hn
    BalanceUpdate.zero
  have hz1 : BalanceUpdate.zero.Increase = 0 := rfl
  have hz2 : BalanceUpdate.zero.Decrease = 0 := rfl
  simp only [hz1, hz2] at h3 h4
  refine ⟨h1, h2, ?_, ?_⟩
  · omega
  · omega

theorem Breakdown_Total_after_Add (b : Breakdown) (r : Reason) (delta : Nat)
    (hr : Reason.Valid r) (hI : b.sumIncrease + delta < 2 ^ 64)
    (hD : b.sumDecrease < 2 ^ 64) :
    ∃ b', b.Add delta r = some b' ∧ b'.Total = b.Total.Add delta := by
  have hlt : r.toNat < b.breakdown.length := by
    rw [b.size]; exact Reason_toNat_lt r hr
  have hslot : b.slot r = some b.breakdown[r.toNat] := by
    rw [(Breakdown_slot_valid b r hr).1, List.getElem?_eq_getElem hlt]
  refine ⟨{ breakdown := b.breakdown.set r.toNat (b.breakdown[r.toNat].Add delta),
            size := (List.length_set _ _ _).trans b.size }, ?_, ?_⟩
  · simp only [Breakdown.Add, hslot]
  · obtain ⟨h1, h2, h3, h4⟩ := Breakdown_sums_set b
      { breakdown := b.breakdown.set r.toNat (b.breakdown[r.toNat].Add delta),
        size := (List.length_set _ _ _).trans b.size } r.toNat hlt
      (b.breakdown[r.toNat].Add delta) rfl
    have hA := BalanceUpdate_Add_eq_net b.breakdown[r.toNat] delta (by omega) (by omega)
    obtain ⟨a1, a2, a3⟩ := BalanceUpdate_net_diff (b.breakdown[r.toNat].Increase + delta)
      b.breakdown[r.toNat].Decrease
    rw [← hA] at a1 a2 a3
    obtain ⟨n1, n2, n3⟩ := BalanceUpdate_net_diff b.sumIncrease b.sumDecrease
    have hT := Breakdown_Total_eq_net b (by omega) hD
    rw [← hT] at n1 n2 n3
    rw [Breakdown_Total_eq_net _ (by omega) (by omega),
      BalanceUpdate_Add_eq_net b.Total delta (by omega) (by omega)]
    exact BalanceUpdate_net_eq_of_diff _ _ _ _ (by omega)

theorem Breakdown_Total_after_Sub (b : Breakdown) (r : Reason) (delta : Nat)
    (hr : Reason.Valid r) (hD : b.sumDecrease + delta < 2 ^ 64)
    (hI : b.sumIncrease < 2 ^ 64) :
    ∃ b', b.Sub delta r = some b' ∧ b'.Total = b.Total.Sub delta := by
  have hlt : r.toNat < b.breakdown.length := by
    rw [b.size]; exact Reason_toNat_lt r hr
  have hslot : b.slot r = some b.breakdown[r.toNat] := by
    rw [(Breakdown_slot_valid b r hr).1, List.getElem?_eq_getElem hlt]
  refine ⟨{ breakdown := b.breakdown.set r.toNat (b.breakdown[r.toNat].Sub delta),
            size := (List.length_set _ _ _).trans b.size }, ?_, ?_⟩
  · simp only [Breakdown.Sub, hslot]
  · obtain ⟨h1, h2, h3, h4⟩ := Breakdown_sums_set b
      { breakdown := b.breakdown.set r.toNat (b.breakdown[r.toNat].Sub delta),
        size := (List.length_set _ _ _).trans b.size } r.toNat hlt
      (b.breakdown[r.toNat].Sub delta) rfl
    have hS := BalanceUpdate_Sub_eq_net b.breakdown[r.toNat] delta (by omega) (by omega)
    obtain ⟨a1, a2, a3⟩ := BalanceUpdate_net_diff b.breakdown[r.toNat].Increase
      (b.breakdown[r.toNat].Decrease + delta)
    rw [← hS] at a1 a2 a3
    obtain ⟨n1, n2, n3⟩ := BalanceUpdate_net_diff b.sumIncrease b.sumDecrease
    have hT := Breakdown_Total_eq_net b hI (by omega)
    rw [← hT] at n1 n2 n3
    rw [Breakdown_Total_eq_net _ (by omega) (by omega),
      BalanceUpdate_Sub_eq_net b.Total delta (by omega) (by omega)]
    exact BalanceUpdate_net_eq_of_diff _ _ _ _ (by omega)

/-- C32 (as amended).  `Total` is a homomorphism for updates while neither sum
wraps: for every `Breakdown`, valid reason `r` and delta, if the sum of all
`Increase` fields plus delta and the sum of all `Decrease` fields are below
`2^64`, then `Add(delta, r)` does not panic and `Total()` after it equals
`Total()` before it with `BalanceUpdate.Add(delta)` applied; symmetrically for
`Sub` when the sum of all `Decrease` fields plus delta and the sum of all
`Increase` fields are below `2^64`. -/
theorem Breakdown_Total_homomorphism (b : Breakdown) (r : Reason) (delta : Nat)
    (hr : Reason.Valid r) :
    (b.sumIncrease + delta < 2 ^ 64 → b.sumDecrease < 2 ^ 64 →
      ∃ b', b.Add delta r = some b' ∧ b'.Total = b.Total.Add delta) ∧
    (b.sumDecrease + delta < 2 ^ 64 → b.sumIncrease < 2 ^ 64 →
      ∃ b', b.Sub delta r = some b' ∧ b'.Total = b.Total.Sub delta) :=
  ⟨Breakdown_Total_after_Add b r delta hr, Breakdown_Total_after_Sub b r delta hr⟩

theorem Breakdown_Total_homomorphism_witness :
    Reason.Valid ValidatorSlashing ∧
    sampleBreakdown.sumIncrease + 7 < 2 ^ 64 ∧ sampleBreakdown.sumDecrease < 2 ^ 64 ∧
    sampleBreakdown.sumDecrease + 7 < 2 ^ 64 ∧ sampleBreakdown.sumIncrease < 2 ^ 64 ∧
    sampleBreakdown.Total.Add 7 = { Increase := 9, Decrease := 0 } ∧
    sampleBreakdown.Total.Sub 7 = { Increase := 0, Decrease := 5 } ∧
    (∃ b', sampleBreakdown.Add 7 ValidatorSlashing = some b' ∧
      b'.Total = sampleBreakdown.Total.Add 7) ∧
    (∃ b', sampleBreakdown.Sub 7 ValidatorSlashing = some b' ∧
      b'.Total = sampleBreakdown.Total.Sub 7) :=
  have hr : Reason.Valid ValidatorSlashing := by decide
  have h1 : sampleBreakdown.sumIncrease + 7 < 2 ^ 64 := by decide
  have h2 : sampleBreakdown.sumDecrease < 2 ^ 64 := by decide
  have h3 : sampleBreakdown.sumDecrease + 7 < 2 ^ 64 := by decide
  have h4 : sampleBreakdown.sumIncrease < 2 ^ 64 := by decide
  have h := Breakdown_Total_homomorphism sampleBreakdown ValidatorSlashing 7 hr
  ⟨hr, h1, h2, h3, h4, by decide, by decide, h.1 h1 h2, h.2 h3 h4⟩

/-- C32 (the claim as stated fails).  In `lossyBreakdown` the `Increase` fields
sum to 0 and the `Decrease` fields, `2^63` twice, sum to `2^64`, which wraps to
0 in `Total()`.  `Add(1, AttesterAttestation)` satisfies the condition of the
claim (`0 + 1 < 2^64`), yet `Total()` after it is `{0, 2^64 - 1}` while
`Total()` before it with `Add(1)` applied is `{1, 0}`; symmetrically for `Sub`
on `gainfulBreakdown`. -/
theorem Breakdown_Total_not_homomorphic_on_wrap :
    Reason.Valid AttesterAttestation ∧
    lossyBreakdown.sumIncrease + 1 < 2 ^ 64 ∧ lossyBreakdown.sumDecrease = 2 ^ 64 ∧
    (lossyBreakdown.Add 1 AttesterAttestation).map (fun b => b.Total) =
      some { Increase := 0, Decrease := 2 ^ 64 - 1 } ∧
    lossyBreakdown.Total.Add 1 = { Increase := 1, Decrease := 0 } ∧
    (lossyBreakdown.Add 1 AttesterAttestation).map (fun b => b.Total) ≠
      some (lossyBreakdown.Total.Add 1) ∧
    gainfulBreakdown.sumDecrease + 1 < 2 ^ 64 ∧
    (gainfulBreakdown.Sub 1 AttesterAttestation).map (fun b => b.Total) ≠
      some (gainfulBreakdown.Total.Sub 1) := by
  refine ⟨by decide, by decide, by decide, by decide, by decide, by decide, by decide,
    by decide⟩

/-! ## The audit record of `DecreaseBalance` -/

theorem DecreaseBalance_sink {σ : Type} (cfg : BeaconChainConfig) (S : BeaconState σ)
    (st : σ) (sink : AuditSink) (idx d : Nat) (reason : String) (b : Nat)
    (hread : S.BalanceAtIndex st idx = .ok b) :
    (DecreaseBalance cfg S st sink idx d reason).sink =
      emitEvent cfg S st sink idx d false reason := by
  rw [DecreaseBalance_of_read cfg S st sink idx d reason b hread]
  cases S.UpdateBalancesAtIndex st idx (DecreaseBalanceWithVal b d) <;> rfl

/-- C31. The audit record of `DecreaseBalance` carries the requested delta, not
the applied one.  If the balance reads `b`, the delta is `d > b` and the
reason is non-empty, then `DecreaseBalance` passes 0 to the balance write (a
real change of `b`), and after a successful call the balance reads 0, while
the one record it writes, whether or not the balance write succeeds, has the
delta field `-d`; the recorded magnitude `d` exceeds the real change `b` by
`d - b > 0`. -/
theorem DecreaseBalance_records_requested_delta {σ : Type} (cfg : BeaconChainConfig)
    (S : BeaconState σ) (st : σ) (sink : AuditSink) (idx b d : Nat) (reason : String)
    (hread : S.BalanceAtIndex st idx = .ok b) (hd : d > b) (hr : reason ≠ "") :
    DecreaseBalanceWithVal b d = 0 ∧
    (∀ st', S.UpdateBalancesAtIndex st idx 0 = .ok st' →
      (DecreaseBalance cfg S st sink idx d reason).err = none ∧
      (DecreaseBalance cfg S st sink idx d reason).state = st' ∧
      (S.ReadsBackWrites →
        S.BalanceAtIndex (DecreaseBalance cfg S st sink idx d reason).state idx = .ok 0)) ∧
    (DecreaseBalance cfg S st sink idx d reason).sink.ops =
      sink.ops ++ [.Lock, .WriteString (eventRecord cfg S st idx d false reason), .Unlock] ∧
    (sink.closed = false →
      (DecreaseBalance cfg S st sink idx d reason).sink.jsonl =
        sink.jsonl ++ [eventRecord cfg S st idx d false reason]) ∧
    eventRecord cfg S st idx d false reason =
      eventLine (slots.ToEpoch cfg (S.Slot st)) (S.Slot st) (sharpHex (S.ParentRoot st))
        (sharpHex
          (match S.ValidatorAtIndexReadOnly st idx with
          | .ok validator => validator.PublicKey
          | .error _ => List.replicate 48 0))
        ("-" ++ decimal d) reason ∧
    d - (b - DecreaseBalanceWithVal b d) = d - b ∧ 0 < d - b := by
  have hval : DecreaseBalanceWithVal b d = 0 := by
    unfold DecreaseBalanceWithVal
    rw [if_pos hd]
  have hd0 : d ≠ 0 := by omega
  obtain ⟨e1, _, e3, _⟩ := emitEvent_of_emit cfg S st sink idx d false reason hd0 hr
  have hsink := DecreaseBalance_sink cfg S st sink idx d reason b hread
  refine ⟨hval, fun st' hw => ?_, by rw [hsink]; exact e1, fun hc => by rw [hsink]; exact e3 hc,
    rfl, by rw [hval]; omega, by omega⟩
  rw [DecreaseBalance_of_read cfg S st sink idx d reason b hread, hval, hw]
  exact ⟨rfl, rfl, fun hlaw => hlaw st st' idx 0 hw⟩

theorem DecreaseBalance_records_requested_delta_witness :
    ListState.access.BalanceAtIndex (sampleState 5) 0 = .ok 5 ∧ 9 > 5 ∧
    "processSlashing" ≠ "" ∧
    (DecreaseBalance sampleConfig ListState.access (sampleState 5) sampleSink 0 9
      "processSlashing").state = sampleState 0 ∧
    ListState.access.BalanceAtIndex
      (DecreaseBalance sampleConfig ListState.access (sampleState 5) sampleSink 0 9
        "processSlashing").state 0 = .ok 0 ∧
    (DecreaseBalance sampleConfig ListState.access (sampleState 5) sampleSink 0 9
      "processSlashing").sink.jsonl =
      [eventRecord sampleConfig ListState.access (sampleState 5) 0 9 false
        "processSlashing"] ∧
    eventRecord sampleConfig ListState.access (sampleState 5) 0 9 false "processSlashing" =
      "\x7b\"epoch\":2,\"slot\":70,\"parentRoot\":\"0x01ff\",\"key\",\"0xabababababababababababababababababababababababababababababababababababababababababababababababab\",\"delta\":-9,\"reason\":\"processSlashing\"\x7d\n" ∧
    9 - (5 - DecreaseBalanceWithVal 5 9) = 9 - 5 :=
  have hgt : 9 > 5 := by norm_num
  have hr : "processSlashing" ≠ "" := by decide
  have h := DecreaseBalance_records_requested_delta sampleConfig ListState.access
    (sampleState 5) sampleSink 0 5 9 "processSlashing" rfl hgt hr
  have hw := h.2.1 (sampleState 0) rfl
  ⟨rfl, hgt, hr, hw.2.1, hw.2.2 ListState.readsBackWrites, h.2.2.2.1 rfl, by rfl,
    h.2.2.2.2.2.1⟩

/-! ## `FinalityDelay` past the finalized epoch -/

/-- C34. `FinalityDelay` is an unchecked `uint64` subtraction: for every
`finalizedEpoch > prevEpoch` (in the `uint64` range) it returns
`2^64 - (finalizedEpoch - prevEpoch)`, a non-zero value, rather than failing or
saturating at 0; so `IsInInactivityLeak` is true for every such pair whose gap
`finalizedEpoch - prevEpoch` is smaller than
`2^64 - MinEpochsToInactivityPenalty`. -/
theorem FinalityDelay_wraps_around (cfg : BeaconChainConfig) (prevEpoch finalizedEpoch : Nat)
    (hrange : finalizedEpoch < 2 ^ 64) (hgt : finalizedEpoch > prevEpoch) :
    FinalityDelay prevEpoch finalizedEpoch = 2 ^ 64 - (finalizedEpoch - prevEpoch) ∧
    FinalityDelay prevEpoch finalizedEpoch ≠ 0 ∧
    (finalizedEpoch - prevEpoch < 2 ^ 64 - cfg.MinEpochsToInactivityPenalty →
      IsInInactivityLeak cfg prevEpoch finalizedEpoch = true) := by
  have hd : FinalityDelay prevEpoch finalizedEpoch = 2 ^ 64 - (finalizedEpoch - prevEpoch) := by
    unfold FinalityDelay wrapSub
    omega
  refine ⟨hd, by rw [hd]; omega, fun hgap => ?_⟩
  unfold IsInInactivityLeak
  rw [hd]
  simp only [decide_eq_true_eq]
  omega

theorem FinalityDelay_wraps_around_witness :
    15 < 2 ^ 64 ∧ 15 > 10 ∧
    15 - 10 < 2 ^ 64 - sampleConfig.MinEpochsToInactivityPenalty ∧
    FinalityDelay 10 15 = 18446744073709551611 ∧
    IsInInactivityLeak sampleConfig 10 15 = true :=
  have a1 : 15 < 2 ^ 64 := by norm_num
  have a2 : 15 > 10 := by norm_num
  have a3 : 15 - 10 < 2 ^ 64 - sampleConfig.MinEpochsToInactivityPenalty := by decide
  have h := FinalityDelay_wraps_around sampleConfig 10 15 a1 a2
  ⟨a1, a2, a3, h.1.trans (by norm_num), h.2.2 a3⟩
